import Mathlib

/-!
# Bink Race: track geometry, vehicle physics, lap tracking, leaderboard

A shallow embedding of `src/script.js`.

Number model.  A JavaScript number is modelled as an element of a linearly
ordered field `K` with a floor function, that is, arithmetic is exact; rounding
of IEEE doubles is outside the model, with one exception: in
`Track.normalizeAngle` the rounded sum `a + Math.PI * 2` can reach `Math.PI * 2`,
which exact arithmetic excludes, so the range of that function is stated for
`Track.normalizeAngle.rounded`, whose addition is rounded (`roundDouble` on the
rationals, or any rounding with `RoundLaws`).  The functions and the constant taken from
the host `Math` object (`Math.sqrt`, `Math.atan2`, `Math.sin`, `Math.cos`,
`Math.PI`) are the fields of a record `MathLib K`; a theorem that needs a
property of one of them assumes it in a hypothesis (`SqrtLaws`,
`StartTrigLaws`, or a bound on `Math.PI`).  All definitions are computable, for
instance over `ℚ`.

Non-finite numbers.  The only way the code can leave the finite numbers is a
division whose divisor is zero (`1 / Math.sqrt(0)` is `Infinity`, and
`0 * Infinity` is `NaN`).  Every division whose divisor is not a non-zero
constant goes through `jsDiv`, which returns `none` for a zero divisor; a
function that contains such a division returns an `Option`, and `none` means
that the JavaScript state now holds a non-finite number.

The game.  What `Game.update` reads from its environment is an argument: the
keys pressed (`readInputState()`) and the text of the date.  A racer object is
its index in `Game.racers`.  `Game.checkFinish` also returns `none` when the
read of `this.player.finished` throws because `this.player` is `null`.
-/

namespace BinkRace

/-- The part of the host `Math` object that the script uses. -/
structure MathLib (K : Type) [LinearOrderedField K] where
  /-- The function `Math.sqrt`. -/
  sqrt : K → K
  /-- The function `Math.atan2`, arguments in the order `(y, x)`. -/
  atan2 : K → K → K
  /-- The function `Math.sin`. -/
  sin : K → K
  /-- The function `Math.cos`. -/
  cos : K → K
  /-- The constant `Math.PI`. -/
  pi : K
  /-- The constant `Math.PI` is positive. -/
  pi_pos : 0 < pi

/-- What the proofs assume of `Math.sqrt`: on a non-negative argument it returns
the non-negative square root. -/
structure SqrtLaws {K : Type} [LinearOrderedField K] (M : MathLib K) : Prop where
  /-- The result is never negative. -/
  nonneg : ∀ x : K, 0 ≤ M.sqrt x
  /-- The result squares to the argument. -/
  mul_self : ∀ x : K, 0 ≤ x → M.sqrt x * M.sqrt x = x

/-- What the proofs about the start of a race assume of `Math.cos` and `Math.sin`:
their values at the start heading `-π/2` and at the start bearing `1.5π`. -/
structure StartTrigLaws {K : Type} [LinearOrderedField K] (M : MathLib K) : Prop where
  /-- The cosine of the start heading. -/
  cos_heading : M.cos (-M.pi / 2) = 0
  /-- The sine of the start heading. -/
  sin_heading : M.sin (-M.pi / 2) = -1
  /-- The cosine of the start bearing, as `placeOnTrack` computes it for the player. -/
  cos_start : M.cos (M.pi * 1.5 + 0) = 0
  /-- The sine of the start bearing, as `placeOnTrack` computes it for the player. -/
  sin_start : M.sin (M.pi * 1.5 + 0) = -1

section Definitions

variable {K : Type} [LinearOrderedField K]

/-- Division `a / b` of two finite numbers; `none` when the divisor is zero
(JavaScript then yields `Infinity`, `-Infinity` or `NaN`). -/
def jsDiv (a b : K) : Option K :=
  if b = 0 then none else some (a / b)

/-- A point or a vector `{ x, y }`. -/
structure Vec (K : Type) where
  x : K
  y : K
deriving DecidableEq

/-- The semi-axes `{ rx, ry }` of an ellipse. -/
structure Ellipse (K : Type) where
  rx : K
  ry : K
deriving DecidableEq

/-- A boost pad `{ angle, span }`. -/
structure BoostPad (K : Type) where
  angle : K
  span : K
deriving DecidableEq

/-- The fields of a `Track` object (the canvas itself is left out). -/
structure Track (K : Type) where
  center : Vec K
  outer : Ellipse K
  inner : Ellipse K
  lane : Ellipse K
  detail : Ellipse K
  boostPads : List (BoostPad K)

/-- The surface descriptor returned by `Track.surfaceAt`. -/
structure Surface (K : Type) where
  grip : K
  maxSpeed : K
  boost : K
  offTrack : Bool
deriving DecidableEq

/-- The fields of a `Racer` object.  `finishTime = none` is JavaScript `null`. -/
structure Racer (K : Type) where
  name : String
  color : String
  isPlayer : Bool
  velocity : Vec K
  heading : K
  position : Vec K
  startOffset : K
  completedLaps : Nat
  lapHistory : List K
  lastAngle : K
  distanceAccumulator : K
  finished : Bool
  finishTime : Option K
deriving DecidableEq

/-- The constant `TOTAL_LAPS`. -/
def TOTAL_LAPS : Nat := 3

/-- The `Track` constructor, for a canvas of the given width and height. -/
def Track.constructor (M : MathLib K) (canvasWidth canvasHeight : K) : Track K where
  center := { x := canvasWidth / 2, y := canvasHeight / 2 }
  outer := { rx := 360, ry := 210 }
  inner := { rx := 188, ry := 116 }
  lane := { rx := 270, ry := 155 }
  detail := { rx := 310, ry := 185 }
  boostPads :=
    [ { angle := M.pi * 0.08, span := 0.32 },
      { angle := M.pi * 1.05, span := 0.28 },
      { angle := M.pi * 1.65, span := 0.25 } ]

/-- The method `Track.ellipseValue(offset, ellipse)`. -/
def Track.ellipseValue (offset : Vec K) (ellipse : Ellipse K) : K :=
  let dx := offset.x
  let dy := offset.y
  (dx * dx) / (ellipse.rx * ellipse.rx) + (dy * dy) / (ellipse.ry * ellipse.ry)

/-- The integer part of `q` (rounding toward zero). -/
def truncInt [FloorRing K] (q : K) : Int :=
  if 0 ≤ q then Int.floor q else Int.ceil q

/-- The remainder operator `a % m` on finite numbers with `m` non-zero: the
result is `a - m * trunc(a / m)` and has the sign of the dividend. -/
def jsMod [FloorRing K] (a m : K) : K :=
  a - m * ((truncInt (a / m) : Int) : K)

/-- The function `clamp(value, min, max)`. -/
def clamp (value lo hi : K) : K :=
  max lo (min hi value)

/-- The first loop of `shortestAngle`: `while (diff < -Math.PI) diff += Math.PI * 2`. -/
def shortestAngle.raise [FloorRing K] (M : MathLib K) (diff : K) : K :=
  if diff < -M.pi then shortestAngle.raise M (diff + M.pi * 2) else diff
termination_by Int.toNat (Int.ceil ((-M.pi - diff) / (M.pi * 2)))
decreasing_by
  rename_i h
  have hp : 0 < M.pi * 2 := mul_pos M.pi_pos two_pos
  have h1 : (-M.pi - (diff + M.pi * 2)) / (M.pi * 2) = (-M.pi - diff) / (M.pi * 2) - 1 := by
    field_simp
    ring
  have h2 : 0 < Int.ceil ((-M.pi - diff) / (M.pi * 2)) :=
    Int.ceil_pos.mpr (div_pos (by linarith) hp)
  rw [h1, Int.ceil_sub_one]
  omega

/-- The second loop of `shortestAngle`: `while (diff > Math.PI) diff -= Math.PI * 2`. -/
def shortestAngle.lower [FloorRing K] (M : MathLib K) (diff : K) : K :=
  if diff > M.pi then shortestAngle.lower M (diff - M.pi * 2) else diff
termination_by Int.toNat (Int.ceil ((diff - M.pi) / (M.pi * 2)))
decreasing_by
  rename_i h
  have hp : 0 < M.pi * 2 := mul_pos M.pi_pos two_pos
  have h1 : (diff - M.pi * 2 - M.pi) / (M.pi * 2) = (diff - M.pi) / (M.pi * 2) - 1 := by
    field_simp
    ring
  have h2 : 0 < Int.ceil ((diff - M.pi) / (M.pi * 2)) :=
    Int.ceil_pos.mpr (div_pos (by linarith) hp)
  rw [h1, Int.ceil_sub_one]
  omega

/-- The function `shortestAngle(a, b)`. -/
def shortestAngle [FloorRing K] (M : MathLib K) (a b : K) : K :=
  shortestAngle.lower M (shortestAngle.raise M (a - b))

/-- The function `directionFromAngle(angle)`. -/
def directionFromAngle (M : MathLib K) (angle : K) : Vec K :=
  { x := M.cos angle, y := M.sin angle }

/-- The function `Math.hypot(x, y)` of two finite numbers. -/
def hypot (M : MathLib K) (x y : K) : K :=
  M.sqrt (x * x + y * y)

/-- The method `Track.normalizeAngle(angle)`, in exact arithmetic; the rounding of
its addition on doubles is carried by `Track.normalizeAngle.rounded`. -/
def Track.normalizeAngle [FloorRing K] (M : MathLib K) (angle : K) : K :=
  let a := jsMod angle (M.pi * 2)
  if a < 0 then a + M.pi * 2 else a

/-- The method `Track.angleFor(position)`. -/
def Track.angleFor (M : MathLib K) (t : Track K) (position : Vec K) : K :=
  let dx := position.x - t.center.x
  let dy := position.y - t.center.y
  M.atan2 (dy / t.outer.ry) (dx / t.outer.rx)

/-- The method `Track.laneDistance(position, ellipse)`. -/
def Track.laneDistance (M : MathLib K) (t : Track K) (position : Vec K)
    (ellipse : Ellipse K) : K :=
  let dx := (position.x - t.center.x) / ellipse.rx
  let dy := (position.y - t.center.y) / ellipse.ry
  M.sqrt (dx * dx + dy * dy)

/-- The method `Track.clampToBounds(racer)`.  The local `offset` is threaded
through both blocks, as in the source: the inner test reads the offset that the
outer block has already scaled. -/
def Track.clampToBounds (M : MathLib K) (t : Track K) (racer : Racer K) :
    Option (Racer K) :=
  let offset : Vec K :=
    { x := racer.position.x - t.center.x, y := racer.position.y - t.center.y }
  let outerValue := Track.ellipseValue offset t.outer
  let afterOuter : Option (Vec K × Racer K) :=
    if outerValue > 1 then
      (jsDiv 1 (M.sqrt outerValue)).map fun factor =>
        let offset1 : Vec K :=
          { x := offset.x * (factor * 0.995), y := offset.y * (factor * 0.995) }
        (offset1,
          { racer with
            position := { x := t.center.x + offset1.x, y := t.center.y + offset1.y }
            velocity := { x := racer.velocity.x * 0.45, y := racer.velocity.y * 0.45 } })
    else some (offset, racer)
  afterOuter.bind fun st =>
    let offset1 := st.1
    let racer1 := st.2
    let innerValue := Track.ellipseValue offset1 t.inner
    if innerValue < 1 then
      (jsDiv 1 (M.sqrt innerValue)).map fun factor =>
        let offset2 : Vec K :=
          { x := offset1.x * (factor * 1.005), y := offset1.y * (factor * 1.005) }
        { racer1 with
          position := { x := t.center.x + offset2.x, y := t.center.y + offset2.y }
          velocity := { x := racer1.velocity.x * 0.35, y := racer1.velocity.y * 0.35 } }
    else some racer1

/-- The `for (const pad of this.boostPads)` loop of `Track.surfaceAt`: the first
pad that matches overrides the descriptor and ends the loop. -/
def Track.surfaceAt.padLoop [FloorRing K] (M : MathLib K) (angle laneDistance : K) :
    List (BoostPad K) → Surface K → Surface K
  | [], s => s
  | pad :: rest, s =>
    let difference := shortestAngle M angle pad.angle
    if |difference| < pad.span / 2 ∧ |laneDistance - 1| < 0.09 then
      { s with boost := 230, grip := 1.05, maxSpeed := 290 }
    else
      Track.surfaceAt.padLoop M angle laneDistance rest s

/-- The method `Track.surfaceAt(position)`. -/
def Track.surfaceAt [FloorRing K] (M : MathLib K) (t : Track K) (position : Vec K) :
    Surface K :=
  let offset : Vec K := { x := position.x - t.center.x, y := position.y - t.center.y }
  let outerValue := Track.ellipseValue offset t.outer
  if outerValue > 1.015 then
    { grip := 0.25, maxSpeed := 80, boost := 0, offTrack := true }
  else
    let innerValue := Track.ellipseValue offset t.inner
    if innerValue < 1 then
      { grip := 0.3, maxSpeed := 65, boost := 0, offTrack := true }
    else
      let angle := Track.normalizeAngle M (t.angleFor M position)
      let laneDistance := t.laneDistance M position t.lane
      let detailDistance := t.laneDistance M position t.detail
      let s0 : Surface K := { grip := 0.78, maxSpeed := 220, boost := 0, offTrack := false }
      let s1 : Surface K :=
        if detailDistance > 1.06 ∨ detailDistance < 0.78 then
          { s0 with grip := 0.68, maxSpeed := 190 }
        else s0
      let s2 : Surface K :=
        if laneDistance > 0.88 ∧ laneDistance < 1.12 then
          { s1 with grip := 0.98, maxSpeed := 255 }
        else s1
      Track.surfaceAt.padLoop M angle laneDistance t.boostPads s2

/-- The snapshot returned by `readInputState()`. -/
structure InputState where
  forward : Bool
  backward : Bool
  left : Bool
  right : Bool
  drift : Bool
deriving DecidableEq

/-- The number that a boolean becomes in arithmetic (`true` is 1, `false` is 0). -/
def boolToNumber (b : Bool) : K :=
  if b then 1 else 0

/-- The `Racer` constructor. -/
def Racer.constructor (M : MathLib K) (name color : String) (isPlayer : Bool)
    (startOffset : K) : Racer K where
  name := name
  color := color
  isPlayer := isPlayer
  velocity := { x := 0, y := 0 }
  heading := -M.pi / 2
  position := { x := 0, y := 0 }
  startOffset := startOffset
  completedLaps := 0
  lapHistory := []
  lastAngle := 0
  distanceAccumulator := 0
  finished := false
  finishTime := none

/-- The method `Racer.placeOnTrack(track)`. -/
def Racer.placeOnTrack [FloorRing K] (M : MathLib K) (r : Racer K) (track : Track K) :
    Racer K :=
  let angle := M.pi * 1.5 + r.startOffset
  let position : Vec K :=
    { x := track.center.x + M.cos angle * (track.lane.rx + r.startOffset * 12),
      y := track.center.y + M.sin angle * (track.lane.ry + r.startOffset * 12) }
  { r with
    heading := -M.pi / 2
    position := position
    lastAngle := Track.normalizeAngle M (track.angleFor M position) }

/-- The getter `Racer.speed`. -/
def Racer.speed (M : MathLib K) (r : Racer K) : K :=
  hypot M r.velocity.x r.velocity.y

/-- The method `Racer.controlPlayer(dt, surface, inputState)`.  The steering line
reads `this.speed` after the thrust has been added to the velocity. -/
def Racer.controlPlayer (M : MathLib K) (r : Racer K) (dt : K) (surface : Surface K)
    (inputState : InputState) : Racer K :=
  let forwardInput : K := if inputState.forward then 1 else 0
  let brakeInput : K := if inputState.backward then 1 else 0
  let steer : K := boolToNumber inputState.right - boolToNumber inputState.left
  let forward := directionFromAngle M r.heading
  let thrust := forwardInput * 230 - brakeInput * 160
  let r1 : Racer K :=
    { r with velocity :=
        { x := r.velocity.x + forward.x * thrust * dt,
          y := r.velocity.y + forward.y * thrust * dt } }
  let r2 : Racer K :=
    { r1 with heading := r1.heading + steer * (1.8 + min (r1.speed M) 260 / 160) * dt }
  let r3 : Racer K :=
    if inputState.drift then
      let lateral : Vec K := { x := -forward.y, y := forward.x }
      { r2 with velocity :=
          { x := r2.velocity.x + lateral.x * 45 * dt,
            y := r2.velocity.y + lateral.y * 45 * dt } }
    else r2
  if surface.boost > 0 then
    { r3 with velocity :=
        { x := r3.velocity.x + forward.x * surface.boost * dt,
          y := r3.velocity.y + forward.y * surface.boost * dt } }
  else r3

/-- The method `Racer.controlAI(dt, surface, track, elapsed)`. -/
def Racer.controlAI [FloorRing K] (M : MathLib K) (r : Racer K) (dt : K)
    (surface : Surface K) (track : Track K) (elapsed : K) : Racer K :=
  let forward := directionFromAngle M r.heading
  let angle := track.angleFor M r.position
  let targetAngle := Track.normalizeAngle M (angle + 0.24)
  let currentAngle := Track.normalizeAngle M angle
  let diff0 := shortestAngle M targetAngle currentAngle
  let diff := diff0 + M.sin (elapsed * 0.8 + r.startOffset * 5) * 0.02
  let r1 : Racer K := { r with heading := r.heading + diff * 1.9 * dt }
  let thrustBase := 210 + M.sin (elapsed * 1.2 + r.startOffset * 9) * 18
  let r2 : Racer K :=
    { r1 with velocity :=
        { x := r1.velocity.x + forward.x * thrustBase * dt,
          y := r1.velocity.y + forward.y * thrustBase * dt } }
  let r3 : Racer K :=
    if surface.boost > 0 then
      { r2 with velocity :=
          { x := r2.velocity.x + forward.x * surface.boost * dt * 0.65,
            y := r2.velocity.y + forward.y * surface.boost * dt * 0.65 } }
    else r2
  if surface.offTrack then
    { r3 with heading := r3.heading + diff * 2.5 * dt }
  else r3

/-- The method `Racer.applyPhysics(dt, surface)`.  The rescaling divides by the
speed; the result is `none` when that speed is zero. -/
def Racer.applyPhysics (M : MathLib K) (r : Racer K) (dt : K) (surface : Surface K) :
    Option (Racer K) :=
  let dragBase : K := 0.68
  let gripFactor := clamp surface.grip 0.2 1.25
  let r1 : Racer K :=
    { r with velocity :=
        { x := r.velocity.x * (1 - dragBase * dt),
          y := r.velocity.y * (1 - dragBase * dt) } }
  let r2 : Racer K :=
    { r1 with velocity :=
        { x := r1.velocity.x * (1 - (1 - gripFactor) * 1.4 * dt),
          y := r1.velocity.y * (1 - (1 - gripFactor) * 1.4 * dt) } }
  let maxSpeed := surface.maxSpeed + 50
  let magnitude := r2.speed M
  if magnitude > maxSpeed then
    (jsDiv maxSpeed magnitude).map fun scale =>
      { r2 with velocity := { x := r2.velocity.x * scale, y := r2.velocity.y * scale } }
  else some r2

/-- The method `Racer.updateLapProgress(track, surface, elapsed)`. -/
def Racer.updateLapProgress [FloorRing K] (M : MathLib K) (r : Racer K) (track : Track K)
    (surface : Surface K) (elapsed : K) : Racer K :=
  let angle := Track.normalizeAngle M (track.angleFor M r.position)
  let r1 : Racer K :=
    if r.speed M > 60 then
      if r.lastAngle > M.pi * 1.5 ∧ angle < M.pi * 0.5 then
        let r0 : Racer K :=
          { r with
            completedLaps := r.completedLaps + 1
            lapHistory := r.lapHistory ++ [elapsed]
            distanceAccumulator := 0 }
        if r0.completedLaps ≥ TOTAL_LAPS then
          { r0 with finished := true, finishTime := some elapsed }
        else r0
      else r
    else r
  let r2 : Racer K := { r1 with lastAngle := angle }
  if !surface.offTrack then
    { r2 with distanceAccumulator := r2.distanceAccumulator + r2.speed M }
  else r2

/-- The method `Racer.update(dt, track, inputState, elapsed)`. -/
def Racer.update [FloorRing K] (M : MathLib K) (r : Racer K) (dt : K) (track : Track K)
    (inputState : InputState) (elapsed : K) : Option (Racer K) :=
  if r.finished then some r
  else
    let surface := track.surfaceAt M r.position
    let r1 : Racer K :=
      if r.isPlayer then r.controlPlayer M dt surface inputState
      else r.controlAI M dt surface track elapsed
    (r1.applyPhysics M dt surface).bind fun r2 =>
      let r3 : Racer K :=
        { r2 with position :=
            { x := r2.position.x + r2.velocity.x * dt,
              y := r2.position.y + r2.velocity.y * dt } }
      (track.clampToBounds M r3).map fun r4 =>
        r4.updateLapProgress M track surface elapsed

/-- The method `Racer.currentLapProgress(track)`, in exact arithmetic; the rounding
of its operations on doubles is carried by `Racer.currentLapProgress.rounded`. -/
def Racer.currentLapProgress [FloorRing K] (M : MathLib K) (r : Racer K) (track : Track K) :
    K :=
  let angle := Track.normalizeAngle M (track.angleFor M r.position)
  angle / (M.pi * 2)

/-- The method `Array.prototype.sort(compare)`: a stable sort that keeps `a`
before `b` when `compare(a, b) <= 0`. -/
def jsSort {α : Type} (compare : α → α → K) (l : List α) : List α :=
  l.mergeSort fun a b => decide (compare a b ≤ 0)

/-- The method `Array.prototype.slice(0, end)` for an integer `end`; a negative
`end` counts from the end of the array. -/
def sliceTo {α : Type} (l : List α) (e : Int) : List α :=
  if e < 0 then l.take (l.length - e.natAbs) else l.take e.toNat

/-- The method `Array.prototype.findIndex(p)`; `-1` when no element matches. -/
def findIndex {α : Type} (p : α → Bool) (l : List α) : Int :=
  match l.findIdx? p with
  | some i => (i : Int)
  | none => -1

/-- A leaderboard entry `{ name, time }`. -/
structure LeaderboardEntry (K : Type) where
  name : String
  time : K
deriving DecidableEq

/-- The fields of a `Leaderboard` object. -/
structure Leaderboard (K : Type) where
  limit : Int
  entries : List (LeaderboardEntry K)

/-- The method `Leaderboard.push(entry)`; `save` and `render` write to the
storage and to the page only. -/
def Leaderboard.push (lb : Leaderboard K) (entry : LeaderboardEntry K) : Leaderboard K :=
  let pushed := lb.entries ++ [entry]
  let sorted := jsSort (fun a b => a.time - b.time) pushed
  { lb with entries := sliceTo sorted lb.limit }

/-- The values of `Game.state`. -/
inductive Phase where
  | idle
  | countdown
  | running
  | finished
deriving DecidableEq

/-- The fields of a `Game` object.  A racer object is identified by its index in
`racers`; `player` is that index for the player object, `none` for `null`. -/
structure Game (K : Type) where
  track : Track K
  leaderboard : Leaderboard K
  state : Phase
  lastTimestamp : K
  elapsed : K
  countdown : K
  countdownTimer : K
  goTimer : K
  player : Option Nat
  racers : List (Racer K)
  positionIndex : Int
  overlayMessage : String

/-- The `Leaderboard` constructor; `stored` is the list that `load()` reads from
the storage (empty when nothing usable is stored). -/
def Leaderboard.constructor (limit : Int) (stored : List (LeaderboardEntry K)) :
    Leaderboard K :=
  { limit := limit, entries := sliceTo stored limit }

/-- The `Game` constructor, for a canvas of the given width and height and the
stored leaderboard entries. -/
def Game.constructor (M : MathLib K) (canvasWidth canvasHeight : K)
    (stored : List (LeaderboardEntry K)) : Game K where
  track := Track.constructor M canvasWidth canvasHeight
  leaderboard := Leaderboard.constructor 6 stored
  state := Phase.idle
  lastTimestamp := 0
  elapsed := 0
  countdown := 3
  countdownTimer := 0
  goTimer := 0
  player := none
  racers := []
  positionIndex := 1
  overlayMessage := ""

/-- The body of the `forEach` in `Game.setupRace`. -/
def Game.setupRace.reset [FloorRing K] (M : MathLib K) (track : Track K) (racer : Racer K) :
    Racer K :=
  let r1 := racer.placeOnTrack M track
  { r1 with
    velocity := { x := 0, y := 0 }
    completedLaps := 0
    lapHistory := []
    finished := false
    finishTime := none
    lastAngle := Track.normalizeAngle M (track.angleFor M r1.position) }

/-- The method `Game.setupRace()`. -/
def Game.setupRace [FloorRing K] (M : MathLib K) (g : Game K) : Game K :=
  let player := Racer.constructor M "You" "#f72585" true 0
  let rivalOne := Racer.constructor M "Bink Nova" "#4cc9f0" false 0.17
  let rivalTwo := Racer.constructor M "Solar Bink" "#fee440" false (-0.18)
  let rivalThree := Racer.constructor M "Midnight Bink" "#48cae4" false 0.33
  { g with
    racers := [player, rivalOne, rivalTwo, rivalThree].map (Game.setupRace.reset M g.track)
    player := some 0 }

/-- An entry `{ racer, progress }` of the standings in `Game.resolvePosition`; the
racer object is held as its index in `Game.racers`. -/
structure Standing (K : Type) where
  racer : Nat
  progress : K

/-- The standings of `Game.resolvePosition` before sorting. -/
def Game.standings [FloorRing K] (M : MathLib K) (g : Game K) : List (Standing K) :=
  g.racers.enum.map fun e =>
    { racer := e.1, progress := (e.2.completedLaps : K) + e.2.currentLapProgress M g.track }

/-- The method `Game.resolvePosition()`. -/
def Game.resolvePosition [FloorRing K] (M : MathLib K) (g : Game K) : Game K :=
  let standings := jsSort (fun a b => b.progress - a.progress) (g.standings M)
  { g with
    positionIndex := findIndex (fun entry => decide (some entry.racer = g.player)) standings + 1 }

/-- The racer object that `this.player` refers to; `none` when `this.player` is
`null`. -/
def Game.playerRacer (g : Game K) : Option (Racer K) :=
  g.player.bind fun i => g.racers[i]?

/-- The method `Game.startRace()`; the start button belongs to the page only. -/
def Game.startRace [FloorRing K] (M : MathLib K) (g : Game K) : Game K :=
  let g1 := g.setupRace M
  { g1 with
    elapsed := 0
    state := Phase.countdown
    countdown := 3
    countdownTimer := 0
    goTimer := 0
    overlayMessage := "" }

/-- The method `Game.checkFinish()`; `today` is the text that
`new Date().toLocaleDateString()` returns during the call.  The result is `none`
when reading `this.player.finished` throws (`this.player` is `null`) and when the
time pushed is `null`, which is not a number. -/
def Game.checkFinish (g : Game K) (today : String) : Option (Game K) :=
  g.playerRacer.bind fun player =>
    if player.finished = true ∧ g.state ≠ Phase.finished then
      player.finishTime.map fun time =>
        { g with
          state := Phase.finished
          overlayMessage := "Finished in P" ++ toString g.positionIndex
          leaderboard :=
            g.leaderboard.push
              { name := "P" ++ toString g.positionIndex ++ " • " ++ today, time := time } }
    else some g

/-- The `this.racers.forEach((racer) => racer.update(...))` of `Game.update`;
`none` once a call has produced a non-finite number. -/
def Game.update.forEach [FloorRing K] (M : MathLib K) (dt : K) (track : Track K)
    (inputState : InputState) (elapsed : K) : List (Racer K) → Option (List (Racer K))
  | [] => some []
  | racer :: rest =>
    (racer.update M dt track inputState elapsed).bind fun racer1 =>
      (Game.update.forEach M dt track inputState elapsed rest).map fun rest1 => racer1 :: rest1

/-- The method `Game.update(dt)`; `inputState` is what `readInputState()` returns
during the call, and `today` is the date text that `checkFinish` reads. -/
def Game.update [FloorRing K] (M : MathLib K) (g : Game K) (dt : K)
    (inputState : InputState) (today : String) : Option (Game K) :=
  if g.state = Phase.countdown then
    let g1 : Game K := { g with countdownTimer := g.countdownTimer + dt }
    if g1.countdownTimer ≥ 1 then
      let g2 : Game K := { g1 with countdown := g1.countdown - 1, countdownTimer := 0 }
      if g2.countdown ≤ 0 then
        some { g2 with state := Phase.running, goTimer := 0.65 }
      else some g2
    else some g1
  else if g.state = Phase.running then
    let g1 : Game K := { g with elapsed := g.elapsed + dt }
    let g2 : Game K :=
      if g1.goTimer > 0 then { g1 with goTimer := max 0 (g1.goTimer - dt) } else g1
    (Game.update.forEach M dt g2.track inputState g2.elapsed g2.racers).bind fun racers =>
      let g3 : Game K := { g2 with racers := racers }
      (g3.resolvePosition M).checkFinish today
  else if g.state = Phase.finished then
    some g
  else some g

/-! ### Vocabulary of the statements -/

/-- The offset of a position from the track centre, as computed at the start of
`Track.clampToBounds` and `Track.surfaceAt`. -/
def Track.offset (t : Track K) (position : Vec K) : Vec K :=
  { x := position.x - t.center.x, y := position.y - t.center.y }

/-- A position is within the track bounds: not outside the outer ellipse and not
inside the inner ellipse. -/
def Track.withinBounds (t : Track K) (position : Vec K) : Prop :=
  Track.ellipseValue (t.offset position) t.outer ≤ 1 ∧
    1 ≤ Track.ellipseValue (t.offset position) t.inner

/-- The racer `r` with its offset from the centre scaled by `c` and its velocity
scaled by `damp`: the effect of one block of `Track.clampToBounds`. -/
def Track.projected (t : Track K) (r : Racer K) (c damp : K) : Racer K :=
  { r with
    position :=
      { x := t.center.x + (t.offset r.position).x * c,
        y := t.center.y + (t.offset r.position).y * c }
    velocity := { x := r.velocity.x * damp, y := r.velocity.y * damp } }

/-- The normalized bearing of a position, as computed by `Racer.updateLapProgress`
and `Racer.currentLapProgress`. -/
def Track.bearing [FloorRing K] (M : MathLib K) (t : Track K) (position : Vec K) : K :=
  Track.normalizeAngle M (t.angleFor M position)

/-- The condition under which `Racer.updateLapProgress` counts a lap. -/
def Racer.lapFires [FloorRing K] (M : MathLib K) (r : Racer K) (t : Track K) : Prop :=
  60 < r.speed M ∧ M.pi * 1.5 < r.lastAngle ∧ t.bearing M r.position < M.pi * 0.5

instance Racer.lapFires.decidable [FloorRing K] (M : MathLib K) (r : Racer K) (t : Track K) :
    Decidable (r.lapFires M t) := by
  unfold Racer.lapFires
  infer_instance

/-- One call of `Racer.updateLapProgress` in a run: the racer's position and
velocity as they are at the call, and the arguments of the call. -/
structure LapCall (K : Type) where
  position : Vec K
  velocity : Vec K
  surface : Surface K
  elapsed : K

/-- The racer after the call `c`: position and velocity are those of the call,
then `Racer.updateLapProgress` runs. -/
def Racer.lapCall [FloorRing K] (M : MathLib K) (t : Track K) (r : Racer K) (c : LapCall K) :
    Racer K :=
  ({ r with position := c.position, velocity := c.velocity } : Racer K).updateLapProgress
    M t c.surface c.elapsed

/-- The racer after a sequence of calls of `Racer.updateLapProgress`. -/
def Racer.lapCalls [FloorRing K] (M : MathLib K) (t : Track K) (r : Racer K)
    (cs : List (LapCall K)) : Racer K :=
  cs.foldl (Racer.lapCall M t) r

/-- The bearing advances from `prev` to `cur` by a positive amount below a
quarter turn, modulo a full turn. -/
def advances (M : MathLib K) (prev cur : K) : Prop :=
  (prev < cur ∧ cur - prev < M.pi / 2) ∨ (cur < prev ∧ cur + M.pi * 2 - prev < M.pi / 2)

/-- Every call has speed above 60 and advances the bearing of the call before it
(`prev` for the first call). -/
def steadyRun [FloorRing K] (M : MathLib K) (t : Track K) (prev : K) : List (LapCall K) → Prop
  | [] => True
  | c :: cs =>
    60 < hypot M c.velocity.x c.velocity.y ∧ advances M prev (t.bearing M c.position) ∧
      steadyRun M t (t.bearing M c.position) cs

/-- The number of calls at which the bearing wraps past angle 0, that is, is
smaller than the bearing of the call before it (`prev` for the first call). -/
def wrapCount [FloorRing K] (M : MathLib K) (t : Track K) (prev : K) : List (LapCall K) → Nat
  | [] => 0
  | c :: cs =>
    (if t.bearing M c.position < prev then 1 else 0) + wrapCount M t (t.bearing M c.position) cs

/-- The total angle by which the bearing has advanced over the calls, each step
measured forward modulo a full turn. -/
def turned [FloorRing K] (M : MathLib K) (t : Track K) (prev : K) : List (LapCall K) → K
  | [] => 0
  | c :: cs =>
    (if t.bearing M c.position < prev then t.bearing M c.position + M.pi * 2 - prev
      else t.bearing M c.position - prev) + turned M t (t.bearing M c.position) cs

/-- The bearing of the last call (`prev` when there is no call). -/
def lastBearing [FloorRing K] (M : MathLib K) (t : Track K) (prev : K) : List (LapCall K) → K
  | [] => prev
  | c :: cs => lastBearing M t (t.bearing M c.position) cs

/-- The arguments of one call of `Racer.update`. -/
structure Tick (K : Type) where
  dt : K
  inputState : InputState
  elapsed : K

/-- The racer after a sequence of `Racer.update` calls; `none` once a call has
produced a non-finite number. -/
def Racer.updates [FloorRing K] (M : MathLib K) (t : Track K) :
    Racer K → List (Tick K) → Option (Racer K)
  | r, [] => some r
  | r, k :: ks => (r.update M k.dt t k.inputState k.elapsed).bind fun r1 => Racer.updates M t r1 ks

/-- The racer as `Racer.update` passes it to `Track.clampToBounds`: after the
control policy, `applyPhysics` and the position update. -/
def Racer.integrated [FloorRing K] (M : MathLib K) (r : Racer K) (dt : K) (track : Track K)
    (inputState : InputState) (elapsed : K) : Option (Racer K) :=
  let surface := track.surfaceAt M r.position
  let r1 : Racer K :=
    if r.isPlayer then r.controlPlayer M dt surface inputState
    else r.controlAI M dt surface track elapsed
  (r1.applyPhysics M dt surface).map fun r2 =>
    { r2 with position :=
        { x := r2.position.x + r2.velocity.x * dt,
          y := r2.position.y + r2.velocity.y * dt } }

/-- What the parts of `Racer.update` before `updateLapProgress` leave alone. -/
def sameRaceState (r r1 : Racer K) : Prop :=
  r1.completedLaps = r.completedLaps ∧ r1.lapHistory = r.lapHistory ∧
    r1.finished = r.finished ∧ r1.finishTime = r.finishTime ∧ r1.lastAngle = r.lastAngle ∧
    r1.isPlayer = r.isPlayer ∧ r1.startOffset = r.startOffset

/-- The velocity after the drag and grip lines of `Racer.applyPhysics`, before
the speed cap. -/
def Racer.dampedVelocity (r : Racer K) (dt : K) (surface : Surface K) : Vec K :=
  { x := r.velocity.x * (1 - 0.68 * dt) * (1 - (1 - clamp surface.grip 0.2 1.25) * 1.4 * dt),
    y := r.velocity.y * (1 - 0.68 * dt) * (1 - (1 - clamp surface.grip 0.2 1.25) * 1.4 * dt) }

/-- The fractional-lap progress of a racer, as computed in `Game.resolvePosition`. -/
def Racer.progress [FloorRing K] (M : MathLib K) (t : Track K) (r : Racer K) : K :=
  (r.completedLaps : K) + r.currentLapProgress M t

/-- The standing `a` ranks ahead of `b`: more progress, or the same progress and
earlier in the list of racers. -/
def Standing.ahead (a b : Standing K) : Prop :=
  b.progress < a.progress ∨ (a.progress = b.progress ∧ a.racer < b.racer)

instance Standing.ahead.decidable (a b : Standing K) : Decidable (a.ahead b) := by
  unfold Standing.ahead
  infer_instance

/-! ### Vocabulary of the surface claims -/

/-- A position is on the track for `Track.surfaceAt`: not beyond 1.015 times the
outer ellipse and not inside the inner ellipse. -/
def Track.onTrack (t : Track K) (position : Vec K) : Prop :=
  Track.ellipseValue (t.offset position) t.outer ≤ 1.015 ∧
    1 ≤ Track.ellipseValue (t.offset position) t.inner

/-- A position matches a boost pad: it is within 0.09 of the lane ellipse and its
bearing is within half the span of some pad. -/
def Track.padMatch [FloorRing K] (M : MathLib K) (t : Track K) (position : Vec K) : Prop :=
  |t.laneDistance M position t.lane - 1| < 0.09 ∧
    ∃ pad ∈ t.boostPads, |shortestAngle M (t.bearing M position) pad.angle| < pad.span / 2

/-- A position is inside the ideal lane band. -/
def Track.inLaneBand (M : MathLib K) (t : Track K) (position : Vec K) : Prop :=
  0.88 < t.laneDistance M position t.lane ∧ t.laneDistance M position t.lane < 1.12

/-- A position is outside the detail band. -/
def Track.outsideDetailBand (M : MathLib K) (t : Track K) (position : Vec K) : Prop :=
  1.06 < t.laneDistance M position t.detail ∨ t.laneDistance M position t.detail < 0.78

instance Track.onTrack.decidable (t : Track K) (position : Vec K) :
    Decidable (t.onTrack position) := by
  unfold Track.onTrack
  infer_instance

instance Track.padMatch.decidable [FloorRing K] (M : MathLib K) (t : Track K)
    (position : Vec K) : Decidable (t.padMatch M position) := by
  unfold Track.padMatch
  infer_instance

instance Track.inLaneBand.decidable (M : MathLib K) (t : Track K) (position : Vec K) :
    Decidable (t.inLaneBand M position) := by
  unfold Track.inLaneBand
  infer_instance

instance Track.outsideDetailBand.decidable (M : MathLib K) (t : Track K) (position : Vec K) :
    Decidable (t.outsideDetailBand M position) := by
  unfold Track.outsideDetailBand
  infer_instance
/-- The thrust of `Racer.controlPlayer`: `forwardInput * 230 - brakeInput * 160`. -/
def playerThrust (inputState : InputState) : K :=
  (if inputState.forward then 1 else 0) * 230 - (if inputState.backward then 1 else 0) * 160

/-- The speed of the racer once `Racer.controlPlayer` has added the thrust to the
velocity: the value that the steering line reads as `this.speed`. -/
def Racer.thrustedSpeed (M : MathLib K) (r : Racer K) (dt : K) (inputState : InputState) : K :=
  hypot M (r.velocity.x + (directionFromAngle M r.heading).x * playerThrust inputState * dt)
    (r.velocity.y + (directionFromAngle M r.heading).y * playerThrust inputState * dt)

/-- The net steer of `Racer.controlPlayer`: `inputState.right - inputState.left`. -/
def playerSteer (inputState : InputState) : K :=
  boolToNumber inputState.right - boolToNumber inputState.left

/-! ### Sample inputs -/

/-- A racer about to cross the line on the track of a 960 by 540 canvas: two laps
done, last bearing `1.75π`, now due east of the centre (bearing 0) at speed 100. -/
def crossingRacer (M : MathLib K) : Racer K :=
  { Racer.constructor M "You" "#f72585" true 0 with
    position := { x := 840, y := 270 }
    velocity := { x := 100, y := 0 }
    lastAngle := M.pi * 1.75
    completedLaps := 2 }

/-- The baseline on-track surface descriptor. -/
def baseSurface : Surface K :=
  { grip := 0.78, maxSpeed := 220, boost := 0, offTrack := false }

/-- The call of `Racer.updateLapProgress` made with the position and velocity of
`crossingRacer`, at elapsed time 42. -/
def crossingCall : LapCall K :=
  { position := { x := 840, y := 270 }, velocity := { x := 100, y := 0 },
    surface := baseSurface, elapsed := 42 }

/-- The player as `Game.setupRace` resets it on the track of a 960 by 540 canvas. -/
def startRacer [FloorRing K] (M : MathLib K) : Racer K :=
  Game.setupRace.reset M (Track.constructor M 960 540)
    (Racer.constructor M "You" "#f72585" true 0)

/-- The first tick of the loop: `dt = 0`, no key pressed, elapsed time 0. -/
def idleTick : Tick K :=
  { dt := 0,
    inputState :=
      { forward := false, backward := false, left := false, right := false, drift := false },
    elapsed := 0 }

/-- A surface descriptor with full grip and `maxSpeed = 0`. -/
def slowSurface : Surface K :=
  { grip := 1, maxSpeed := 0, boost := 0, offTrack := false }

/-- A leaderboard of limit 2 over the rationals whose stored entries are not
sorted. -/
def sampleBoard : Leaderboard ℚ :=
  { limit := 2, entries := [{ name := "P1", time := 95 }, { name := "P2", time := 93 }] }

/-- An entry to push onto `sampleBoard`. -/
def sampleEntry : LeaderboardEntry ℚ :=
  { name := "P3", time := 94 }

/-- The player at rest with heading 0. -/
def restRacer (M : MathLib K) : Racer K :=
  { Racer.constructor M "You" "#f72585" true 0 with heading := 0 }

/-- The input with forward and right pressed. -/
def steerInput : InputState :=
  { forward := true, backward := false, left := false, right := true, drift := false }

/-- The surface descriptor of a boost pad. -/
def boostSurface : Surface K :=
  { grip := 1.05, maxSpeed := 290, boost := 230, offTrack := false }
/-- A point on the first boost pad of the track of a 960 by 540 canvas: bearing
`0.08π`, at 0.74 of the outer ellipse. -/
def padPoint (M : MathLib K) : Vec K :=
  { x := 480 + 360 * (0.74 * M.cos (M.pi * 0.08)),
    y := 270 + 210 * (0.74 * M.sin (M.pi * 0.08)) }

/-- A racer on the outer ellipse of the track of a 960 by 540 canvas, due east of
the centre, with velocity `(1000, 0)`. -/
def fastRacer (M : MathLib K) : Racer K :=
  { Racer.constructor M "You" "#f72585" true 0 with
    position := { x := 840, y := 270 }
    velocity := { x := 1000, y := 0 } }

/-- The input with only forward pressed. -/
def forwardInput : InputState :=
  { forward := true, backward := false, left := false, right := false, drift := false }

/-- The ticks of the scenario "forward pressed at `dt = 1/60`": `n` ticks, the
`k`-th with elapsed time `(k + 1) / 60`. -/
def scenarioTicks (n : Nat) : List (Tick K) :=
  (List.range n).map fun k => { dt := 1 / 60, inputState := forwardInput, elapsed := ((k : K) + 1) / 60 }

/-- The racer is the player, on the ray from the centre along which placeOnTrack
puts it (offset `(0, -p)` with `155 ≤ p ≤ 210`), with its heading and its
velocity `(0, -u)`, `u ≥ 0`, pointing along that ray away from the centre, and
`u² ≤ 920 (p - 155)`. -/
def headOn (M : MathLib K) (t : Track K) (r : Racer K) : Prop :=
  r.isPlayer = true ∧ M.cos r.heading = 0 ∧ M.sin r.heading = -1 ∧
    r.velocity.x = 0 ∧ r.velocity.y ≤ 0 ∧ r.position.x = t.center.x ∧
    155 ≤ t.center.y - r.position.y ∧ t.center.y - r.position.y ≤ 210 ∧
    r.velocity.y * r.velocity.y ≤ 920 * (t.center.y - r.position.y - 155)

/-- The rival "Bink Nova" as `Game.setupRace` resets it on the track of a 960 by
540 canvas. -/
def rivalRacer [FloorRing K] (M : MathLib K) : Racer K :=
  Game.setupRace.reset M (Track.constructor M 960 540)
    (Racer.constructor M "Bink Nova" "#4cc9f0" false 0.17)

/-! ### Vocabulary of the game claims -/

/-- The arguments and the environment of one call of `Game.update`. -/
structure Frame (K : Type) where
  dt : K
  inputState : InputState
  today : String

/-- The game after a sequence of `Game.update` calls. -/
def Game.updates [FloorRing K] (M : MathLib K) : Game K → List (Frame K) → Option (Game K)
  | g, [] => some g
  | g, f :: fs => (g.update M f.dt f.inputState f.today).bind fun g1 => Game.updates M g1 fs

/-- What drives a game object: a click on the start button, which calls
`startRace`, or a frame of the loop, which calls `update`. -/
inductive GameEvent (K : Type) where
  | click
  | frame (f : Frame K)

/-- The game after one event. -/
def Game.handle [FloorRing K] (M : MathLib K) (g : Game K) : GameEvent K → Option (Game K)
  | GameEvent.click => some (g.startRace M)
  | GameEvent.frame f => g.update M f.dt f.inputState f.today

/-- The game after a sequence of events. -/
def Game.handles [FloorRing K] (M : MathLib K) : Game K → List (GameEvent K) → Option (Game K)
  | g, [] => some g
  | g, e :: es => (g.handle M e).bind fun g1 => Game.handles M g1 es

/-- What holds of every game reached from the constructor: during the countdown
the counter is 1, 2 or 3; once a race has been started the player is the first of
four racers; a finished racer has a finish time. -/
def Game.raceReady (g : Game K) : Prop :=
  (g.state = Phase.countdown → g.countdown = 1 ∨ g.countdown = 2 ∨ g.countdown = 3) ∧
  (g.state ≠ Phase.idle → g.player = some 0 ∧ g.racers.length = 4) ∧
  (∀ r ∈ g.racers, r.finished = true → ∃ time : K, r.finishTime = some time)

/-! ### Sample inputs of the game claims -/

/-- A frame with `dt = 1` and no key pressed. -/
def secondFrame : Frame K :=
  { dt := 1,
    inputState :=
      { forward := false, backward := false, left := false, right := false, drift := false },
    today := "1/1/2025" }

/-- A frame with `dt = 0` and no key pressed. -/
def zeroFrame : Frame K :=
  { dt := 0,
    inputState :=
      { forward := false, backward := false, left := false, right := false, drift := false },
    today := "1/1/2025" }

/-- The three countdown frames of `secondFrame` after a click on the start button,
on a 960 by 540 canvas with nothing stored. -/
def goEvents : List (GameEvent K) :=
  [GameEvent.click, GameEvent.frame secondFrame, GameEvent.frame secondFrame,
    GameEvent.frame secondFrame]

/-- The game at the moment the countdown of a first race ends, on a 960 by 540
canvas with nothing stored. -/
def goGame [FloorRing K] (M : MathLib K) : Game K :=
  { (Game.constructor M 960 540 []).startRace M with
    state := Phase.running
    countdown := 0
    countdownTimer := 0
    goTimer := 0.65 }

/-! ### Rounding of doubles in `Track.normalizeAngle` -/

/-- The integer nearest to `m`; a tie goes to the even neighbour. -/
def roundEven (m : ℚ) : Int :=
  let f := Int.floor m
  let d := m - (f : ℚ)
  if d < 1 / 2 then f
  else if 1 / 2 < d then f + 1
  else if f % 2 = 0 then f
  else f + 1

/-- The double nearest to a rational number `q` (IEEE 754 binary64, round to
nearest, ties to even), for a significand of 53 bits and an exponent that is not
bounded: overflow and subnormal numbers are left out. -/
def roundDouble (q : ℚ) : ℚ :=
  let e := Int.log 2 |q|
  let ulp : ℚ := 2 ^ (e - 52)
  if q < 0 then -((roundEven (|q| / ulp) : Int) : ℚ) * ulp
  else ((roundEven (|q| / ulp) : Int) : ℚ) * ulp

/-- The constant `Math.PI`: the double nearest to `π`. -/
def doublePi : ℚ := 884279719003555 / 2 ^ 48

/-- The method `Track.normalizeAngle(angle)` with the rounding of its addition:
`fl` rounds a number to the one that the addition stores, and `pi` is `Math.PI`.
On doubles the remainder `%` and the doubling `Math.PI * 2` are exact, and the sum
`a + Math.PI * 2` is rounded.  With `fl = id` this is `Track.normalizeAngle`. -/
def Track.normalizeAngle.rounded [FloorRing K] (fl : K → K) (pi : K) (angle : K) : K :=
  let a := jsMod angle (pi * 2)
  if a < 0 then fl (a + pi * 2) else a

/-- The body of `Racer.currentLapProgress(track)` with the rounding of its
operations, for the bearing `track.angleFor(this.position)`. -/
def Racer.currentLapProgress.rounded [FloorRing K] (fl : K → K) (pi : K) (bearing : K) : K :=
  let angle := Track.normalizeAngle.rounded fl pi bearing
  fl (angle / (pi * 2))

/-- What the statements about rounding assume of the rounding `fl` of the
arithmetic, for `Math.PI = pi`: it keeps the order of numbers that are not
negative, and it leaves 0, 1 and `Math.PI * 2` as they are. -/
structure RoundLaws {K : Type} [LinearOrderedField K] (fl : K → K) (pi : K) : Prop where
  /-- Rounding keeps the order. -/
  mono : ∀ x y : K, x ≤ y → fl x ≤ fl y
  /-- Zero is a double. -/
  zero : fl 0 = 0
  /-- One is a double. -/
  one : fl 1 = 1
  /-- The double `Math.PI * 2` is a double. -/
  twoPi : fl (pi * 2) = pi * 2

/-- The double `-2^-70`. -/
def tinyAngle : ℚ := -(1 / 2 ^ 70)

/-- The bearing of the position `(840, 269.99999999999994)` on a 960 by 540
canvas: the double nearest to `-2^-44 / 210`, about `-2.7e-16`. -/
def edgeBearing : ℚ := -(1372525600722437 / 2 ^ 102)

end Definitions

end BinkRace

namespace BinkRace

section Lemmas

variable {K : Type} [LinearOrderedField K]

theorem SqrtLaws.sqrt_zero {M : MathLib K} (hM : SqrtLaws M) : M.sqrt 0 = 0 := by
  have h := hM.mul_self 0 le_rfl
  exact mul_self_eq_zero.mp h

theorem SqrtLaws.sqrt_pos {M : MathLib K} (hM : SqrtLaws M) {x : K} (hx : 0 < x) :
    0 < M.sqrt x := by
  rcases (hM.nonneg x).lt_or_eq with h | h
  · exact h
  · have h2 := hM.mul_self x hx.le
    rw [← h] at h2
    simp at h2
    exact absurd h2 hx.ne

theorem SqrtLaws.sqrt_eq {M : MathLib K} (hM : SqrtLaws M) {x y : K} (hy : 0 ≤ y)
    (hxy : y * y = x) : M.sqrt x = y := by
  have hx : 0 ≤ x := hxy ▸ mul_self_nonneg y
  have h := hM.mul_self x hx
  rw [← hxy] at h
  rw [← hxy]
  exact (mul_self_inj (hM.nonneg _) hy).mp h

theorem recip_scale_sq {s v : K} (c : K) (hs : 0 < s) (hss : s * s = v) :
    1 / s * c * (1 / s * c) * v = c * c := by
  rw [← hss]
  field_simp

theorem ellipseValue_nonneg (o : Vec K) (e : Ellipse K) : 0 ≤ Track.ellipseValue o e := by
  unfold Track.ellipseValue
  exact add_nonneg (div_nonneg (mul_self_nonneg _) (mul_self_nonneg _))
    (div_nonneg (mul_self_nonneg _) (mul_self_nonneg _))

theorem ellipseValue_scale (o : Vec K) (e : Ellipse K) (c : K) :
    Track.ellipseValue { x := o.x * c, y := o.y * c } e = c * c * Track.ellipseValue o e := by
  simp only [Track.ellipseValue]
  ring

/-- On the constructed track the inner-ellipse value is at least 3.27 times the
outer-ellipse value. -/
theorem inner_ge_outer (M : MathLib K) (w h : K) (o : Vec K) :
    3.27 * Track.ellipseValue o (Track.constructor M w h).outer ≤
      Track.ellipseValue o (Track.constructor M w h).inner := by
  simp only [Track.ellipseValue, Track.constructor]
  have hx := mul_self_nonneg o.x
  have hy := mul_self_nonneg o.y
  norm_num
  field_simp
  rw [div_le_div_iff₀ (by positivity) (by positivity)]
  nlinarith

/-- On the constructed track the outer-ellipse value is at most 0.31 times the
inner-ellipse value. -/
theorem outer_le_inner (M : MathLib K) (w h : K) (o : Vec K) :
    Track.ellipseValue o (Track.constructor M w h).outer ≤
      0.31 * Track.ellipseValue o (Track.constructor M w h).inner := by
  simp only [Track.ellipseValue, Track.constructor]
  have hx := mul_self_nonneg o.x
  have hy := mul_self_nonneg o.y
  norm_num
  field_simp
  rw [div_le_div_iff₀ (by positivity) (by positivity)]
  nlinarith

theorem offset_projected (t : Track K) (r : Racer K) (c damp : K) :
    t.offset (t.projected r c damp).position =
      { x := (t.offset r.position).x * c, y := (t.offset r.position).y * c } := by
  simp [Track.offset, Track.projected]

/-- A racer within the bounds is returned unchanged. -/
theorem clampToBounds_of_withinBounds (M : MathLib K) (t : Track K) (r : Racer K)
    (hb : t.withinBounds r.position) : t.clampToBounds M r = some r := by
  obtain ⟨h1, h2⟩ := hb
  simp only [Track.offset] at h1 h2
  simp [Track.clampToBounds, not_lt.mpr h1, not_lt.mpr h2]

/-- The outer block alone fires when the racer is outside the outer ellipse. -/
theorem clampToBounds_outer {M : MathLib K} (hM : SqrtLaws M) (w h : K) (r : Racer K)
    (ho : 1 < Track.ellipseValue ((Track.constructor M w h).offset r.position)
      (Track.constructor M w h).outer) :
    (Track.constructor M w h).clampToBounds M r =
      some ((Track.constructor M w h).projected r
        (1 / M.sqrt (Track.ellipseValue ((Track.constructor M w h).offset r.position)
          (Track.constructor M w h).outer) * 0.995) 0.45) := by
  have hv0 := lt_trans one_pos ho
  have hs := hM.sqrt_pos hv0
  have hss := hM.mul_self _ hv0.le
  have hin := inner_ge_outer M w h
    ((Track.constructor M w h).offset ((Track.constructor M w h).projected r
      (1 / M.sqrt (Track.ellipseValue ((Track.constructor M w h).offset r.position)
        (Track.constructor M w h).outer) * 0.995) 0.45).position)
  rw [offset_projected, ellipseValue_scale] at hin
  generalize hv : Track.ellipseValue ((Track.constructor M w h).offset r.position)
      (Track.constructor M w h).outer = v at *
  generalize hsv : M.sqrt v = s at *
  have hc : 1 / s * 0.995 * (1 / s * 0.995) * v = 0.995 * 0.995 := by
    rw [← hss]; field_simp
  rw [hc] at hin
  have hin2 : ¬ Track.ellipseValue
      { x := ((Track.constructor M w h).offset r.position).x * (1 / s * 0.995),
        y := ((Track.constructor M w h).offset r.position).y * (1 / s * 0.995) }
      (Track.constructor M w h).inner < 1 := by
    rw [not_lt]
    refine le_trans ?_ hin
    norm_num
  simp only [Track.offset] at hv hin2
  simp only [Track.clampToBounds, hv, gt_iff_lt, ho, if_true, jsDiv, hsv, hs.ne', if_false,
    Option.map_some', Option.some_bind, hin2, Track.projected, Track.offset]

/-- The inner block alone fires when the racer is inside the inner ellipse and
not at the centre. -/
theorem clampToBounds_inner {M : MathLib K} (hM : SqrtLaws M) (w h : K) (r : Racer K)
    (hpos : 0 < Track.ellipseValue ((Track.constructor M w h).offset r.position)
      (Track.constructor M w h).inner)
    (hi : Track.ellipseValue ((Track.constructor M w h).offset r.position)
      (Track.constructor M w h).inner < 1) :
    (Track.constructor M w h).clampToBounds M r =
      some ((Track.constructor M w h).projected r
        (1 / M.sqrt (Track.ellipseValue ((Track.constructor M w h).offset r.position)
          (Track.constructor M w h).inner) * 1.005) 0.35) := by
  have hs := hM.sqrt_pos hpos
  have hout := outer_le_inner M w h ((Track.constructor M w h).offset r.position)
  have hout2 : ¬ Track.ellipseValue ((Track.constructor M w h).offset r.position)
      (Track.constructor M w h).outer > 1 := by
    rw [gt_iff_lt, not_lt]
    refine le_trans hout ?_
    norm_num
    linarith
  generalize hv : Track.ellipseValue ((Track.constructor M w h).offset r.position)
      (Track.constructor M w h).inner = v at *
  generalize hsv : M.sqrt v = s at *
  simp only [Track.offset] at hv hout2
  simp only [Track.clampToBounds, hout2, if_false, Option.some_bind, hv, hi, if_true, jsDiv,
    hsv, hs.ne', Option.map_some', Track.projected, Track.offset]

/-- At the exact centre the inner block divides by `Math.sqrt(0)`. -/
theorem clampToBounds_center {M : MathLib K} (hM : SqrtLaws M) (w h : K) (r : Racer K)
    (hc : r.position = (Track.constructor M w h).center) :
    (Track.constructor M w h).clampToBounds M r = none := by
  simp [Track.clampToBounds, hc, Track.ellipseValue, jsDiv, hM.sqrt_zero]

/-- On the constructed track the inner-ellipse value is zero only at the centre. -/
theorem inner_eq_zero_iff (M : MathLib K) (w h : K) (p : Vec K) :
    Track.ellipseValue ((Track.constructor M w h).offset p) (Track.constructor M w h).inner = 0
      ↔ p = (Track.constructor M w h).center := by
  constructor
  · intro h0
    simp only [Track.ellipseValue, Track.offset, Track.constructor] at h0
    have hx : 0 ≤ (p.x - w / 2) * (p.x - w / 2) / (188 * 188) :=
      div_nonneg (mul_self_nonneg _) (by norm_num)
    have hy : 0 ≤ (p.y - h / 2) * (p.y - h / 2) / (116 * 116) :=
      div_nonneg (mul_self_nonneg _) (by norm_num)
    have hx0 : (p.x - w / 2) * (p.x - w / 2) / (188 * 188) = 0 := by linarith
    have hy0 : (p.y - h / 2) * (p.y - h / 2) / (116 * 116) = 0 := by linarith
    have hx1 : p.x - w / 2 = 0 := by
      have := (div_eq_zero_iff.mp hx0).resolve_right (by norm_num)
      exact mul_self_eq_zero.mp this
    have hy1 : p.y - h / 2 = 0 := by
      have := (div_eq_zero_iff.mp hy0).resolve_right (by norm_num)
      exact mul_self_eq_zero.mp this
    cases p
    simp only [Track.constructor, Vec.mk.injEq]
    simp only at hx1 hy1
    exact ⟨sub_eq_zero.mp hx1, sub_eq_zero.mp hy1⟩
  · intro hp
    simp [hp, Track.ellipseValue, Track.offset]

/-- Every racer returned by `Track.clampToBounds` on the constructed track is
within the bounds. -/
theorem clampToBounds_withinBounds {M : MathLib K} (hM : SqrtLaws M) (w h : K)
    (r r1 : Racer K) (hr : (Track.constructor M w h).clampToBounds M r = some r1) :
    (Track.constructor M w h).withinBounds r1.position := by
  by_cases ho : 1 < Track.ellipseValue ((Track.constructor M w h).offset r.position)
      (Track.constructor M w h).outer
  · rw [clampToBounds_outer hM w h r ho] at hr
    have hv0 := lt_trans one_pos ho
    have hs := hM.sqrt_pos hv0
    have hss := hM.mul_self _ hv0.le
    cases hr
    have hin := inner_ge_outer M w h
      ((Track.constructor M w h).offset ((Track.constructor M w h).projected r
        (1 / M.sqrt (Track.ellipseValue ((Track.constructor M w h).offset r.position)
          (Track.constructor M w h).outer) * 0.995) 0.45).position)
    unfold Track.withinBounds
    simp only [offset_projected, ellipseValue_scale] at hin ⊢
    generalize Track.ellipseValue ((Track.constructor M w h).offset r.position)
      (Track.constructor M w h).outer = v at *
    generalize M.sqrt v = s at *
    have hc : 1 / s * 0.995 * (1 / s * 0.995) * v = 0.995 * 0.995 := by
      rw [← hss]; field_simp
    rw [hc] at hin ⊢
    constructor
    · norm_num
    · refine le_trans ?_ hin
      norm_num
  · by_cases hi : Track.ellipseValue ((Track.constructor M w h).offset r.position)
        (Track.constructor M w h).inner < 1
    · rcases (ellipseValue_nonneg ((Track.constructor M w h).offset r.position)
          (Track.constructor M w h).inner).lt_or_eq with hpos | hzero
      · rw [clampToBounds_inner hM w h r hpos hi] at hr
        have hs := hM.sqrt_pos hpos
        have hss := hM.mul_self _ hpos.le
        cases hr
        have hout := outer_le_inner M w h
          ((Track.constructor M w h).offset ((Track.constructor M w h).projected r
            (1 / M.sqrt (Track.ellipseValue ((Track.constructor M w h).offset r.position)
              (Track.constructor M w h).inner) * 1.005) 0.35).position)
        unfold Track.withinBounds
        simp only [offset_projected, ellipseValue_scale] at hout ⊢
        generalize Track.ellipseValue ((Track.constructor M w h).offset r.position)
          (Track.constructor M w h).inner = v at *
        generalize M.sqrt v = s at *
        have hc : 1 / s * 1.005 * (1 / s * 1.005) * v = 1.005 * 1.005 := by
          rw [← hss]; field_simp
        rw [hc] at hout ⊢
        constructor
        · refine le_trans hout ?_
          norm_num
        · norm_num
      · rw [clampToBounds_center hM w h r ((inner_eq_zero_iff M w h _).mp hzero.symm)] at hr
        cases hr
    · rw [clampToBounds_of_withinBounds M _ r ⟨not_lt.mp ho, not_lt.mp hi⟩] at hr
      cases hr
      exact ⟨not_lt.mp ho, not_lt.mp hi⟩

/-- The real-number functions satisfy the laws assumed of `Math.sqrt`. -/
theorem real_sqrtLaws :
    SqrtLaws (MathLib.mk Real.sqrt (fun y x => Complex.arg ⟨x, y⟩) Real.sin Real.cos Real.pi Real.pi_pos) :=
  ⟨Real.sqrt_nonneg, fun _ hx => Real.mul_self_sqrt hx⟩

theorem padLoop_offTrack [FloorRing K] (M : MathLib K) (angle laneDistance : K)
    (pads : List (BoostPad K)) (s : Surface K) :
    (Track.surfaceAt.padLoop M angle laneDistance pads s).offTrack = s.offTrack := by
  induction pads with
  | nil => rfl
  | cons pad rest ih =>
    simp only [Track.surfaceAt.padLoop]
    split
    · rfl
    · exact ih

theorem jsMod_range [FloorRing K] (a m : K) (hm : 0 < m) :
    -m < jsMod a m ∧ jsMod a m < m ∧ (0 ≤ a → 0 ≤ jsMod a m) ∧ (a < 0 → jsMod a m ≤ 0) := by
  have hq : a = m * (a / m) := by field_simp
  unfold jsMod truncInt
  by_cases h0 : 0 ≤ a / m
  · rw [if_pos h0]
    have h1 := Int.floor_le (a / m)
    have h2 := Int.lt_floor_add_one (a / m)
    have e : a - m * ((Int.floor (a / m) : Int) : K) = m * (a / m - (Int.floor (a / m) : K)) := by
      rw [mul_sub, ← hq]
    have ha : 0 ≤ a := by rw [hq]; exact mul_nonneg hm.le h0
    rw [e]
    refine ⟨?_, ?_, ?_, ?_⟩
    · nlinarith
    · nlinarith
    · intro _; nlinarith
    · intro h; exact absurd ha (not_le.mpr h)
  · rw [if_neg h0]
    have h0' := not_le.mp h0
    have h1 := Int.le_ceil (a / m)
    have h2 := Int.ceil_lt_add_one (a / m)
    have e : a - m * ((Int.ceil (a / m) : Int) : K) = m * (a / m - (Int.ceil (a / m) : K)) := by
      rw [mul_sub, ← hq]
    have ha : a < 0 := by rw [hq]; exact mul_neg_of_pos_of_neg hm h0'
    rw [e]
    refine ⟨?_, ?_, ?_, ?_⟩
    · nlinarith
    · nlinarith
    · intro h; exact absurd h (not_le.mpr ha)
    · intro _; nlinarith

/-- The result of `Track.normalizeAngle` lies in `[0, 2π)`. -/
theorem normalizeAngle_range [FloorRing K] (M : MathLib K) (angle : K) :
    0 ≤ Track.normalizeAngle M angle ∧ Track.normalizeAngle M angle < M.pi * 2 := by
  have hm : 0 < M.pi * 2 := mul_pos M.pi_pos two_pos
  obtain ⟨h1, h2, -, -⟩ := jsMod_range angle (M.pi * 2) hm
  simp only [Track.normalizeAngle]
  split_ifs with h
  · constructor <;> linarith
  · exact ⟨not_lt.mp h, h2⟩

theorem bearing_range [FloorRing K] (M : MathLib K) (t : Track K) (p : Vec K) :
    0 ≤ t.bearing M p ∧ t.bearing M p < M.pi * 2 :=
  normalizeAngle_range M _

/-- One call of `Racer.updateLapProgress`: the lap count and the recorded angle. -/
theorem lapCall_effect [FloorRing K] (M : MathLib K) (t : Track K) (r : Racer K)
    (c : LapCall K) :
    (r.lapCall M t c).lastAngle = t.bearing M c.position ∧
    (r.lapCall M t c).completedLaps = r.completedLaps +
      (if 60 < hypot M c.velocity.x c.velocity.y ∧ M.pi * 1.5 < r.lastAngle ∧
          t.bearing M c.position < M.pi * 0.5 then 1 else 0) := by
  simp only [Racer.lapCall, Racer.updateLapProgress, Racer.speed, Track.bearing, gt_iff_lt]
  by_cases h1 : 60 < hypot M c.velocity.x c.velocity.y
  · by_cases h2 : M.pi * 1.5 < r.lastAngle ∧
        Track.normalizeAngle M (t.angleFor M c.position) < M.pi * 0.5
    · simp only [h1, h2, and_self, if_true]
      split_ifs <;> exact ⟨rfl, rfl⟩
    · simp only [h1, h2, if_true, if_false, true_and]
      split_ifs <;> exact ⟨rfl, rfl⟩
  · simp only [h1, if_false, false_and]
    split_ifs <;> exact ⟨rfl, rfl⟩

/-- In a steady run a call counts a lap exactly when the bearing wraps. -/
theorem steady_fires_iff (M : MathLib K) {prev cur : K} (hprev : prev < M.pi * 2)
    (hcur : 0 ≤ cur) (hadv : advances M prev cur) :
    (M.pi * 1.5 < prev ∧ cur < M.pi * 0.5) ↔ cur < prev := by
  have hp := M.pi_pos
  constructor
  · rintro ⟨h1, h2⟩
    linarith
  · intro hw
    rcases hadv with ⟨h1, _⟩ | ⟨_, h2⟩
    · exact absurd hw (not_lt.mpr h1.le)
    · constructor <;> linarith

theorem lapCalls_cons [FloorRing K] (M : MathLib K) (t : Track K) (r : Racer K)
    (c : LapCall K) (cs : List (LapCall K)) :
    r.lapCalls M t (c :: cs) = (r.lapCall M t c).lapCalls M t cs := rfl

theorem steady_count [FloorRing K] (M : MathLib K) (t : Track K) (cs : List (LapCall K)) :
    ∀ r : Racer K, r.lastAngle < M.pi * 2 → steadyRun M t r.lastAngle cs →
      (r.lapCalls M t cs).completedLaps = r.completedLaps + wrapCount M t r.lastAngle cs := by
  induction cs with
  | nil => intro r _ _; rfl
  | cons c cs ih =>
    intro r hprev hrun
    obtain ⟨hspeed, hadv, hrest⟩ := hrun
    obtain ⟨hla, hlaps⟩ := lapCall_effect M t r c
    have hb := bearing_range M t c.position
    rw [lapCalls_cons, ih (r.lapCall M t c) (hla ▸ hb.2) (hla ▸ hrest), hlaps, hla]
    simp only [wrapCount, hspeed, true_and, steady_fires_iff M hprev hb.1 hadv]
    omega

theorem turned_eq [FloorRing K] (M : MathLib K) (t : Track K) (cs : List (LapCall K)) :
    ∀ prev : K, turned M t prev cs =
      lastBearing M t prev cs - prev + M.pi * 2 * (wrapCount M t prev cs : K) := by
  induction cs with
  | nil => intro prev; simp [turned, lastBearing, wrapCount]
  | cons c cs ih =>
    intro prev
    simp only [turned, lastBearing, wrapCount, ih]
    split_ifs <;> push_cast <;> ring

theorem lastBearing_range [FloorRing K] (M : MathLib K) (t : Track K) (cs : List (LapCall K)) :
    ∀ prev : K, 0 ≤ prev → prev < M.pi * 2 →
      0 ≤ lastBearing M t prev cs ∧ lastBearing M t prev cs < M.pi * 2 := by
  induction cs with
  | nil => intro prev h1 h2; exact ⟨h1, h2⟩
  | cons c cs ih =>
    intro prev _ _
    exact ih _ (bearing_range M t c.position).1 (bearing_range M t c.position).2

/-- Over the real numbers the point due east of the centre on the outer ellipse
of the track of a 960 by 540 canvas has bearing 0. -/
theorem real_bearing_east :
    (Track.constructor (MathLib.mk Real.sqrt (fun y x => Complex.arg ⟨x, y⟩) Real.sin Real.cos Real.pi Real.pi_pos) 960 540).bearing (MathLib.mk Real.sqrt (fun y x => Complex.arg ⟨x, y⟩) Real.sin Real.cos Real.pi Real.pi_pos) { x := 840, y := 270 } = 0 := by
  have h : (⟨1, 0⟩ : ℂ) = 1 := rfl
  simp only [Track.bearing, Track.angleFor, Track.constructor, Track.normalizeAngle, jsMod,
    truncInt]
  norm_num [h]

/-- Over the real numbers the velocity `(100, 0)` has speed 100. -/
theorem real_hypot_hundred : hypot (MathLib.mk Real.sqrt (fun y x => Complex.arg ⟨x, y⟩) Real.sin Real.cos Real.pi Real.pi_pos) 100 0 = 100 := by
  simp only [hypot]
  rw [show (100 : ℝ) * 100 + 0 * 0 = 100 * 100 by norm_num]
  exact Real.sqrt_mul_self (by norm_num)

omit [LinearOrderedField K] in
theorem sameRaceState.trans {a b c : Racer K} (h1 : sameRaceState a b)
    (h2 : sameRaceState b c) : sameRaceState a c := by
  obtain ⟨a1, a2, a3, a4, a5, a6, a7⟩ := h1
  obtain ⟨b1, b2, b3, b4, b5, b6, b7⟩ := h2
  exact ⟨b1.trans a1, b2.trans a2, b3.trans a3, b4.trans a4, b5.trans a5, b6.trans a6,
    b7.trans a7⟩

theorem controlPlayer_frame (M : MathLib K) (r : Racer K) (dt : K) (surface : Surface K)
    (i : InputState) :
    sameRaceState r (r.controlPlayer M dt surface i) ∧
      (r.controlPlayer M dt surface i).position = r.position := by
  unfold Racer.controlPlayer sameRaceState
  split_ifs <;> exact ⟨⟨rfl, rfl, rfl, rfl, rfl, rfl, rfl⟩, rfl⟩

theorem controlAI_frame [FloorRing K] (M : MathLib K) (r : Racer K) (dt : K)
    (surface : Surface K) (t : Track K) (elapsed : K) :
    sameRaceState r (r.controlAI M dt surface t elapsed) ∧
      (r.controlAI M dt surface t elapsed).position = r.position := by
  unfold Racer.controlAI sameRaceState
  split_ifs <;> exact ⟨⟨rfl, rfl, rfl, rfl, rfl, rfl, rfl⟩, rfl⟩

theorem applyPhysics_frame (M : MathLib K) (r r1 : Racer K) (dt : K) (surface : Surface K)
    (h : r.applyPhysics M dt surface = some r1) :
    sameRaceState r r1 ∧ r1.position = r.position ∧ r1.heading = r.heading := by
  unfold Racer.applyPhysics at h
  simp only [jsDiv] at h
  split_ifs at h <;> simp only [Option.map_some', Option.map_none', Option.some.injEq] at h
  all_goals cases h
  all_goals exact ⟨⟨rfl, rfl, rfl, rfl, rfl, rfl, rfl⟩, rfl, rfl⟩

theorem clampToBounds_frame (M : MathLib K) (t : Track K) (r r1 : Racer K)
    (h : t.clampToBounds M r = some r1) :
    sameRaceState r r1 ∧ r1.heading = r.heading := by
  unfold Track.clampToBounds at h
  simp only [jsDiv] at h
  split_ifs at h <;>
    simp only [Option.map_some', Option.map_none', Option.some_bind, Option.none_bind,
      Option.some.injEq] at h
  all_goals try split_ifs at h
  all_goals try simp only [Option.map_some', Option.map_none', Option.some.injEq] at h
  all_goals cases h
  all_goals exact ⟨⟨rfl, rfl, rfl, rfl, rfl, rfl, rfl⟩, rfl⟩

theorem update_of_finished [FloorRing K] (M : MathLib K) (r : Racer K) (dt : K) (t : Track K)
    (i : InputState) (elapsed : K) (h : r.finished = true) :
    r.update M dt t i elapsed = some r := by
  simp [Racer.update, h]

/-- For a racer that has not finished, `Racer.update` is the integration followed
by `clampToBounds` and `updateLapProgress`. -/
theorem update_eq_integrated [FloorRing K] (M : MathLib K) (r : Racer K) (dt : K)
    (t : Track K) (i : InputState) (elapsed : K) (h : r.finished = false) :
    r.update M dt t i elapsed =
      (r.integrated M dt t i elapsed).bind fun r3 =>
        (t.clampToBounds M r3).map fun r4 =>
          r4.updateLapProgress M t (t.surfaceAt M r.position) elapsed := by
  simp only [Racer.update, Racer.integrated, h, Bool.false_eq_true, if_false]
  cases (if r.isPlayer = true then r.controlPlayer M dt (t.surfaceAt M r.position) i
    else r.controlAI M dt (t.surfaceAt M r.position) t elapsed).applyPhysics M dt
      (t.surfaceAt M r.position) <;> rfl

/-- The integration leaves the race state of the racer alone. -/
theorem integrated_frame [FloorRing K] (M : MathLib K) (r r3 : Racer K) (dt : K)
    (t : Track K) (i : InputState) (elapsed : K)
    (h : r.integrated M dt t i elapsed = some r3) : sameRaceState r r3 := by
  simp only [Racer.integrated, Option.map_eq_some'] at h
  obtain ⟨r2, h2, rfl⟩ := h
  have hp := (applyPhysics_frame M _ r2 dt _ h2).1
  have hc : sameRaceState r (if r.isPlayer = true then
      r.controlPlayer M dt (t.surfaceAt M r.position) i
      else r.controlAI M dt (t.surfaceAt M r.position) t elapsed) := by
    split_ifs
    · exact (controlPlayer_frame M r dt _ i).1
    · exact (controlAI_frame M r dt _ t elapsed).1
  exact hc.trans hp

/-- The effect of `Racer.updateLapProgress` on the race state: either no lap is
counted and nothing changes, or one lap is counted, and the racer is marked
finished exactly if the new count reaches `TOTAL_LAPS`. -/
theorem updateLapProgress_laps [FloorRing K] (M : MathLib K) (r : Racer K) (t : Track K)
    (surface : Surface K) (elapsed : K) :
    ((r.updateLapProgress M t surface elapsed).completedLaps = r.completedLaps ∧
      (r.updateLapProgress M t surface elapsed).finished = r.finished) ∨
    ((r.updateLapProgress M t surface elapsed).completedLaps = r.completedLaps + 1 ∧
      ((TOTAL_LAPS ≤ r.completedLaps + 1 ∧
          (r.updateLapProgress M t surface elapsed).finished = true) ∨
        (r.completedLaps + 1 < TOTAL_LAPS ∧
          (r.updateLapProgress M t surface elapsed).finished = r.finished))) := by
  simp only [Racer.updateLapProgress, gt_iff_lt, ge_iff_le]
  by_cases h1 : 60 < r.speed M ∧ (M.pi * 1.5 < r.lastAngle ∧
      Track.normalizeAngle M (t.angleFor M r.position) < M.pi * 0.5)
  · right
    by_cases h3 : TOTAL_LAPS ≤ r.completedLaps + 1
    · simp only [h1.1, h1.2, and_self, if_true, h3]
      split_ifs <;> exact ⟨rfl, Or.inl ⟨trivial, rfl⟩⟩
    · simp only [h1.1, h1.2, and_self, if_true, h3, if_false]
      split_ifs <;> exact ⟨rfl, Or.inr ⟨not_le.mp h3, rfl⟩⟩
  · left
    by_cases h2 : 60 < r.speed M
    · have h4 : ¬ (M.pi * 1.5 < r.lastAngle ∧
          Track.normalizeAngle M (t.angleFor M r.position) < M.pi * 0.5) := fun h => h1 ⟨h2, h⟩
      simp only [h2, h4, if_true, if_false]
      split_ifs <;> exact ⟨rfl, rfl⟩
    · simp only [h2, if_false]
      split_ifs <;> exact ⟨rfl, rfl⟩

/-- The invariant of a race: at most `TOTAL_LAPS` laps are counted, and the racer
is finished exactly when that many are. -/
theorem update_invariant [FloorRing K] (M : MathLib K) (t : Track K) (r r1 : Racer K)
    (k : Tick K) (hinv : r.completedLaps ≤ TOTAL_LAPS ∧
      (r.finished = true ↔ r.completedLaps = TOTAL_LAPS))
    (h : r.update M k.dt t k.inputState k.elapsed = some r1) :
    (r1.completedLaps ≤ TOTAL_LAPS ∧ (r1.finished = true ↔ r1.completedLaps = TOTAL_LAPS)) ∧
      r.completedLaps ≤ r1.completedLaps ∧ (r.finished = true → r1 = r) := by
  cases hf : r.finished with
  | true =>
    rw [update_of_finished M r _ t _ _ hf] at h
    cases h
    exact ⟨hinv, le_rfl, fun _ => rfl⟩
  | false =>
    rw [update_eq_integrated M r _ t _ _ hf] at h
    simp only [Option.bind_eq_some, Option.map_eq_some'] at h
    obtain ⟨r3, h3, r4, h4, rfl⟩ := h
    have hs := (integrated_frame M r r3 _ t _ _ h3).trans (clampToBounds_frame M t r3 r4 h4).1
    obtain ⟨hl, -, hfin, -⟩ := hs
    have hlt : r.completedLaps < TOTAL_LAPS := by
      rcases Nat.lt_or_ge r.completedLaps TOTAL_LAPS with h | h
      · exact h
      · have := hinv.2.mpr (le_antisymm hinv.1 h)
        rw [hf] at this
        cases this
    rw [hf] at hfin
    rcases updateLapProgress_laps M r4 t (t.surfaceAt M r.position) k.elapsed with
      ⟨e1, e2⟩ | ⟨e1, ⟨e3, e2⟩ | ⟨e3, e2⟩⟩
    · rw [e1, e2, hl, hfin]
      refine ⟨⟨hinv.1, ?_⟩, le_rfl, fun h => by cases h⟩
      constructor
      · intro h; cases h
      · intro h; omega
    · rw [e1, e2, hl]
      rw [hl] at e3
      refine ⟨⟨by omega, ?_⟩, by omega, fun h => by cases h⟩
      constructor
      · intro _; omega
      · intro _; rfl
    · rw [e1, e2, hl, hfin]
      rw [hl] at e3
      refine ⟨⟨by omega, ?_⟩, by omega, fun h => by cases h⟩
      constructor
      · intro h; cases h
      · intro h; omega

theorem updates_invariant [FloorRing K] (M : MathLib K) (t : Track K) (ks : List (Tick K)) :
    ∀ r r1 : Racer K, (r.completedLaps ≤ TOTAL_LAPS ∧
        (r.finished = true ↔ r.completedLaps = TOTAL_LAPS)) →
      r.updates M t ks = some r1 →
      (r1.completedLaps ≤ TOTAL_LAPS ∧ (r1.finished = true ↔ r1.completedLaps = TOTAL_LAPS)) ∧
        r.completedLaps ≤ r1.completedLaps ∧ (r.finished = true → r1 = r) := by
  induction ks with
  | nil =>
    intro r r1 hinv h
    simp only [Racer.updates, Option.some.injEq] at h
    subst h
    exact ⟨hinv, le_rfl, fun _ => rfl⟩
  | cons k ks ih =>
    intro r r1 hinv h
    simp only [Racer.updates, Option.bind_eq_some] at h
    obtain ⟨r2, h2, h3⟩ := h
    obtain ⟨hinv2, hle2, hfix2⟩ := update_invariant M t r r2 k hinv h2
    obtain ⟨hinv1, hle1, hfix1⟩ := ih r2 r1 hinv2 h3
    refine ⟨hinv1, le_trans hle2 hle1, fun hf => ?_⟩
    have e2 := hfix2 hf
    subst e2
    exact hfix1 hf

theorem updates_of_finished [FloorRing K] (M : MathLib K) (t : Track K) (r : Racer K)
    (hf : r.finished = true) (ks : List (Tick K)) : r.updates M t ks = some r := by
  induction ks with
  | nil => rfl
  | cons k ks ih =>
    simp only [Racer.updates, update_of_finished M r _ t _ _ hf, Option.some_bind, ih]

theorem padLoop_maxSpeed [FloorRing K] (M : MathLib K) (angle laneDistance : K)
    (pads : List (BoostPad K)) (s : Surface K) :
    (Track.surfaceAt.padLoop M angle laneDistance pads s).maxSpeed = s.maxSpeed ∨
      (Track.surfaceAt.padLoop M angle laneDistance pads s).maxSpeed = 290 := by
  induction pads with
  | nil => exact Or.inl rfl
  | cons pad rest ih =>
    simp only [Track.surfaceAt.padLoop]
    split
    · exact Or.inr rfl
    · exact ih

/-- Every surface returned by `Track.surfaceAt` has `maxSpeed` at least 65. -/
theorem surfaceAt_maxSpeed [FloorRing K] (M : MathLib K) (t : Track K) (p : Vec K) :
    65 ≤ (t.surfaceAt M p).maxSpeed := by
  simp only [Track.surfaceAt]
  split_ifs
  · norm_num
  · norm_num
  all_goals
    rcases padLoop_maxSpeed M (Track.normalizeAngle M (t.angleFor M p))
      (t.laneDistance M p t.lane) t.boostPads _ with h | h <;> rw [h] <;> norm_num

/-- With a non-negative cap `Racer.applyPhysics` never divides by zero. -/
theorem applyPhysics_isSome (M : MathLib K) (r : Racer K) (dt : K) (surface : Surface K)
    (hcap : 0 ≤ surface.maxSpeed + 50) : ∃ r2, r.applyPhysics M dt surface = some r2 := by
  simp only [Racer.applyPhysics, jsDiv]
  split_ifs with h1 h2
  · rw [h2] at h1
    exact absurd hcap (not_le.mpr h1)
  · exact ⟨_, rfl⟩
  · exact ⟨_, rfl⟩

/-- The integration part of `Racer.update` never divides by zero. -/
theorem integrated_isSome [FloorRing K] (M : MathLib K) (r : Racer K) (dt : K) (t : Track K)
    (i : InputState) (elapsed : K) : ∃ r3, r.integrated M dt t i elapsed = some r3 := by
  have hcap : 0 ≤ (t.surfaceAt M r.position).maxSpeed + 50 := by
    have := surfaceAt_maxSpeed M t r.position
    linarith
  simp only [Racer.integrated]
  obtain ⟨r2, h2⟩ := applyPhysics_isSome M
    (if r.isPlayer = true then r.controlPlayer M dt (t.surfaceAt M r.position) i
      else r.controlAI M dt (t.surfaceAt M r.position) t elapsed) dt _ hcap
  rw [h2]
  exact ⟨_, rfl⟩

/-- Away from the exact centre `Track.clampToBounds` returns a racer. -/
theorem clampToBounds_isSome {M : MathLib K} (hM : SqrtLaws M) (w h : K) (r : Racer K)
    (hc : r.position ≠ (Track.constructor M w h).center) :
    ∃ r1, (Track.constructor M w h).clampToBounds M r = some r1 := by
  by_cases ho : 1 < Track.ellipseValue ((Track.constructor M w h).offset r.position)
      (Track.constructor M w h).outer
  · exact ⟨_, clampToBounds_outer hM w h r ho⟩
  · by_cases hi : Track.ellipseValue ((Track.constructor M w h).offset r.position)
        (Track.constructor M w h).inner < 1
    · rcases (ellipseValue_nonneg ((Track.constructor M w h).offset r.position)
          (Track.constructor M w h).inner).lt_or_eq with hpos | hzero
      · exact ⟨_, clampToBounds_inner hM w h r hpos hi⟩
      · exact absurd ((inner_eq_zero_iff M w h _).mp hzero.symm) hc
    · exact ⟨_, clampToBounds_of_withinBounds M _ r ⟨not_lt.mp ho, not_lt.mp hi⟩⟩

/-- `Racer.update` returns a racer unless the integration has put the racer on
the exact centre of the track. -/
theorem update_isSome [FloorRing K] {M : MathLib K} (hM : SqrtLaws M) (w h : K) (r : Racer K)
    (dt : K) (i : InputState) (elapsed : K)
    (hc : ∀ r3, r.integrated M dt (Track.constructor M w h) i elapsed = some r3 →
      r3.position ≠ (Track.constructor M w h).center) :
    ∃ r1, r.update M dt (Track.constructor M w h) i elapsed = some r1 := by
  cases hf : r.finished with
  | true => exact ⟨r, update_of_finished M r dt _ i elapsed hf⟩
  | false =>
    obtain ⟨r3, h3⟩ := integrated_isSome M r dt (Track.constructor M w h) i elapsed
    obtain ⟨r4, h4⟩ := clampToBounds_isSome hM w h r3 (hc r3 h3)
    rw [update_eq_integrated M r dt _ i elapsed hf, h3, Option.some_bind, h4]
    exact ⟨_, rfl⟩

/-- With `dt = 0` the integration does not move the racer. -/
theorem integrated_dt_zero [FloorRing K] (M : MathLib K) (r r3 : Racer K) (t : Track K)
    (i : InputState) (elapsed : K) (h : r.integrated M 0 t i elapsed = some r3) :
    r3.position = r.position := by
  simp only [Racer.integrated, Option.map_eq_some'] at h
  obtain ⟨r2, h2, rfl⟩ := h
  have hp := (applyPhysics_frame M _ r2 0 _ h2).2.1
  have hc : (if r.isPlayer = true then r.controlPlayer M 0 (t.surfaceAt M r.position) i
      else r.controlAI M 0 (t.surfaceAt M r.position) t elapsed).position = r.position := by
    split_ifs
    · exact (controlPlayer_frame M r 0 _ i).2
    · exact (controlAI_frame M r 0 _ t elapsed).2
  rw [hc] at hp
  simp only [mul_zero, add_zero]
  exact hp

/-- Over the real numbers the player starts at `(480, 115)`, straight above the
centre of the track of a 960 by 540 canvas. -/
theorem real_start_position : (startRacer (MathLib.mk Real.sqrt (fun y x => Complex.arg ⟨x, y⟩) Real.sin Real.cos Real.pi Real.pi_pos)).position = { x := 480, y := 115 } := by
  have h1 : Real.pi * 1.5 + 0 = Real.pi / 2 + Real.pi := by ring
  simp only [startRacer, Game.setupRace.reset, Racer.placeOnTrack, Racer.constructor,
    Track.constructor, h1, Real.cos_add_pi, Real.sin_add_pi, Real.cos_pi_div_two,
    Real.sin_pi_div_two]
  norm_num

/-- The order used by `Leaderboard.push`: `compare(a, b) <= 0` for the comparator
`a.time - b.time`. -/
theorem timeLE_iff (a b : LeaderboardEntry K) :
    decide (a.time - b.time ≤ 0) = true ↔ a.time ≤ b.time := by
  simp

theorem timeLE_trans (a b c : LeaderboardEntry K)
    (h1 : decide (a.time - b.time ≤ 0) = true) (h2 : decide (b.time - c.time ≤ 0) = true) :
    decide (a.time - c.time ≤ 0) = true := by
  rw [timeLE_iff] at *
  exact le_trans h1 h2

theorem timeLE_total (a b : LeaderboardEntry K) :
    (decide (a.time - b.time ≤ 0) || decide (b.time - a.time ≤ 0)) = true := by
  rw [Bool.or_eq_true, timeLE_iff, timeLE_iff]
  exact le_total _ _

/-- The sort of `Leaderboard.push` is the stable ascending sort: its result is
sorted by time, a permutation of the input, and keeps the entries of any one time
in their order. -/
theorem jsSort_time_spec (l : List (LeaderboardEntry K)) :
    (jsSort (fun a b => a.time - b.time) l).Pairwise (fun a b => a.time ≤ b.time) ∧
    (jsSort (fun a b => a.time - b.time) l).Perm l ∧
    ∀ t : K, (jsSort (fun a b => a.time - b.time) l).filter (fun a => decide (a.time = t))
      = l.filter (fun a => decide (a.time = t)) := by
  refine ⟨?_, List.mergeSort_perm _ _, ?_⟩
  · have h : (l.mergeSort fun a b => decide (a.time - b.time ≤ 0)).Pairwise
        (fun a b => decide (a.time - b.time ≤ 0) = true) :=
      List.sorted_mergeSort timeLE_trans timeLE_total l
    exact h.imp fun hab => (timeLE_iff _ _).mp hab
  · intro t
    have hsorted : (l.filter (fun a => decide (a.time = t))).Pairwise
        (fun a b => decide (a.time - b.time ≤ 0) = true) := by
      rw [List.pairwise_iff_forall_sublist]
      intro a b hab
      have ha := hab.subset (List.mem_cons_self _ _)
      have hb := hab.subset (List.mem_cons_of_mem _ (List.mem_cons_self _ _))
      rw [List.mem_filter, decide_eq_true_eq] at ha hb
      rw [timeLE_iff, ha.2, hb.2]
    have hsub : (l.filter (fun a => decide (a.time = t))).Sublist
        (l.mergeSort fun a b => decide (a.time - b.time ≤ 0)) :=
      List.sublist_mergeSort timeLE_trans timeLE_total hsorted (List.filter_sublist l)
    have hsub2 := hsub.filter (fun a => decide (a.time = t))
    rw [List.filter_filter] at hsub2
    simp only [Bool.and_self] at hsub2
    have hperm : ((l.mergeSort fun a b => decide (a.time - b.time ≤ 0)).filter
        (fun a => decide (a.time = t))).Perm (l.filter (fun a => decide (a.time = t))) :=
      (List.mergeSort_perm l _).filter _
    exact (hsub2.eq_of_length hperm.length_eq.symm).symm

theorem sliceTo_of_nonneg {α : Type} (l : List α) (e : Int) (he : 0 ≤ e) :
    sliceTo l e = l.take e.toNat := by
  simp [sliceTo, not_lt.mpr he]

/-- After one push the entries are sorted and no more than the limit. -/
theorem push_sorted (lb : Leaderboard K) (e : LeaderboardEntry K) (hN : 0 ≤ lb.limit) :
    (lb.push e).entries.Pairwise (fun a b => a.time ≤ b.time) ∧
      ((lb.push e).entries.length : Int) ≤ lb.limit ∧ (lb.push e).limit = lb.limit := by
  simp only [Leaderboard.push, sliceTo_of_nonneg _ _ hN]
  refine ⟨(jsSort_time_spec _).1.sublist (List.take_sublist _ _), ?_, trivial⟩
  rw [List.length_take]
  have := Int.toNat_of_nonneg hN
  omega

theorem pushes_sorted (es : List (LeaderboardEntry K)) :
    ∀ lb : Leaderboard K, 0 ≤ lb.limit →
      (lb.entries.Pairwise (fun a b => a.time ≤ b.time) ∧ (lb.entries.length : Int) ≤ lb.limit) →
      (es.foldl Leaderboard.push lb).entries.Pairwise (fun a b => a.time ≤ b.time) ∧
        ((es.foldl Leaderboard.push lb).entries.length : Int) ≤ lb.limit := by
  induction es with
  | nil => intro lb _ h; exact h
  | cons e es ih =>
    intro lb hN _
    obtain ⟨h1, h2, h3⟩ := push_sorted lb e hN
    have := ih (lb.push e) (h3 ▸ hN) ⟨h1, h3 ▸ h2⟩
    rw [h3] at this
    exact this

theorem progLE_iff (a b : Standing K) :
    decide (b.progress - a.progress ≤ 0) = true ↔ b.progress ≤ a.progress := by
  simp

theorem progLE_trans (a b c : Standing K)
    (h1 : decide (b.progress - a.progress ≤ 0) = true)
    (h2 : decide (c.progress - b.progress ≤ 0) = true) :
    decide (c.progress - a.progress ≤ 0) = true := by
  rw [progLE_iff] at *
  exact le_trans h2 h1

theorem progLE_total (a b : Standing K) :
    (decide (b.progress - a.progress ≤ 0) || decide (a.progress - b.progress ≤ 0)) = true := by
  rw [Bool.or_eq_true, progLE_iff, progLE_iff]
  exact le_total _ _

/-- Sorting standings that are listed by increasing racer index puts them in the
strict order `Standing.ahead`. -/
theorem jsSort_ahead (l : List (Standing K)) (hl : l.Pairwise (fun a b => a.racer < b.racer)) :
    (jsSort (fun a b => b.progress - a.progress) l).Pairwise Standing.ahead := by
  have hsorted : (l.mergeSort fun a b => decide (b.progress - a.progress ≤ 0)).Pairwise
      (fun a b => decide (b.progress - a.progress ≤ 0) = true) :=
    List.sorted_mergeSort progLE_trans progLE_total l
  rw [List.pairwise_iff_forall_sublist]
  intro a b hab
  have hge : b.progress ≤ a.progress :=
    (progLE_iff a b).mp (List.pairwise_iff_forall_sublist.mp hsorted hab)
  rcases hge.lt_or_eq with hlt | heq
  · exact Or.inl hlt
  · right
    refine ⟨heq.symm, ?_⟩
    -- the standings of this progress keep the order they have in `l`
    have hsame : (l.filter (fun x => decide (x.progress = a.progress))).Pairwise
        (fun x y => decide (y.progress - x.progress ≤ 0) = true) := by
      rw [List.pairwise_iff_forall_sublist]
      intro x y hxy
      have hx := hxy.subset (List.mem_cons_self _ _)
      have hy := hxy.subset (List.mem_cons_of_mem _ (List.mem_cons_self _ _))
      rw [List.mem_filter, decide_eq_true_eq] at hx hy
      rw [progLE_iff, hx.2, hy.2]
    have hsub : (l.filter (fun x => decide (x.progress = a.progress))).Sublist
        (l.mergeSort fun a b => decide (b.progress - a.progress ≤ 0)) :=
      List.sublist_mergeSort progLE_trans progLE_total hsame (List.filter_sublist l)
    have hsub2 := hsub.filter (fun x => decide (x.progress = a.progress))
    rw [List.filter_filter] at hsub2
    simp only [Bool.and_self] at hsub2
    have hperm : ((l.mergeSort fun a b => decide (b.progress - a.progress ≤ 0)).filter
        (fun x => decide (x.progress = a.progress))).Perm
        (l.filter (fun x => decide (x.progress = a.progress))) :=
      (List.mergeSort_perm l _).filter _
    have heq2 := hsub2.eq_of_length hperm.length_eq.symm
    have hab2 := hab.filter (fun x => decide (x.progress = a.progress))
    simp only [jsSort] at hab2
    rw [← heq2] at hab2
    have hpair : [a, b].filter (fun x => decide (x.progress = a.progress)) = [a, b] := by
      simp [heq]
    rw [hpair] at hab2
    have hl2 : (l.filter (fun x => decide (x.progress = a.progress))).Pairwise
        (fun x y => x.racer < y.racer) := List.Pairwise.filter _ hl
    have hl3 : [a, b].Pairwise (fun x y => x.racer < y.racer) :=
      List.Pairwise.sublist hab2 hl2
    exact (List.pairwise_cons.mp hl3).1 b (List.mem_cons_self _ _)

theorem Standing.ahead_asymm {a b : Standing K} (h : a.ahead b) : ¬ b.ahead a := by
  rintro (h2 | ⟨h2, h3⟩)
  · rcases h with h | ⟨h, _⟩
    · exact lt_asymm h h2
    · rw [h] at h2; exact lt_irrefl _ h2
  · rcases h with h | ⟨_, h⟩
    · rw [h2] at h; exact lt_irrefl _ h
    · exact lt_asymm h h3

/-- In a list in the strict order `Standing.ahead`, the index of an entry is the
number of entries ahead of it. -/
theorem findIdx_eq_count_ahead (e : Standing K) (s : List (Standing K)) :
    s.Pairwise Standing.ahead → e ∈ s → (∀ x ∈ s, x.racer = e.racer → x = e) →
      s.findIdx (fun x => decide (x.racer = e.racer))
        = (s.filter (fun x => decide (x.ahead e))).length := by
  induction s with
  | nil => intro _ he; cases he
  | cons a s ih =>
    intro hp he hinj
    rw [List.pairwise_cons] at hp
    by_cases ha : a.racer = e.racer
    · have hae : a = e := hinj a (List.mem_cons_self _ _) ha
      subst hae
      have hnone : (a :: s).filter (fun x => decide (x.ahead a)) = [] := by
        rw [List.filter_eq_nil_iff]
        intro x hx
        rw [decide_eq_true_eq]
        rcases List.mem_cons.mp hx with rfl | hx
        · exact fun h => Standing.ahead_asymm h h
        · exact Standing.ahead_asymm (hp.1 x hx)
      rw [hnone, List.findIdx_cons]
      simp
    · have hes : e ∈ s := by
        rcases List.mem_cons.mp he with rfl | h
        · exact absurd rfl ha
        · exact h
      have hahead : a.ahead e := hp.1 e hes
      rw [List.findIdx_cons, List.filter_cons]
      simp only [ha, decide_False, cond_false, hahead, decide_True, if_true, List.length_cons]
      rw [ih hp.2 hes (fun x hx => hinj x (List.mem_cons_of_mem _ hx))]

theorem length_filter_or {α : Type} (l : List α) (p q : α → Bool)
    (h : ∀ x, ¬ (p x = true ∧ q x = true)) :
    (l.filter (fun x => p x || q x)).length = (l.filter p).length + (l.filter q).length := by
  induction l with
  | nil => rfl
  | cons a l ih =>
    have ha := h a
    simp only [List.filter_cons]
    cases hp : p a <;> cases hq : q a <;> simp_all <;> omega

omit [LinearOrderedField K] in
/-- The standings built from the racers numbered from `n` carry indices from `n`. -/
theorem standings_ge (f : Racer K → K) (rs : List (Racer K)) :
    ∀ n : Nat, ∀ x ∈ (rs.enumFrom n).map (fun e => ({ racer := e.1, progress := f e.2 } : Standing K)),
      n ≤ x.racer := by
  induction rs with
  | nil => intro n x hx; cases hx
  | cons r rs ih =>
    intro n x hx
    simp only [List.enumFrom_cons, List.map_cons, List.mem_cons] at hx
    rcases hx with rfl | hx
    · exact le_rfl
    · exact le_trans (Nat.le_succ n) (ih (n + 1) x hx)

omit [LinearOrderedField K] in
theorem standings_pairwise (f : Racer K → K) (rs : List (Racer K)) :
    ∀ n : Nat, ((rs.enumFrom n).map
      (fun e => ({ racer := e.1, progress := f e.2 } : Standing K))).Pairwise
        (fun a b => a.racer < b.racer) := by
  induction rs with
  | nil => intro n; exact List.Pairwise.nil
  | cons r rs ih =>
    intro n
    simp only [List.enumFrom_cons, List.map_cons, List.pairwise_cons]
    exact ⟨fun x hx => standings_ge f rs (n + 1) x hx, ih (n + 1)⟩

omit [LinearOrderedField K] in
theorem standings_mem (f : Racer K → K) (rs : List (Racer K)) :
    ∀ (n i : Nat) (hi : i < rs.length),
      ({ racer := n + i, progress := f (rs.get ⟨i, hi⟩) } : Standing K) ∈
        (rs.enumFrom n).map (fun e => ({ racer := e.1, progress := f e.2 } : Standing K)) := by
  induction rs with
  | nil => intro n i hi; cases hi
  | cons r rs ih =>
    intro n i hi
    simp only [List.enumFrom_cons, List.map_cons, List.mem_cons]
    cases i with
    | zero => left; rfl
    | succ i =>
      right
      have := ih (n + 1) i (Nat.lt_of_succ_lt_succ hi)
      rw [show n + 1 + i = n + (i + 1) by omega] at this
      exact this

omit [LinearOrderedField K] in
theorem standings_count (f : Racer K → K) (P : K → Bool) (rs : List (Racer K)) :
    ∀ n : Nat, (((rs.enumFrom n).map
      (fun e => ({ racer := e.1, progress := f e.2 } : Standing K))).filter
        (fun x => P x.progress)).length = (rs.filter (fun r => P (f r))).length := by
  induction rs with
  | nil => intro n; rfl
  | cons r rs ih =>
    intro n
    simp only [List.enumFrom_cons, List.map_cons, List.filter_cons]
    cases P (f r) <;> simp [ih (n + 1)]

omit [LinearOrderedField K] in
theorem standings_count_before (f : Racer K → K) (P : K → Bool) (rs : List (Racer K)) :
    ∀ n i : Nat, (((rs.enumFrom n).map
      (fun e => ({ racer := e.1, progress := f e.2 } : Standing K))).filter
        (fun x => P x.progress && decide (x.racer < n + i))).length
      = ((rs.take i).filter (fun r => P (f r))).length := by
  induction rs with
  | nil => intro n i; simp
  | cons r rs ih =>
    intro n i
    cases i with
    | zero =>
      have hnone : ((((r :: rs).enumFrom n).map
          (fun e => ({ racer := e.1, progress := f e.2 } : Standing K))).filter
          (fun x => P x.progress && decide (x.racer < n + 0))) = [] := by
        rw [List.filter_eq_nil_iff]
        intro x hx
        have := standings_ge f (r :: rs) n x hx
        simp only [Bool.and_eq_true, decide_eq_true_eq, not_and, not_lt, add_zero]
        exact fun _ => this
      rw [hnone]
      rfl
    | succ i =>
      have h := ih (n + 1) i
      rw [show n + 1 + i = n + (i + 1) by omega] at h
      simp only [List.enumFrom_cons, List.map_cons, List.filter_cons, List.take_succ_cons]
      have hlt : n < n + (i + 1) := by omega
      cases P (f r) <;> simp [hlt, h]

theorem hypot_scale {M : MathLib K} (hM : SqrtLaws M) (x y c : K) (hc : 0 ≤ c) :
    hypot M (x * c) (y * c) = c * hypot M x y := by
  unfold hypot
  apply hM.sqrt_eq (mul_nonneg hc (hM.nonneg _))
  have h := hM.mul_self (x * x + y * y) (add_nonneg (mul_self_nonneg x) (mul_self_nonneg y))
  calc c * M.sqrt (x * x + y * y) * (c * M.sqrt (x * x + y * y))
      = c * c * (M.sqrt (x * x + y * y) * M.sqrt (x * x + y * y)) := by ring
    _ = x * c * (x * c) + y * c * (y * c) := by rw [h]; ring

/-- The pad loop overrides the descriptor exactly when some pad matches. -/
theorem padLoop_eq [FloorRing K] (M : MathLib K) (angle laneDistance : K)
    (pads : List (BoostPad K)) (s : Surface K) :
    Track.surfaceAt.padLoop M angle laneDistance pads s =
      if |laneDistance - 1| < 0.09 ∧
          ∃ pad ∈ pads, |shortestAngle M angle pad.angle| < pad.span / 2 then
        { s with boost := 230, grip := 1.05, maxSpeed := 290 }
      else s := by
  induction pads with
  | nil => simp [Track.surfaceAt.padLoop]
  | cons pad rest ih =>
    simp only [Track.surfaceAt.padLoop, List.mem_cons, exists_eq_or_imp]
    by_cases h1 : |shortestAngle M angle pad.angle| < pad.span / 2 ∧ |laneDistance - 1| < 0.09
    · rw [if_pos h1, if_pos ⟨h1.2, Or.inl h1.1⟩]
    · rw [if_neg h1, ih]
      by_cases h2 : |laneDistance - 1| < 0.09
      · have h3 : ¬ |shortestAngle M angle pad.angle| < pad.span / 2 := fun h => h1 ⟨h, h2⟩
        simp only [h2, h3, true_and, false_or]
      · simp only [h2, false_and, if_false]

/-- The descriptor of an on-track position: the band descriptor, overridden when
a pad matches. -/
theorem surfaceAt_of_onTrack [FloorRing K] (M : MathLib K) (t : Track K) (p : Vec K)
    (h : t.onTrack p) :
    t.surfaceAt M p =
      if t.padMatch M p then
        ({ grip := 1.05, maxSpeed := 290, boost := 230, offTrack := false } : Surface K)
      else if t.inLaneBand M p then
        ({ grip := 0.98, maxSpeed := 255, boost := 0, offTrack := false } : Surface K)
      else if t.outsideDetailBand M p then
        ({ grip := 0.68, maxSpeed := 190, boost := 0, offTrack := false } : Surface K)
      else ({ grip := 0.78, maxSpeed := 220, boost := 0, offTrack := false } : Surface K) := by
  obtain ⟨h1, h2⟩ := h
  simp only [Track.offset] at h1 h2
  simp only [Track.surfaceAt, gt_iff_lt, not_lt.mpr h1, not_lt.mpr h2, if_false, padLoop_eq,
    Track.padMatch, Track.inLaneBand, Track.outsideDetailBand, Track.bearing]
  split_ifs <;> rfl

/-- The descriptor of a position that is not on the track has no boost. -/
theorem surfaceAt_of_not_onTrack [FloorRing K] (M : MathLib K) (t : Track K) (p : Vec K)
    (h : ¬ t.onTrack p) :
    (t.surfaceAt M p).boost = 0 ∧ (t.surfaceAt M p).offTrack = true ∧
      ((t.surfaceAt M p).grip = 0.25 ∨ (t.surfaceAt M p).grip = 0.3) ∧
      ((t.surfaceAt M p).maxSpeed = 80 ∨ (t.surfaceAt M p).maxSpeed = 65) := by
  simp only [Track.onTrack, Track.offset, not_and_or, not_le] at h
  by_cases ho : 1.015 < Track.ellipseValue { x := p.x - t.center.x, y := p.y - t.center.y } t.outer
  · simp [Track.surfaceAt, ho]
  · have hi := h.resolve_left ho
    simp [Track.surfaceAt, ho, hi]

/-- Within 0.09 of the lane ellipse is inside the lane band. -/
theorem padMatch_inLaneBand [FloorRing K] (M : MathLib K) (t : Track K) (p : Vec K)
    (h : t.padMatch M p) : t.inLaneBand M p := by
  have h1 := abs_lt.mp h.1
  constructor
  · have : (0.88 : K) < 1 - 0.09 := by norm_num
    linarith [h1.1]
  · have : (1 : K) + 0.09 < 1.12 := by norm_num
    linarith [h1.2]
/-- The remainder differs from the dividend by an integer multiple of the
divisor. -/
theorem jsMod_eq_add [FloorRing K] (a m : K) : ∃ k : Int, jsMod a m = a + m * (k : K) := by
  refine ⟨-truncInt (a / m), ?_⟩
  simp only [jsMod, Int.cast_neg]
  ring

theorem jsMod_of_mem [FloorRing K] (a m : K) (h0 : 0 ≤ a) (h1 : a < m) : jsMod a m = a := by
  have hm : 0 < m := lt_of_le_of_lt h0 h1
  have hq0 : 0 ≤ a / m := div_nonneg h0 hm.le
  have hq1 : a / m < 1 := (div_lt_one hm).mpr h1
  have hf : Int.floor (a / m) = 0 := by
    rw [Int.floor_eq_iff]
    exact ⟨by simpa using hq0, by simpa using hq1⟩
  simp [jsMod, truncInt, hq0, hf]

/-- An angle already in `[0, 2π)` is returned unchanged by `Track.normalizeAngle`. -/
theorem normalizeAngle_of_mem [FloorRing K] (M : MathLib K) (x : K) (h0 : 0 ≤ x)
    (h1 : x < M.pi * 2) : Track.normalizeAngle M x = x := by
  simp only [Track.normalizeAngle, jsMod_of_mem x (M.pi * 2) h0 h1, not_lt.mpr h0, if_false]

/-- The result of `Track.normalizeAngle` differs from its argument by an integer
multiple of `2π`. -/
theorem normalizeAngle_eq_add [FloorRing K] (M : MathLib K) (angle : K) :
    ∃ k : Int, Track.normalizeAngle M angle = angle + M.pi * 2 * (k : K) := by
  obtain ⟨k, hk⟩ := jsMod_eq_add angle (M.pi * 2)
  simp only [Track.normalizeAngle]
  split_ifs
  · refine ⟨k + 1, ?_⟩
    rw [hk]
    push_cast
    ring
  · exact ⟨k, hk⟩

/-- A difference already in `[-π, π]` is returned unchanged by `shortestAngle`. -/
theorem shortestAngle_of_mem [FloorRing K] (M : MathLib K) (a b : K) (h0 : -M.pi ≤ a - b)
    (h1 : a - b ≤ M.pi) : shortestAngle M a b = a - b := by
  unfold shortestAngle
  rw [shortestAngle.raise, if_neg (not_lt.mpr h0), shortestAngle.lower, if_neg (not_lt.mpr h1)]
/-- The first loop of `shortestAngle` adds a multiple of `2π`, ends at or above
`-π`, stays below `π` if it ran at all, and does nothing at or above `-π`. -/
theorem raise_spec [FloorRing K] (M : MathLib K) (diff : K) :
    (∃ k : Int, shortestAngle.raise M diff = diff + M.pi * 2 * (k : K)) ∧
      -M.pi ≤ shortestAngle.raise M diff ∧
      (diff < -M.pi → shortestAngle.raise M diff < M.pi) ∧
      (-M.pi ≤ diff → shortestAngle.raise M diff = diff) := by
  have hp := M.pi_pos
  refine shortestAngle.raise.induct M
    (fun diff => (∃ k : Int, shortestAngle.raise M diff = diff + M.pi * 2 * (k : K)) ∧
      -M.pi ≤ shortestAngle.raise M diff ∧
      (diff < -M.pi → shortestAngle.raise M diff < M.pi) ∧
      (-M.pi ≤ diff → shortestAngle.raise M diff = diff)) ?_ ?_ diff
  · intro x hx ih
    obtain ⟨⟨k, hk⟩, h1, h2, h3⟩ := ih
    rw [shortestAngle.raise, if_pos hx]
    refine ⟨⟨k + 1, ?_⟩, h1, ?_, ?_⟩
    · rw [hk]; push_cast; ring
    · intro _
      by_cases hlt : x + M.pi * 2 < -M.pi
      · exact h2 hlt
      · rw [h3 (not_lt.mp hlt)]
        linarith
    · intro h
      exact absurd hx (not_lt.mpr h)
  · intro x hx
    rw [shortestAngle.raise, if_neg hx]
    exact ⟨⟨0, by simp⟩, not_lt.mp hx, fun h => absurd h hx, fun _ => rfl⟩

/-- The second loop of `shortestAngle` subtracts a multiple of `2π`, ends at or
below `π`, stays above `-π` if it ran at all, and does nothing at or below `π`. -/
theorem lower_spec [FloorRing K] (M : MathLib K) (diff : K) :
    (∃ k : Int, shortestAngle.lower M diff = diff + M.pi * 2 * (k : K)) ∧
      shortestAngle.lower M diff ≤ M.pi ∧
      (M.pi < diff → -M.pi < shortestAngle.lower M diff) ∧
      (diff ≤ M.pi → shortestAngle.lower M diff = diff) := by
  have hp := M.pi_pos
  refine shortestAngle.lower.induct M
    (fun diff => (∃ k : Int, shortestAngle.lower M diff = diff + M.pi * 2 * (k : K)) ∧
      shortestAngle.lower M diff ≤ M.pi ∧
      (M.pi < diff → -M.pi < shortestAngle.lower M diff) ∧
      (diff ≤ M.pi → shortestAngle.lower M diff = diff)) ?_ ?_ diff
  · intro x hx ih
    obtain ⟨⟨k, hk⟩, h1, h2, h3⟩ := ih
    rw [shortestAngle.lower, if_pos hx]
    refine ⟨⟨k - 1, ?_⟩, h1, ?_, ?_⟩
    · rw [hk]; push_cast; ring
    · intro _
      by_cases hgt : M.pi < x - M.pi * 2
      · exact h2 hgt
      · rw [h3 (not_lt.mp hgt)]
        have : M.pi < x := hx
        linarith
    · intro h
      exact absurd hx (not_lt.mpr h)
  · intro x hx
    rw [shortestAngle.lower, if_neg hx]
    exact ⟨⟨0, by simp⟩, not_lt.mp hx, fun h => absurd h hx, fun _ => rfl⟩
/-- The grip of every surface returned by `Track.surfaceAt` is one of six
constants. -/
theorem surfaceAt_grip [FloorRing K] (M : MathLib K) (t : Track K) (p : Vec K) :
    (t.surfaceAt M p).grip = 0.25 ∨ (t.surfaceAt M p).grip = 0.3 ∨
      (t.surfaceAt M p).grip = 0.78 ∨ (t.surfaceAt M p).grip = 0.68 ∨
      (t.surfaceAt M p).grip = 0.98 ∨ (t.surfaceAt M p).grip = 1.05 := by
  by_cases hon : t.onTrack p
  · rw [surfaceAt_of_onTrack M t p hon]
    split_ifs <;> simp
  · obtain ⟨-, -, h | h, -⟩ := surfaceAt_of_not_onTrack M t p hon
    · exact Or.inl h
    · exact Or.inr (Or.inl h)

/-- Every surface returned by `Track.surfaceAt` has `maxSpeed` at most 290. -/
theorem surfaceAt_maxSpeed_le [FloorRing K] (M : MathLib K) (t : Track K) (p : Vec K) :
    (t.surfaceAt M p).maxSpeed ≤ 290 := by
  by_cases hon : t.onTrack p
  · rw [surfaceAt_of_onTrack M t p hon]
    split_ifs <;> norm_num
  · obtain ⟨-, -, -, h | h⟩ := surfaceAt_of_not_onTrack M t p hon <;> rw [h] <;> norm_num

/-- The boost of every surface returned by `Track.surfaceAt` is 0 or 230. -/
theorem surfaceAt_boost_cases [FloorRing K] (M : MathLib K) (t : Track K) (p : Vec K) :
    (t.surfaceAt M p).boost = 0 ∨ (t.surfaceAt M p).boost = 230 := by
  by_cases hon : t.onTrack p
  · rw [surfaceAt_of_onTrack M t p hon]
    split_ifs <;> simp
  · exact Or.inl (surfaceAt_of_not_onTrack M t p hon).1

theorem hypot_nonneg {M : MathLib K} (hM : SqrtLaws M) (x y : K) : 0 ≤ hypot M x y :=
  hM.nonneg _

/-- Scaling both components by `c` scales the speed by `|c|`. -/
theorem hypot_scale_abs {M : MathLib K} (hM : SqrtLaws M) (x y c : K) :
    hypot M (x * c) (y * c) = |c| * hypot M x y := by
  unfold hypot
  apply hM.sqrt_eq (mul_nonneg (abs_nonneg c) (hM.nonneg _))
  have h := hM.mul_self (x * x + y * y) (add_nonneg (mul_self_nonneg x) (mul_self_nonneg y))
  calc |c| * M.sqrt (x * x + y * y) * (|c| * M.sqrt (x * x + y * y))
      = |c| * |c| * (M.sqrt (x * x + y * y) * M.sqrt (x * x + y * y)) := by ring
    _ = x * c * (x * c) + y * c * (y * c) := by rw [h, abs_mul_abs_self]; ring

/-- With a non-negative `maxSpeed`, `Racer.applyPhysics` returns a racer whose
speed is at most the damped speed and at most the cap, whose velocity is a
multiple `k` of the damped velocity with `0 < k ≤ 1`, and nothing else changes. -/
theorem applyPhysics_result {M : MathLib K} (hM : SqrtLaws M) (r : Racer K) (dt : K)
    (surface : Surface K) (hmax : 0 ≤ surface.maxSpeed) :
    ∃ (r1 : Racer K) (k : K), r.applyPhysics M dt surface = some r1 ∧ 0 < k ∧ k ≤ 1 ∧
      r1 = { r with velocity :=
        { x := (r.dampedVelocity dt surface).x * k, y := (r.dampedVelocity dt surface).y * k } } ∧
      r1.speed M ≤ hypot M (r.dampedVelocity dt surface).x (r.dampedVelocity dt surface).y ∧
      r1.speed M ≤ surface.maxSpeed + 50 := by
  have hcap : 0 < surface.maxSpeed + 50 := by linarith
  by_cases hgt : surface.maxSpeed + 50 <
      hypot M (r.dampedVelocity dt surface).x (r.dampedVelocity dt surface).y
  · have hmag : 0 < hypot M (r.dampedVelocity dt surface).x (r.dampedVelocity dt surface).y :=
      lt_trans hcap hgt
    have hk : 0 < (surface.maxSpeed + 50) /
        hypot M (r.dampedVelocity dt surface).x (r.dampedVelocity dt surface).y :=
      div_pos hcap hmag
    have hk1 : (surface.maxSpeed + 50) /
        hypot M (r.dampedVelocity dt surface).x (r.dampedVelocity dt surface).y ≤ 1 :=
      (div_le_one hmag).mpr hgt.le
    have hspeed : hypot M
        ((r.dampedVelocity dt surface).x * ((surface.maxSpeed + 50) /
          hypot M (r.dampedVelocity dt surface).x (r.dampedVelocity dt surface).y))
        ((r.dampedVelocity dt surface).y * ((surface.maxSpeed + 50) /
          hypot M (r.dampedVelocity dt surface).x (r.dampedVelocity dt surface).y))
        = surface.maxSpeed + 50 := by
      rw [hypot_scale hM _ _ _ hk.le]
      field_simp
    refine ⟨_, _, ?_, hk, hk1, rfl, ?_, ?_⟩
    · simp only [Racer.dampedVelocity] at hgt hmag
      simp only [Racer.applyPhysics, Racer.speed, gt_iff_lt, hgt, if_true, jsDiv, hmag.ne',
        if_false, Option.map_some', Racer.dampedVelocity]
    · simp only [Racer.speed]
      rw [hspeed]
      exact hgt.le
    · simp only [Racer.speed]
      exact hspeed.le
  · refine ⟨_, 1, ?_, one_pos, le_rfl, rfl, ?_, ?_⟩
    · simp only [Racer.dampedVelocity] at hgt
      simp only [Racer.applyPhysics, Racer.speed, gt_iff_lt, hgt, if_false,
        Racer.dampedVelocity, mul_one]
    · simp only [Racer.speed, mul_one]
      exact le_rfl
    · simp only [Racer.speed, mul_one]
      exact not_lt.mp hgt

/-- For `0 ≤ dt ≤ 1` the product of the drag factor and the grip factor has
absolute value at most 1, whatever the grip. -/
theorem damping_factor_le_one (grip dt : K) (h0 : 0 ≤ dt) (h1 : dt ≤ 1) :
    |(1 - 0.68 * dt) * (1 - (1 - clamp grip 0.2 1.25) * 1.4 * dt)| ≤ 1 := by
  have hg0 : (0.2 : K) ≤ clamp grip 0.2 1.25 := le_max_left _ _
  have hg1 : clamp grip 0.2 1.25 ≤ 1.25 := by
    unfold clamp
    exact max_le (by norm_num) (min_le_left _ _)
  have ha0 : (0.32 : K) ≤ 1 - 0.68 * dt := by
    have : (0.68 : K) * dt ≤ 0.68 * 1 := mul_le_mul_of_nonneg_left h1 (by norm_num)
    have e : (0.32 : K) = 1 - 0.68 * 1 := by norm_num
    linarith
  have ha1 : 1 - 0.68 * dt ≤ 1 := by
    have : (0 : K) ≤ 0.68 * dt := mul_nonneg (by norm_num) h0
    linarith
  generalize clamp grip 0.2 1.25 = g at hg0 hg1
  have hb0 : -(0.12 : K) ≤ 1 - (1 - g) * 1.4 * dt := by
    have h2 : (1 - g) * 1.4 ≤ 1.12 := by
      have e : (1.12 : K) = (1 - 0.2) * 1.4 := by norm_num
      rw [e]
      exact mul_le_mul_of_nonneg_right (by linarith) (by norm_num)
    have h3 : (1 - g) * 1.4 * dt ≤ 1.12 := by
      by_cases hs : 0 ≤ (1 - g) * 1.4
      · calc (1 - g) * 1.4 * dt ≤ (1 - g) * 1.4 * 1 := mul_le_mul_of_nonneg_left h1 hs
          _ ≤ 1.12 := by rw [mul_one]; exact h2
      · have : (1 - g) * 1.4 * dt ≤ 0 :=
          mul_nonpos_of_nonpos_of_nonneg (not_le.mp hs).le h0
        have e : (0 : K) ≤ 1.12 := by norm_num
        linarith
    have e : -(0.12 : K) = 1 - 1.12 := by norm_num
    linarith
  have hb1 : 1 - (1 - g) * 1.4 * dt ≤ 1 + 0.35 * dt := by
    have h2 : -(0.35 : K) ≤ (1 - g) * 1.4 := by
      have e : -(0.35 : K) = (1 - 1.25) * 1.4 := by norm_num
      rw [e]
      exact mul_le_mul_of_nonneg_right (by linarith) (by norm_num)
    have h3 : -(0.35 : K) * dt ≤ (1 - g) * 1.4 * dt := mul_le_mul_of_nonneg_right h2 h0
    linarith
  rw [abs_le]
  constructor
  · have e : (0.12 : K) ≤ 1 := by norm_num
    nlinarith
  · have e1 : (1 - 0.68 * dt) * (1 + 0.35 * dt) ≤ 1 := by
      have e2 : (1 - 0.68 * dt) * (1 + 0.35 * dt) = 1 - 0.33 * dt - 0.238 * (dt * dt) := by
        norm_num
        ring
      have e3 : (0 : K) ≤ 0.33 * dt := mul_nonneg (by norm_num) h0
      have e4 : (0 : K) ≤ 0.238 * (dt * dt) := mul_nonneg (by norm_num) (mul_self_nonneg dt)
      linarith
    have e5 : (1 - 0.68 * dt) * (1 - (1 - g) * 1.4 * dt) ≤ (1 - 0.68 * dt) * (1 + 0.35 * dt) :=
      mul_le_mul_of_nonneg_left hb1 (by linarith)
    linarith
/-- Over the real numbers `Math.atan2` returns the angle of a point given in polar
form. -/
theorem real_arg_polar (k θ : ℝ) (hk : 0 < k) (h0 : -Real.pi < θ) (h1 : θ ≤ Real.pi) :
    Complex.arg ⟨k * Real.cos θ, k * Real.sin θ⟩ = θ := by
  have e : (⟨k * Real.cos θ, k * Real.sin θ⟩ : ℂ)
      = (k : ℂ) * (Complex.cos (θ : ℂ) + Complex.sin (θ : ℂ) * Complex.I) := by
    apply Complex.ext
    · simp [Complex.cos_ofReal_re]
    · simp [Complex.sin_ofReal_re]
  rw [e]
  exact Complex.arg_mul_cos_add_sin_mul_I hk ⟨h0, h1⟩

/-- Over the real numbers the bearing of `padPoint` is `0.08π`. -/
theorem real_bearing_padPoint :
    (Track.constructor (MathLib.mk Real.sqrt (fun y x => Complex.arg ⟨x, y⟩) Real.sin Real.cos Real.pi Real.pi_pos) 960 540).bearing (MathLib.mk Real.sqrt (fun y x => Complex.arg ⟨x, y⟩) Real.sin Real.cos Real.pi Real.pi_pos) (padPoint (MathLib.mk Real.sqrt (fun y x => Complex.arg ⟨x, y⟩) Real.sin Real.cos Real.pi Real.pi_pos)) = Real.pi * 0.08 := by
  have hp := Real.pi_pos
  have harg : (Track.constructor (MathLib.mk Real.sqrt (fun y x => Complex.arg ⟨x, y⟩) Real.sin Real.cos Real.pi Real.pi_pos) 960 540).angleFor (MathLib.mk Real.sqrt (fun y x => Complex.arg ⟨x, y⟩) Real.sin Real.cos Real.pi Real.pi_pos) (padPoint (MathLib.mk Real.sqrt (fun y x => Complex.arg ⟨x, y⟩) Real.sin Real.cos Real.pi Real.pi_pos)) = Real.pi * 0.08 := by
    simp only [Track.angleFor, Track.constructor, padPoint]
    have e2 : (480 + 360 * (0.74 * Real.cos (Real.pi * 0.08)) - 960 / 2) / 360
        = 0.74 * Real.cos (Real.pi * 0.08) := by ring
    have e3 : (270 + 210 * (0.74 * Real.sin (Real.pi * 0.08)) - 540 / 2) / 210
        = 0.74 * Real.sin (Real.pi * 0.08) := by ring
    rw [e2, e3]
    exact real_arg_polar 0.74 (Real.pi * 0.08) (by norm_num) (by linarith) (by linarith)
  unfold Track.bearing
  rw [harg]
  exact normalizeAngle_of_mem _ _ (by show (0 : ℝ) ≤ Real.pi * 0.08; linarith)
    (by show Real.pi * 0.08 < Real.pi * 2; linarith)

/-- Over the real numbers `padPoint` is on the track and matches the first boost
pad. -/
theorem real_padPoint_match :
    (Track.constructor (MathLib.mk Real.sqrt (fun y x => Complex.arg ⟨x, y⟩) Real.sin Real.cos Real.pi Real.pi_pos) 960 540).onTrack (padPoint (MathLib.mk Real.sqrt (fun y x => Complex.arg ⟨x, y⟩) Real.sin Real.cos Real.pi Real.pi_pos)) ∧
      (Track.constructor (MathLib.mk Real.sqrt (fun y x => Complex.arg ⟨x, y⟩) Real.sin Real.cos Real.pi Real.pi_pos) 960 540).padMatch (MathLib.mk Real.sqrt (fun y x => Complex.arg ⟨x, y⟩) Real.sin Real.cos Real.pi Real.pi_pos) (padPoint (MathLib.mk Real.sqrt (fun y x => Complex.arg ⟨x, y⟩) Real.sin Real.cos Real.pi Real.pi_pos)) := by
  have hcs := Real.cos_sq_add_sin_sq (Real.pi * 0.08)
  have hc := sq_nonneg (Real.cos (Real.pi * 0.08))
  have hs := sq_nonneg (Real.sin (Real.pi * 0.08))
  refine ⟨⟨?_, ?_⟩, ?_, ?_⟩
  · simp only [Track.ellipseValue, Track.offset, Track.constructor, padPoint]
    have e : (480 + 360 * (0.74 * Real.cos (Real.pi * 0.08)) - 960 / 2) *
        (480 + 360 * (0.74 * Real.cos (Real.pi * 0.08)) - 960 / 2) / (360 * 360) +
        (270 + 210 * (0.74 * Real.sin (Real.pi * 0.08)) - 540 / 2) *
        (270 + 210 * (0.74 * Real.sin (Real.pi * 0.08)) - 540 / 2) / (210 * 210)
        = 0.74 * 0.74 * (Real.cos (Real.pi * 0.08) ^ 2 + Real.sin (Real.pi * 0.08) ^ 2) := by
      ring
    rw [e, hcs]
    norm_num
  · simp only [Track.ellipseValue, Track.offset, Track.constructor, padPoint]
    have e : (480 + 360 * (0.74 * Real.cos (Real.pi * 0.08)) - 960 / 2) *
        (480 + 360 * (0.74 * Real.cos (Real.pi * 0.08)) - 960 / 2) / (188 * 188) +
        (270 + 210 * (0.74 * Real.sin (Real.pi * 0.08)) - 540 / 2) *
        (270 + 210 * (0.74 * Real.sin (Real.pi * 0.08)) - 540 / 2) / (116 * 116)
        = (360 * 0.74 / 188) ^ 2 * Real.cos (Real.pi * 0.08) ^ 2
          + (210 * 0.74 / 116) ^ 2 * Real.sin (Real.pi * 0.08) ^ 2 := by
      ring
    rw [e]
    nlinarith
  · simp only [Track.laneDistance, Track.constructor, padPoint]
    have e : (480 + 360 * (0.74 * Real.cos (Real.pi * 0.08)) - 960 / 2) / 270 *
        ((480 + 360 * (0.74 * Real.cos (Real.pi * 0.08)) - 960 / 2) / 270) +
        (270 + 210 * (0.74 * Real.sin (Real.pi * 0.08)) - 540 / 2) / 155 *
        ((270 + 210 * (0.74 * Real.sin (Real.pi * 0.08)) - 540 / 2) / 155)
        = (360 * 0.74 / 270) ^ 2 * Real.cos (Real.pi * 0.08) ^ 2
          + (210 * 0.74 / 155) ^ 2 * Real.sin (Real.pi * 0.08) ^ 2 := by
      ring
    rw [e, abs_lt]
    constructor
    · have h1 : (0.91 : ℝ) < Real.sqrt ((360 * 0.74 / 270) ^ 2 * Real.cos (Real.pi * 0.08) ^ 2
          + (210 * 0.74 / 155) ^ 2 * Real.sin (Real.pi * 0.08) ^ 2) := by
        apply Real.lt_sqrt_of_sq_lt
        nlinarith
      linarith
    · have h2 : Real.sqrt ((360 * 0.74 / 270) ^ 2 * Real.cos (Real.pi * 0.08) ^ 2
          + (210 * 0.74 / 155) ^ 2 * Real.sin (Real.pi * 0.08) ^ 2) < 1.09 := by
        rw [Real.sqrt_lt' (by norm_num)]
        nlinarith
      linarith
  · refine ⟨{ angle := Real.pi * 0.08, span := 0.32 }, ?_, ?_⟩
    · simp [Track.constructor]
    · rw [real_bearing_padPoint]
      rw [shortestAngle_of_mem _ _ _ (by simp [Real.pi_pos.le]) (by simp [Real.pi_pos.le])]
      norm_num

theorem controlPlayer_dt_zero (M : MathLib K) (r : Racer K) (surface : Surface K)
    (i : InputState) : r.controlPlayer M 0 surface i = r := by
  simp only [Racer.controlPlayer, mul_zero, add_zero]
  split_ifs <;> rfl

theorem controlAI_dt_zero [FloorRing K] (M : MathLib K) (r : Racer K) (surface : Surface K)
    (t : Track K) (elapsed : K) : r.controlAI M 0 surface t elapsed = r := by
  simp only [Racer.controlAI, mul_zero, add_zero, zero_mul]
  split_ifs <;> rfl

/-- With `dt = 0` the damping lines of `Racer.applyPhysics` change nothing; only
the speed cap is applied. -/
theorem applyPhysics_dt_zero (M : MathLib K) (r : Racer K) (surface : Surface K) :
    r.applyPhysics M 0 surface =
      if r.speed M > surface.maxSpeed + 50 then
        (jsDiv (surface.maxSpeed + 50) (r.speed M)).map fun scale =>
          { r with velocity := { x := r.velocity.x * scale, y := r.velocity.y * scale } }
      else some r := by
  simp only [Racer.applyPhysics, Racer.speed, mul_zero, sub_zero, mul_one]

/-- The fields that `Racer.updateLapProgress` leaves alone. -/
theorem updateLapProgress_frame [FloorRing K] (M : MathLib K) (r : Racer K) (t : Track K)
    (surface : Surface K) (elapsed : K) :
    (r.updateLapProgress M t surface elapsed).position = r.position ∧
      (r.updateLapProgress M t surface elapsed).velocity = r.velocity ∧
      (r.updateLapProgress M t surface elapsed).heading = r.heading ∧
      (r.updateLapProgress M t surface elapsed).isPlayer = r.isPlayer := by
  simp only [Racer.updateLapProgress]
  split_ifs <;> exact ⟨rfl, rfl, rfl, rfl⟩

/-- With `dt = 0` the integration part of `Racer.update` is `Racer.applyPhysics`
alone. -/
theorem integrated_dt_zero_eq [FloorRing K] (M : MathLib K) (r : Racer K) (t : Track K)
    (i : InputState) (elapsed : K) :
    r.integrated M 0 t i elapsed = r.applyPhysics M 0 (t.surfaceAt M r.position) := by
  have hctl : (if r.isPlayer = true then r.controlPlayer M 0 (t.surfaceAt M r.position) i
      else r.controlAI M 0 (t.surfaceAt M r.position) t elapsed) = r := by
    split_ifs
    · exact controlPlayer_dt_zero M r _ i
    · exact controlAI_dt_zero M r _ t elapsed
  simp only [Racer.integrated, hctl, mul_zero, add_zero]
  cases r.applyPhysics M 0 (t.surfaceAt M r.position) <;> rfl

/-- A tick with `dt = 0` on a racer that has not finished and is within the
bounds: position and heading are unchanged, and the velocity is unchanged unless
the speed exceeds the cap of the surface, in which case it is rescaled to it. -/
theorem update_dt_zero [FloorRing K] (M : MathLib K) (t : Track K) (r : Racer K)
    (i : InputState) (elapsed : K) (hfin : r.finished = false)
    (hb : t.withinBounds r.position) :
    ∃ r1 : Racer K, r.update M 0 t i elapsed = some r1 ∧
      r1.position = r.position ∧ r1.heading = r.heading ∧
      (r.speed M ≤ (t.surfaceAt M r.position).maxSpeed + 50 → r1.velocity = r.velocity) ∧
      ((t.surfaceAt M r.position).maxSpeed + 50 < r.speed M →
        r1.velocity =
          { x := r.velocity.x * (((t.surfaceAt M r.position).maxSpeed + 50) / r.speed M),
            y := r.velocity.y * (((t.surfaceAt M r.position).maxSpeed + 50) / r.speed M) }) := by
  have hcap : 0 < (t.surfaceAt M r.position).maxSpeed + 50 := by
    have := surfaceAt_maxSpeed M t r.position
    linarith
  rw [update_eq_integrated M r 0 t i elapsed hfin, integrated_dt_zero_eq, applyPhysics_dt_zero]
  by_cases hgt : r.speed M > (t.surfaceAt M r.position).maxSpeed + 50
  · have hne : r.speed M ≠ 0 := (lt_trans hcap hgt).ne'
    rw [if_pos hgt]
    simp only [jsDiv, hne, if_false, Option.map_some', Option.some_bind]
    rw [clampToBounds_of_withinBounds M t
      ({ r with velocity :=
          { x := r.velocity.x * (((t.surfaceAt M r.position).maxSpeed + 50) / r.speed M),
            y := r.velocity.y * (((t.surfaceAt M r.position).maxSpeed + 50) / r.speed M) } }
        : Racer K) hb]
    obtain ⟨h1, h2, h3, -⟩ := updateLapProgress_frame M
      ({ r with velocity :=
          { x := r.velocity.x * (((t.surfaceAt M r.position).maxSpeed + 50) / r.speed M),
            y := r.velocity.y * (((t.surfaceAt M r.position).maxSpeed + 50) / r.speed M) } }
        : Racer K) t (t.surfaceAt M r.position) elapsed
    exact ⟨_, rfl, h1, h3, fun hle => absurd hgt (not_lt.mpr hle), fun _ => h2⟩
  · rw [if_neg hgt, Option.some_bind, clampToBounds_of_withinBounds M t r hb]
    obtain ⟨h1, h2, h3, -⟩ := updateLapProgress_frame M r t (t.surfaceAt M r.position) elapsed
    exact ⟨_, rfl, h1, h3, fun _ => h2, fun h => absurd h hgt⟩
theorem withinBounds_onTrack (t : Track K) (p : Vec K) (h : t.withinBounds p) :
    t.onTrack p :=
  ⟨le_trans h.1 (by norm_num), h.2⟩

/-- An on-track position is classified `offTrack = false`. -/
theorem surfaceAt_offTrack_of_onTrack [FloorRing K] (M : MathLib K) (t : Track K) (p : Vec K)
    (h : t.onTrack p) : (t.surfaceAt M p).offTrack = false := by
  rw [surfaceAt_of_onTrack M t p h]
  split_ifs <;> rfl

/-- Every racer returned by `Racer.update` for a racer that has not finished is
within the bounds of the constructed track. -/
theorem update_withinBounds [FloorRing K] {M : MathLib K} (hM : SqrtLaws M) (w h : K)
    (r r1 : Racer K) (dt : K) (i : InputState) (elapsed : K) (hfin : r.finished = false)
    (hr : r.update M dt (Track.constructor M w h) i elapsed = some r1) :
    (Track.constructor M w h).withinBounds r1.position := by
  rw [update_eq_integrated M r dt _ i elapsed hfin] at hr
  simp only [Option.bind_eq_some, Option.map_eq_some'] at hr
  obtain ⟨r3, -, r4, h4, rfl⟩ := hr
  rw [(updateLapProgress_frame M r4 _ _ elapsed).1]
  exact clampToBounds_withinBounds hM w h r3 r4 h4

theorem updates_append [FloorRing K] (M : MathLib K) (t : Track K) (ks1 ks2 : List (Tick K)) :
    ∀ r : Racer K, r.updates M t (ks1 ++ ks2) =
      (r.updates M t ks1).bind fun r1 => r1.updates M t ks2 := by
  induction ks1 with
  | nil => intro r; rfl
  | cons k ks ih =>
    intro r
    simp only [List.cons_append, Racer.updates]
    cases r.update M k.dt t k.inputState k.elapsed with
    | none => rfl
    | some r1 => exact ih r1

/-- A racer that starts on the track is on the track after every run of updates. -/
theorem updates_onTrack [FloorRing K] {M : MathLib K} (hM : SqrtLaws M) (w h : K)
    (ks : List (Tick K)) :
    ∀ r0 r : Racer K, ((Track.constructor M w h).surfaceAt M r0.position).offTrack = false →
      r0.updates M (Track.constructor M w h) ks = some r →
      ((Track.constructor M w h).surfaceAt M r.position).offTrack = false := by
  induction ks with
  | nil =>
    intro r0 r h0 hr
    simp only [Racer.updates, Option.some.injEq] at hr
    rw [← hr]
    exact h0
  | cons k ks ih =>
    intro r0 r h0 hr
    simp only [Racer.updates, Option.bind_eq_some] at hr
    obtain ⟨r1, h1, h2⟩ := hr
    refine ih r1 r ?_ h2
    cases hf : r0.finished with
    | true =>
      rw [update_of_finished M r0 _ _ _ _ hf] at h1
      cases h1
      exact h0
    | false =>
      exact surfaceAt_offTrack_of_onTrack M _ _
        (withinBounds_onTrack _ _ (update_withinBounds hM w h r0 r1 _ _ _ hf h1))

/-- Over the real numbers the velocity `(1000, 0)` has speed 1000. -/
theorem real_hypot_thousand : hypot (MathLib.mk Real.sqrt (fun y x => Complex.arg ⟨x, y⟩) Real.sin Real.cos Real.pi Real.pi_pos) 1000 0 = 1000 := by
  simp only [hypot]
  rw [show (1000 : ℝ) * 1000 + 0 * 0 = 1000 * 1000 by norm_num]
  exact Real.sqrt_mul_self (by norm_num)

/-- Over the real numbers the player at the start is within the bounds of the
track of a 960 by 540 canvas. -/
theorem real_start_withinBounds :
    (Track.constructor (MathLib.mk Real.sqrt (fun y x => Complex.arg ⟨x, y⟩) Real.sin Real.cos Real.pi Real.pi_pos) 960 540).withinBounds (startRacer (MathLib.mk Real.sqrt (fun y x => Complex.arg ⟨x, y⟩) Real.sin Real.cos Real.pi Real.pi_pos)).position := by
  rw [real_start_position]
  simp only [Track.withinBounds, Track.ellipseValue, Track.offset, Track.constructor]
  norm_num

/-- The velocity after `Racer.controlPlayer` with only forward pressed, for a
heading with cosine 0 and sine -1: the thrust 230, and the boost if there is
one, are added along `(0, -1)`. -/
theorem controlPlayer_forward (M : MathLib K) (r : Racer K) (dt : K) (surface : Surface K)
    (hcos : M.cos r.heading = 0) (hsin : M.sin r.heading = -1) :
    (r.controlPlayer M dt surface forwardInput).velocity.x = r.velocity.x ∧
    (r.controlPlayer M dt surface forwardInput).velocity.y =
      r.velocity.y - (230 + (if surface.boost > 0 then surface.boost else 0)) * dt ∧
    (r.controlPlayer M dt surface forwardInput).heading = r.heading := by
  simp only [Racer.controlPlayer, forwardInput, boolToNumber, directionFromAngle, hcos, hsin,
    if_true, if_false, Bool.false_eq_true, sub_self, zero_mul, add_zero, mul_zero]
  split_ifs <;> refine ⟨?_, ?_, ?_⟩ <;> simp <;> ring

/-- For `0 ≤ dt ≤ 1/2` the product of the drag factor and the grip factor is not
negative. -/
theorem damping_factor_nonneg (grip dt : K) (h0 : 0 ≤ dt) (h1 : dt ≤ 1 / 2) :
    0 ≤ (1 - 0.68 * dt) * (1 - (1 - clamp grip 0.2 1.25) * 1.4 * dt) := by
  have hg0 : (0.2 : K) ≤ clamp grip 0.2 1.25 := le_max_left _ _
  generalize clamp grip 0.2 1.25 = g at hg0
  have ha : 0 ≤ 1 - 0.68 * dt := by
    have : (0.68 : K) * dt ≤ 0.68 * (1 / 2) := mul_le_mul_of_nonneg_left h1 (by norm_num)
    have e : (0.68 : K) * (1 / 2) ≤ 1 := by norm_num
    linarith
  have hb : 0 ≤ 1 - (1 - g) * 1.4 * dt := by
    by_cases hs : 0 ≤ (1 - g) * 1.4
    · have h2 : (1 - g) * 1.4 ≤ 1.12 := by
        have e : (1.12 : K) = (1 - 0.2) * 1.4 := by norm_num
        rw [e]
        exact mul_le_mul_of_nonneg_right (by linarith) (by norm_num)
      have h3 : (1 - g) * 1.4 * dt ≤ 1.12 * (1 / 2) :=
        mul_le_mul h2 h1 h0 (by norm_num)
      have e : (1.12 : K) * (1 / 2) ≤ 1 := by norm_num
      linarith
    · have : (1 - g) * 1.4 * dt ≤ 0 := mul_nonpos_of_nonpos_of_nonneg (not_le.mp hs).le h0
      linarith
  exact mul_nonneg ha hb

/-- A speed that is at most the old speed plus `b` gains at most `2 b` times
itself in square. -/
theorem sq_le_of_le_add {u b v : K} (hv0 : 0 ≤ v) (hv : v ≤ u + b) :
    v * v ≤ u * u + 2 * b * v := by
  nlinarith [mul_nonneg hv0 (sub_nonneg.mpr hv), mul_self_nonneg (u - v),
    mul_self_nonneg (v - b)]
/-- The integration part of a forward tick for a racer that heads straight away
from the centre: the racer stays on its ray, and its new speed `v` is at most the
old speed plus `460 / 60`. -/
theorem headOn_integrated [FloorRing K] {M : MathLib K} (hM : SqrtLaws M) (t : Track K)
    (r : Racer K) (elapsed : K) (ho : headOn M t r) :
    ∃ (r3 : Racer K) (v : K),
      r.integrated M (1 / 60) t forwardInput elapsed = some r3 ∧
      r3.isPlayer = true ∧ r3.heading = r.heading ∧ r3.velocity = { x := 0, y := -v } ∧
      r3.position = { x := r.position.x, y := r.position.y - v / 60 } ∧
      0 ≤ v ∧ v ≤ -r.velocity.y + 460 / 60 := by
  obtain ⟨hpl, hcos, hsin, hvx, hvy, -, -, -, -⟩ := ho
  have hmax : 0 ≤ (t.surfaceAt M r.position).maxSpeed := by
    have := surfaceAt_maxSpeed M t r.position
    linarith
  obtain ⟨c1, c2, c3⟩ := controlPlayer_forward M r (1 / 60) (t.surfaceAt M r.position) hcos hsin
  obtain ⟨cf, cpos⟩ := controlPlayer_frame M r (1 / 60) (t.surfaceAt M r.position) forwardInput
  obtain ⟨r2, k, h2, hk0, hk1, hr2, -, -⟩ := applyPhysics_result hM
    (r.controlPlayer M (1 / 60) (t.surfaceAt M r.position) forwardInput) (1 / 60)
    (t.surfaceAt M r.position) hmax
  have hF0 := damping_factor_nonneg (t.surfaceAt M r.position).grip (1 / 60 : K)
    (by norm_num) (by norm_num)
  have hF1 := (abs_le.mp (damping_factor_le_one (t.surfaceAt M r.position).grip (1 / 60 : K)
    (by norm_num) (by norm_num))).2
  -- the speed after the control policy
  have hb : (0 : K) ≤ (if (t.surfaceAt M r.position).boost > 0
      then (t.surfaceAt M r.position).boost else 0) ∧
      (if (t.surfaceAt M r.position).boost > 0
        then (t.surfaceAt M r.position).boost else 0) ≤ 230 := by
    rcases surfaceAt_boost_cases M t r.position with h | h <;> rw [h] <;> norm_num
  generalize (if (t.surfaceAt M r.position).boost > 0
      then (t.surfaceAt M r.position).boost else 0) = b at c2 hb
  have hFk0 : 0 ≤ (1 - 0.68 * (1 / 60 : K)) *
      (1 - (1 - clamp (t.surfaceAt M r.position).grip 0.2 1.25) * 1.4 * (1 / 60)) * k :=
    mul_nonneg hF0 hk0.le
  have hFk1 : (1 - 0.68 * (1 / 60 : K)) *
      (1 - (1 - clamp (t.surfaceAt M r.position).grip 0.2 1.25) * 1.4 * (1 / 60)) * k ≤ 1 := by
    calc (1 - 0.68 * (1 / 60 : K)) *
          (1 - (1 - clamp (t.surfaceAt M r.position).grip 0.2 1.25) * 1.4 * (1 / 60)) * k
        ≤ 1 * 1 := mul_le_mul hF1 hk1 hk0.le zero_le_one
      _ = 1 := one_mul 1
  have huc : 0 ≤ -r.velocity.y + (230 + b) * (1 / 60) := by
    have : 0 ≤ (230 + b) * (1 / 60 : K) := mul_nonneg (by linarith [hb.1]) (by norm_num)
    linarith
  refine ⟨{ r2 with position :=
      { x := r2.position.x + r2.velocity.x * (1 / 60),
        y := r2.position.y + r2.velocity.y * (1 / 60) } },
    (-r.velocity.y + (230 + b) * (1 / 60)) * ((1 - 0.68 * (1 / 60 : K)) *
      (1 - (1 - clamp (t.surfaceAt M r.position).grip 0.2 1.25) * 1.4 * (1 / 60)) * k),
    ?_, ?_, ?_, ?_, ?_, mul_nonneg huc hFk0, ?_⟩
  · simp only [Racer.integrated, hpl, if_true, h2, Option.map_some']
  · rw [hr2]
    exact cf.2.2.2.2.2.1.trans hpl
  · rw [hr2]
    exact c3
  · rw [hr2]
    simp only [Racer.dampedVelocity, c1, c2, hvx, zero_mul, Vec.mk.injEq, true_and]
    ring
  · rw [hr2]
    simp only [Racer.dampedVelocity, c1, c2, hvx, zero_mul, cpos, add_zero, Vec.mk.injEq,
      true_and]
    ring
  · calc (-r.velocity.y + (230 + b) * (1 / 60)) * ((1 - 0.68 * (1 / 60 : K)) *
          (1 - (1 - clamp (t.surfaceAt M r.position).grip 0.2 1.25) * 1.4 * (1 / 60)) * k)
        ≤ (-r.velocity.y + (230 + b) * (1 / 60)) * 1 := mul_le_mul_of_nonneg_left hFk1 huc
      _ ≤ -r.velocity.y + 460 / 60 := by
        have : (230 + b) * (1 / 60 : K) ≤ 460 / 60 := by linarith [hb.2]
        linarith
/-- A racer on its ray beyond the outer ellipse, put back at 208.95 from the
centre with 0.45 of its speed, heads straight away from the centre again. -/
theorem headOn_projected (M : MathLib K) (t : Track K) (r3 : Racer K) (v q c : K)
    (hpl : r3.isPlayer = true) (hcos : M.cos r3.heading = 0) (hsin : M.sin r3.heading = -1)
    (hvel : r3.velocity = { x := 0, y := -v })
    (hoff : t.offset r3.position = { x := 0, y := -q })
    (hc : q * c = 208.95) (hv0 : 0 ≤ v) (hvv : v * v ≤ 240 * 240) :
    headOn M t (t.projected r3 c 0.45) := by
  have hvx : (t.projected r3 c 0.45).velocity.x = 0 := by
    show r3.velocity.x * 0.45 = 0
    rw [hvel]
    exact zero_mul _
  have hvy : (t.projected r3 c 0.45).velocity.y = -(v * 0.45) := by
    show r3.velocity.y * 0.45 = -(v * 0.45)
    rw [hvel]
    exact neg_mul _ _
  have hpx : (t.projected r3 c 0.45).position.x = t.center.x := by
    show t.center.x + (t.offset r3.position).x * c = t.center.x
    rw [hoff]
    simp
  have hpy : t.center.y - (t.projected r3 c 0.45).position.y = 208.95 := by
    show t.center.y - (t.center.y + (t.offset r3.position).y * c) = 208.95
    rw [hoff, ← hc]
    ring
  refine ⟨hpl, hcos, hsin, hvx, ?_, hpx, ?_, ?_, ?_⟩
  · rw [hvy]
    have : 0 ≤ v * 0.45 := mul_nonneg hv0 (by norm_num)
    linarith
  · rw [hpy]; norm_num
  · rw [hpy]; norm_num
  · rw [hvy, hpy]
    have e2 : -(v * 0.45) * -(v * 0.45) = 0.2025 * (v * v) := by ring
    rw [e2]
    have e3 : (0.2025 : K) * (240 * 240) ≤ 920 * (208.95 - 155) := by norm_num
    have e4 : (0.2025 : K) * (v * v) ≤ 0.2025 * (240 * 240) :=
      mul_le_mul_of_nonneg_left hvv (by norm_num)
    linarith
/-- At the wall the speed is below 240. -/
theorem wall_speed_bound {p v : K} (hp1 : p ≤ 210)
    (h : v * v ≤ 920 * (p + v / 60 - 155)) : v * v ≤ 240 * 240 := by
  have h1 : v ≤ 240 := by nlinarith [mul_self_nonneg (v - 240)]
  nlinarith

theorem headOn_updateLapProgress [FloorRing K] (M : MathLib K) (t : Track K) (r : Racer K)
    (surface : Surface K) (elapsed : K) (ho : headOn M t r) :
    headOn M t (r.updateLapProgress M t surface elapsed) := by
  obtain ⟨h1, h2, h3, h4⟩ := updateLapProgress_frame M r t surface elapsed
  unfold headOn
  rw [h1, h2, h3, h4]
  exact ho

/-- One forward tick keeps a racer that heads straight away from the centre in
that condition: if the tick ends beyond the outer ellipse the racer is put back
at 99.5% of it with 0.45 of its speed. -/
theorem headOn_update [FloorRing K] {M : MathLib K} (hM : SqrtLaws M) (w h : K) (r : Racer K)
    (elapsed : K) (ho : headOn M (Track.constructor M w h) r) :
    ∃ r1 : Racer K, r.update M (1 / 60) (Track.constructor M w h) forwardInput elapsed = some r1 ∧
      headOn M (Track.constructor M w h) r1 := by
  cases hf : r.finished with
  | true => exact ⟨r, update_of_finished M r _ _ _ _ hf, ho⟩
  | false =>
    obtain ⟨r3, v, h3, hpl, hhead, hvel, hpos, hv0, hv1⟩ :=
      headOn_integrated hM (Track.constructor M w h) r elapsed ho
    obtain ⟨-, hcos, hsin, -, hvy, hpx, hp0, hp1, hinv⟩ := ho
    have hsq : v * v ≤ r.velocity.y * r.velocity.y + 2 * (460 / 60) * v := by
      have := sq_le_of_le_add hv0 hv1
      nlinarith
    have hoff : (Track.constructor M w h).offset r3.position =
        { x := 0, y := -((Track.constructor M w h).center.y - r.position.y + v / 60) } := by
      rw [hpos]
      simp only [Track.offset, hpx, sub_self, Vec.mk.injEq, true_and]
      ring
    rw [update_eq_integrated M r _ _ _ _ hf, h3, Option.some_bind]
    generalize hp : (Track.constructor M w h).center.y - r.position.y = p at *
    have hinv3 : v * v ≤ 920 * (p + v / 60 - 155) := by nlinarith
    by_cases hwall : p + v / 60 ≤ 210
    · -- the tick ends within the bounds
      have hb : (Track.constructor M w h).withinBounds r3.position := by
        unfold Track.withinBounds
        rw [hoff]
        simp only [Track.ellipseValue, Track.constructor]
        have hq0 : 155 ≤ p + v / 60 := by
          have : 0 ≤ v / 60 := div_nonneg hv0 (by norm_num)
          linarith
        constructor
        · rw [div_add_div _ _ (by norm_num) (by norm_num), div_le_one (by norm_num)]
          nlinarith
        · rw [div_add_div _ _ (by norm_num) (by norm_num), le_div_iff₀ (by norm_num)]
          nlinarith
      rw [clampToBounds_of_withinBounds M _ r3 hb, Option.map_some']
      refine ⟨_, rfl, headOn_updateLapProgress M _ r3 _ elapsed ?_⟩
      refine ⟨hpl, hhead ▸ hcos, hhead ▸ hsin, ?_, ?_, ?_, ?_, ?_, ?_⟩
      · rw [hvel]
      · rw [hvel]; simpa using hv0
      · rw [hpos]; exact hpx
      · rw [hpos]
        have : 0 ≤ v / 60 := div_nonneg hv0 (by norm_num)
        simp only
        linarith
      · rw [hpos]
        simp only
        linarith
      · rw [hvel, hpos]
        simp only
        have e1 : -v * -v = v * v := by ring
        have e2 : (Track.constructor M w h).center.y - (r.position.y - v / 60) - 155
            = p + v / 60 - 155 := by rw [← hp]; ring
        rw [e1, e2]
        exact hinv3
    · -- the tick ends beyond the outer ellipse
      have hq : 210 < p + v / 60 := not_le.mp hwall
      have hq0 : 0 < p + v / 60 := lt_trans (by norm_num) hq
      have hE : Track.ellipseValue ((Track.constructor M w h).offset r3.position)
          (Track.constructor M w h).outer = (p + v / 60) / 210 * ((p + v / 60) / 210) := by
        rw [hoff]
        simp only [Track.ellipseValue, Track.constructor]
        ring
      have hE1 : 1 < Track.ellipseValue ((Track.constructor M w h).offset r3.position)
          (Track.constructor M w h).outer := by
        rw [hE]
        have h1 : 1 < (p + v / 60) / 210 := (one_lt_div (by norm_num)).mpr hq
        have h2 := mul_lt_mul'' h1 h1 zero_le_one zero_le_one
        rwa [one_mul] at h2
      have hsqrt : M.sqrt (Track.ellipseValue ((Track.constructor M w h).offset r3.position)
          (Track.constructor M w h).outer) = (p + v / 60) / 210 :=
        hM.sqrt_eq (div_nonneg hq0.le (by norm_num)) hE.symm
      rw [clampToBounds_outer hM w h r3 hE1, Option.map_some', hsqrt]
      refine ⟨_, rfl, headOn_updateLapProgress M _ _ _ elapsed ?_⟩
      have hc : (p + v / 60) * (1 / ((p + v / 60) / 210) * 0.995) = 208.95 := by
        field_simp
        norm_num
        ring
      exact headOn_projected M _ r3 v (p + v / 60) _ hpl (hhead ▸ hcos) (hhead ▸ hsin) hvel hoff
        hc hv0 (wall_speed_bound hp1 hinv3)
/-- The real-number functions have the values assumed at the start. -/
theorem real_startTrigLaws : StartTrigLaws (MathLib.mk Real.sqrt (fun y x => Complex.arg ⟨x, y⟩) Real.sin Real.cos Real.pi Real.pi_pos) := by
  have h1 : Real.pi * 1.5 + 0 = Real.pi / 2 + Real.pi := by ring
  have h2 : -Real.pi / 2 = -(Real.pi / 2) := by ring
  constructor
  · show Real.cos (-Real.pi / 2) = 0
    rw [h2, Real.cos_neg, Real.cos_pi_div_two]
  · show Real.sin (-Real.pi / 2) = -1
    rw [h2, Real.sin_neg, Real.sin_pi_div_two]
  · show Real.cos (Real.pi * 1.5 + 0) = 0
    rw [h1, Real.cos_add_pi, Real.cos_pi_div_two, neg_zero]
  · show Real.sin (Real.pi * 1.5 + 0) = -1
    rw [h1, Real.sin_add_pi, Real.sin_pi_div_two]

/-- The player as reset by `Game.setupRace` heads straight away from the centre. -/
theorem headOn_startRacer [FloorRing K] {M : MathLib K} (hT : StartTrigLaws M) :
    headOn M (Track.constructor M 960 540) (startRacer M) := by
  refine ⟨rfl, hT.cos_heading, hT.sin_heading, rfl, le_rfl, ?_, ?_, ?_, ?_⟩
  · show 960 / 2 + M.cos (M.pi * 1.5 + 0) * (270 + 0 * 12) = 960 / 2
    rw [hT.cos_start]
    ring
  · show (155 : K) ≤ 540 / 2 - (540 / 2 + M.sin (M.pi * 1.5 + 0) * (155 + 0 * 12))
    rw [hT.sin_start]
    norm_num
  · show (540 : K) / 2 - (540 / 2 + M.sin (M.pi * 1.5 + 0) * (155 + 0 * 12)) ≤ 210
    rw [hT.sin_start]
    norm_num
  · show (0 : K) * 0 ≤ 920 * (540 / 2 - (540 / 2 + M.sin (M.pi * 1.5 + 0) * (155 + 0 * 12)) - 155)
    rw [hT.sin_start]
    norm_num

/-- A racer that heads straight away from the centre has speed at most 225. -/
theorem headOn_speed {M : MathLib K} (hM : SqrtLaws M) (t : Track K) (r : Racer K)
    (ho : headOn M t r) : r.speed M ≤ 225 := by
  obtain ⟨-, -, -, hvx, hvy, -, -, hp1, hinv⟩ := ho
  have hs : r.speed M = -r.velocity.y := by
    unfold Racer.speed hypot
    apply hM.sqrt_eq (by linarith)
    rw [hvx]
    ring
  rw [hs]
  have h1 : r.velocity.y * r.velocity.y ≤ 225 * 225 := by
    have : (920 : K) * (t.center.y - r.position.y - 155) ≤ 920 * (210 - 155) :=
      mul_le_mul_of_nonneg_left (by linarith) (by norm_num)
    have e : (920 : K) * (210 - 155) ≤ 225 * 225 := by norm_num
    linarith
  nlinarith

/-- Every run of forward ticks with `dt = 1/60` keeps a racer that heads straight
away from the centre in that condition, and returns a racer. -/
theorem headOn_updates [FloorRing K] {M : MathLib K} (hM : SqrtLaws M) (w h : K)
    (ks : List (Tick K)) :
    ∀ r : Racer K, (∀ k ∈ ks, k.dt = 1 / 60 ∧ k.inputState = forwardInput) →
      headOn M (Track.constructor M w h) r →
      ∃ r1 : Racer K, r.updates M (Track.constructor M w h) ks = some r1 ∧
        headOn M (Track.constructor M w h) r1 := by
  induction ks with
  | nil => intro r _ ho; exact ⟨r, rfl, ho⟩
  | cons k ks ih =>
    intro r hk ho
    obtain ⟨hdt, hin⟩ := hk k (List.mem_cons_self _ _)
    obtain ⟨r1, h1, ho1⟩ := headOn_update hM w h r k.elapsed ho
    obtain ⟨r2, h2, ho2⟩ := ih r1 (fun k' hk' => hk k' (List.mem_cons_of_mem _ hk')) ho1
    refine ⟨r2, ?_, ho2⟩
    simp only [Racer.updates, hdt, hin, h1, Option.some_bind, h2]

theorem scenarioTicks_forward (n : Nat) :
    ∀ k ∈ scenarioTicks (K := K) n, k.dt = 1 / 60 ∧ k.inputState = forwardInput := by
  intro k hk
  simp only [scenarioTicks, List.mem_map] at hk
  obtain ⟨_, -, rfl⟩ := hk
  exact ⟨rfl, rfl⟩

/-- In the forward scenario every run returns a racer, and its speed is at most
225. -/
theorem scenario_speed [FloorRing K] {M : MathLib K} (hM : SqrtLaws M) (hT : StartTrigLaws M)
    (n : Nat) :
    ∃ r : Racer K, (startRacer M).updates M (Track.constructor M 960 540) (scenarioTicks n)
        = some r ∧ r.speed M ≤ 225 := by
  obtain ⟨r, h1, ho⟩ := headOn_updates hM 960 540 (scenarioTicks n) (startRacer M)
    (scenarioTicks_forward n) (headOn_startRacer hT)
  exact ⟨r, h1, headOn_speed hM _ r ho⟩

/-- The value of `shortestAngle(a, b)` when `a - b` differs by whole turns from a
number strictly between `-π` and `π`. -/
theorem shortestAngle_of_congr [FloorRing K] (M : MathLib K) (a b d : K) (k : Int)
    (h : a - b = d + M.pi * 2 * (k : K)) (h0 : -M.pi < d) (h1 : d < M.pi) :
    shortestAngle M a b = d := by
  have hp := M.pi_pos
  obtain ⟨⟨k1, e1⟩, hr1, -, -⟩ := raise_spec M (a - b)
  obtain ⟨⟨k2, e2⟩, hl1, hl2, hl3⟩ := lower_spec M (shortestAngle.raise M (a - b))
  have hlow : -M.pi ≤ shortestAngle M a b := by
    unfold shortestAngle
    rcases lt_or_le M.pi (shortestAngle.raise M (a - b)) with hc | hc
    · exact le_of_lt (hl2 hc)
    · rw [hl3 hc]
      exact hr1
  have hhigh : shortestAngle M a b ≤ M.pi := hl1
  have e : shortestAngle M a b = d + M.pi * 2 * ((k + k1 + k2 : Int) : K) := by
    unfold shortestAngle
    rw [e2, e1, h]
    push_cast
    ring
  have hm : k + k1 + k2 = 0 := by
    by_contra hne
    rcases lt_or_gt_of_ne hne with hneg | hpos
    · have h2 : ((k + k1 + k2 : Int) : K) ≤ -1 := by
        exact_mod_cast Int.le_sub_one_of_lt hneg
      rw [e] at hlow
      nlinarith
    · have h2 : (1 : K) ≤ ((k + k1 + k2 : Int) : K) := by
        exact_mod_cast Int.add_one_le_of_lt hpos
      rw [e] at hhigh
      nlinarith
  rw [e, hm]
  simp

/-- The steering error of `Racer.controlAI` before the wobble term. -/
theorem controlAI_error [FloorRing K] (M : MathLib K) (hpi : 0.24 < M.pi) (a : K) :
    shortestAngle M (Track.normalizeAngle M (a + 0.24)) (Track.normalizeAngle M a) = 0.24 := by
  obtain ⟨k1, e1⟩ := normalizeAngle_eq_add M (a + 0.24)
  obtain ⟨k2, e2⟩ := normalizeAngle_eq_add M a
  have hp := M.pi_pos
  refine shortestAngle_of_congr M _ _ 0.24 (k1 - k2) ?_ ?_ hpi
  · rw [e1, e2]
    push_cast
    ring
  · have : (0 : K) < 0.24 := by norm_num
    linarith

/-- The heading after `Racer.controlAI` on a surface that is not off the track. -/
theorem controlAI_heading_onTrack [FloorRing K] (M : MathLib K) (hpi : 0.24 < M.pi)
    (r : Racer K) (dt : K) (surface : Surface K) (track : Track K) (elapsed : K)
    (hs : surface.offTrack = false) :
    (r.controlAI M dt surface track elapsed).heading =
      r.heading + (0.24 + 0.02 * M.sin (0.8 * elapsed + 5 * r.startOffset)) * 1.9 * dt := by
  have e1 : (0.8 * elapsed + 5 * r.startOffset : K) = elapsed * 0.8 + r.startOffset * 5 := by
    ring
  unfold Racer.controlAI
  simp only [hs, controlAI_error M hpi, e1, Bool.false_eq_true, if_false]
  split_ifs <;> ring

/-- The heading after `Racer.update` of a rival on the track. -/
theorem update_heading_rival [FloorRing K] (M : MathLib K) (hpi : 0.24 < M.pi)
    (r r1 : Racer K) (dt : K) (track : Track K) (i : InputState) (elapsed : K)
    (hfin : r.finished = false) (hpl : r.isPlayer = false)
    (hs : (track.surfaceAt M r.position).offTrack = false)
    (hr : r.update M dt track i elapsed = some r1) :
    r1.heading =
      r.heading + (0.24 + 0.02 * M.sin (0.8 * elapsed + 5 * r.startOffset)) * 1.9 * dt := by
  unfold Racer.update at hr
  simp only [hfin, hpl, Bool.false_eq_true, if_false] at hr
  obtain ⟨r2, h2, hr⟩ := Option.bind_eq_some.mp hr
  obtain ⟨r4, h4, hr⟩ := Option.map_eq_some'.mp hr
  rw [← hr, (updateLapProgress_frame M r4 track _ elapsed).2.2.1,
    (clampToBounds_frame M track _ r4 h4).2, (applyPhysics_frame M _ r2 dt _ h2).2.2]
  exact controlAI_heading_onTrack M hpi r dt _ track elapsed hs

theorem real_pi_gt : (0.24 : ℝ) < Real.pi := by
  have := Real.pi_gt_three
  norm_num
  linarith

theorem forEach_length [FloorRing K] (M : MathLib K) (dt : K) (track : Track K)
    (i : InputState) (elapsed : K) :
    ∀ rs rs1 : List (Racer K), Game.update.forEach M dt track i elapsed rs = some rs1 →
      rs1.length = rs.length := by
  intro rs
  induction rs with
  | nil =>
    intro rs1 h
    simp only [Game.update.forEach, Option.some.injEq] at h
    rw [← h]
  | cons r rest ih =>
    intro rs1 h
    simp only [Game.update.forEach] at h
    obtain ⟨r1, -, h⟩ := Option.bind_eq_some.mp h
    obtain ⟨rest1, h1, h⟩ := Option.map_eq_some'.mp h
    rw [← h, List.length_cons, List.length_cons, ih rest1 h1]

/-- A finished racer keeps having a finish time through `Racer.updateLapProgress`. -/
theorem updateLapProgress_timed [FloorRing K] (M : MathLib K) (r : Racer K) (t : Track K)
    (surface : Surface K) (elapsed : K)
    (h : r.finished = true → ∃ time : K, r.finishTime = some time) :
    (r.updateLapProgress M t surface elapsed).finished = true →
      ∃ time : K, (r.updateLapProgress M t surface elapsed).finishTime = some time := by
  unfold Racer.updateLapProgress
  simp only
  split_ifs <;> simp only [] <;> first | exact h | exact fun _ => ⟨elapsed, rfl⟩

/-- A finished racer keeps having a finish time through `Racer.update`. -/
theorem update_timed [FloorRing K] (M : MathLib K) (r r1 : Racer K) (dt : K) (t : Track K)
    (i : InputState) (elapsed : K)
    (h : r.finished = true → ∃ time : K, r.finishTime = some time)
    (hr : r.update M dt t i elapsed = some r1) :
    r1.finished = true → ∃ time : K, r1.finishTime = some time := by
  unfold Racer.update at hr
  by_cases hfin : r.finished = true
  · simp only [hfin, if_true, Option.some.injEq] at hr
    rw [← hr]
    exact h
  · simp only [hfin, if_false] at hr
    obtain ⟨r2, h2, hr⟩ := Option.bind_eq_some.mp hr
    obtain ⟨r4, h4, hr⟩ := Option.map_eq_some'.mp hr
    rw [← hr]
    apply updateLapProgress_timed
    have f4 := (clampToBounds_frame M t _ r4 h4).1
    have f2 := (applyPhysics_frame M _ r2 dt _ h2).1
    have f0 : sameRaceState r
        (if r.isPlayer = true then r.controlPlayer M dt (t.surfaceAt M r.position) i
          else r.controlAI M dt (t.surfaceAt M r.position) t elapsed) := by
      split_ifs
      · exact (controlPlayer_frame M r dt _ i).1
      · exact (controlAI_frame M r dt _ t elapsed).1
    intro hq
    rw [f4.2.2.1] at hq
    simp only at hq
    rw [f2.2.2.1, f0.2.2.1] at hq
    exact absurd hq hfin

theorem forEach_timed [FloorRing K] (M : MathLib K) (dt : K) (track : Track K)
    (i : InputState) (elapsed : K) :
    ∀ rs rs1 : List (Racer K),
      (∀ r ∈ rs, r.finished = true → ∃ time : K, r.finishTime = some time) →
      Game.update.forEach M dt track i elapsed rs = some rs1 →
      ∀ r ∈ rs1, r.finished = true → ∃ time : K, r.finishTime = some time := by
  intro rs
  induction rs with
  | nil =>
    intro rs1 _ h
    simp only [Game.update.forEach, Option.some.injEq] at h
    rw [← h]
    intro r hr
    cases hr
  | cons r rest ih =>
    intro rs1 hall h
    simp only [Game.update.forEach] at h
    obtain ⟨r1, h0, h⟩ := Option.bind_eq_some.mp h
    obtain ⟨rest1, h1, h⟩ := Option.map_eq_some'.mp h
    rw [← h]
    intro q hq
    rcases List.mem_cons.mp hq with e | hmem
    · rw [e]
      exact update_timed M r r1 dt track i elapsed (hall r (List.mem_cons_self r rest)) h0
    · exact ih rest1 (fun x hx => hall x (List.mem_cons_of_mem r hx)) h1 q hmem
/-- In the phases idle and finished `Game.update` changes nothing. -/
theorem update_idle_finished [FloorRing K] (M : MathLib K) (g : Game K) (f : Frame K)
    (h : g.state = Phase.idle ∨ g.state = Phase.finished) :
    g.update M f.dt f.inputState f.today = some g := by
  unfold Game.update
  rcases h with h | h <;> simp [h]

theorem updates_finished [FloorRing K] (M : MathLib K) (g : Game K)
    (h : g.state = Phase.finished) (fs : List (Frame K)) : g.updates M fs = some g := by
  induction fs with
  | nil => rfl
  | cons f fs ih =>
    simp only [Game.updates, update_idle_finished M g f (Or.inr h), Option.some_bind, ih]

/-- One call of `Game.update` in the phase countdown. -/
theorem update_countdown [FloorRing K] (M : MathLib K) (g : Game K) (f : Frame K)
    (h : g.state = Phase.countdown) :
    ∃ g1 : Game K, g.update M f.dt f.inputState f.today = some g1 ∧
      g1.elapsed = g.elapsed ∧ g1.racers = g.racers ∧ g1.player = g.player ∧
      g1.leaderboard = g.leaderboard ∧
      (g1.countdown = g.countdown ∨ g1.countdown = g.countdown - 1) ∧
      (g1.state = Phase.countdown ∨ g1.state = Phase.running) ∧
      (g1.state = Phase.running ↔ g1.countdown = g.countdown - 1 ∧ g1.countdown ≤ 0) ∧
      (g1.countdown = g.countdown - 1 → g1.state = Phase.countdown → 0 < g1.countdown) := by
  unfold Game.update
  simp only [h, if_true]
  by_cases h1 : g.countdownTimer + f.dt ≥ 1
  · by_cases h2 : g.countdown - 1 ≤ 0
    · simp only [h1, h2, if_true]
      exact ⟨_, rfl, rfl, rfl, rfl, rfl, Or.inr rfl, Or.inr rfl,
        ⟨fun _ => ⟨rfl, h2⟩, fun _ => rfl⟩, fun _ hs => by simp at hs⟩
    · simp only [h1, h2, if_true, if_false]
      refine ⟨_, rfl, rfl, rfl, rfl, rfl, Or.inr rfl, Or.inl rfl,
        ⟨fun hs => ?_, fun hc => absurd hc.2 h2⟩, fun _ _ => not_le.mp h2⟩
      cases hs
  · simp only [h1, if_false]
    refine ⟨_, rfl, rfl, rfl, rfl, rfl, Or.inl rfl, Or.inl rfl, ⟨fun hs => ?_, fun hc => ?_⟩,
      fun hc => ?_⟩
    · cases hs
    · simp only at hc
      linarith [hc.1]
    · simp only at hc
      linarith
/-- The method `Game.checkFinish` in the phase running. -/
theorem checkFinish_running (g : Game K) (today : String) (p : Racer K)
    (hp : g.playerRacer = some p) (hs : g.state = Phase.running)
    (ht : p.finished = true → ∃ time : K, p.finishTime = some time) :
    ∃ g1 : Game K, g.checkFinish today = some g1 ∧
      g1.racers = g.racers ∧ g1.elapsed = g.elapsed ∧ g1.player = g.player ∧
      g1.countdown = g.countdown ∧
      (g1.state = Phase.running ∨ g1.state = Phase.finished) ∧
      (g1.state = Phase.finished ↔ p.finished = true) ∧
      (p.finished = true → ∃ (name : String) (time : K), p.finishTime = some time ∧
        g1.leaderboard = g.leaderboard.push { name := name, time := time }) ∧
      (p.finished = false → g1.leaderboard = g.leaderboard) := by
  unfold Game.checkFinish
  rw [hp, Option.some_bind]
  by_cases hf : p.finished = true
  · obtain ⟨time, htime⟩ := ht hf
    have hc : p.finished = true ∧ g.state ≠ Phase.finished := ⟨hf, by rw [hs]; decide⟩
    rw [if_pos hc, htime, Option.map_some']
    refine ⟨_, rfl, rfl, rfl, rfl, rfl, Or.inr rfl, ⟨fun _ => hf, fun _ => rfl⟩,
      fun _ => ⟨_, time, rfl, rfl⟩, fun hn => ?_⟩
    rw [hf] at hn
    cases hn
  · have hc : ¬ (p.finished = true ∧ g.state ≠ Phase.finished) := fun hc => hf hc.1
    rw [if_neg hc]
    refine ⟨g, rfl, rfl, rfl, rfl, rfl, Or.inl hs, ⟨fun h1 => ?_, fun h1 => absurd h1 hf⟩,
      fun h1 => absurd h1 hf, fun _ => rfl⟩
    rw [hs] at h1
    cases h1

/-- One call of `Game.update` in the phase running, as a composition of its
parts. -/
theorem update_running_eq [FloorRing K] (M : MathLib K) (g : Game K) (f : Frame K)
    (h : g.state = Phase.running) (rs : List (Racer K))
    (hrs : Game.update.forEach M f.dt g.track f.inputState (g.elapsed + f.dt) g.racers
      = some rs) :
    ∃ g3 : Game K, g.update M f.dt f.inputState f.today = g3.checkFinish f.today ∧
      g3.state = Phase.running ∧ g3.racers = rs ∧ g3.elapsed = g.elapsed + f.dt ∧
      g3.player = g.player ∧ g3.leaderboard = g.leaderboard ∧ g3.countdown = g.countdown := by
  have hne : ¬ (Phase.running = Phase.countdown) := by decide
  unfold Game.update
  simp only [h, hne, if_false, if_true]
  by_cases hg : g.goTimer > 0
  · simp only [hg, if_true, hrs, Option.some_bind]
    exact ⟨_, rfl, rfl, rfl, rfl, rfl, rfl, rfl⟩
  · simp only [hg, if_false, hrs, Option.some_bind]
    exact ⟨_, rfl, rfl, rfl, rfl, rfl, rfl, rfl⟩

/-- One call of `Game.update` in the phase running. -/
theorem update_running [FloorRing K] (M : MathLib K) (g : Game K) (f : Frame K)
    (h : g.state = Phase.running) (hr : g.raceReady) (rs : List (Racer K))
    (hrs : Game.update.forEach M f.dt g.track f.inputState (g.elapsed + f.dt) g.racers
      = some rs) :
    ∃ (g1 : Game K) (p : Racer K), g.update M f.dt f.inputState f.today = some g1 ∧
      g1.playerRacer = some p ∧ g1.racers = rs ∧ g1.elapsed = g.elapsed + f.dt ∧
      g1.player = g.player ∧ g1.countdown = g.countdown ∧
      (g1.state = Phase.running ∨ g1.state = Phase.finished) ∧
      (g1.state = Phase.finished ↔ p.finished = true) ∧
      (p.finished = true → ∃ (name : String) (time : K), p.finishTime = some time ∧
        g1.leaderboard = g.leaderboard.push { name := name, time := time }) ∧
      (p.finished = false → g1.leaderboard = g.leaderboard) := by
  obtain ⟨g3, e3, hs3, hr3, hel3, hp3, hlb3, hcd3⟩ := update_running_eq M g f h rs hrs
  have hne : g.state ≠ Phase.idle := by rw [h]; decide
  obtain ⟨hpl, hlen⟩ := hr.2.1 hne
  have hlen1 : rs.length = 4 := by
    rw [forEach_length M _ _ _ _ _ _ hrs, hlen]
  obtain ⟨p, rest, hrs1⟩ : ∃ p rest, rs = p :: rest := by
    cases rs with
    | nil => simp at hlen1
    | cons p rest => exact ⟨p, rest, rfl⟩
  have hp : g3.playerRacer = some p := by
    unfold Game.playerRacer
    rw [hp3, hpl, hr3, hrs1]
    simp
  have ht : p.finished = true → ∃ time : K, p.finishTime = some time :=
    forEach_timed M _ _ _ _ _ _ hr.2.2 hrs p (by rw [hrs1]; exact List.mem_cons_self p rest)
  obtain ⟨g1, e1, h1, h2, h3, h4, h5, h6, h7, h8⟩ := checkFinish_running g3 f.today p hp hs3 ht
  refine ⟨g1, p, by rw [e3, e1], ?_, by rw [h1, hr3], by rw [h2, hel3], by rw [h3, hp3],
    by rw [h4, hcd3], h5, h6, ?_, ?_⟩
  · unfold Game.playerRacer
    rw [h3, h1]
    exact hp
  · intro hf
    obtain ⟨name, time, ha, hb⟩ := h7 hf
    exact ⟨name, time, ha, by rw [hb, hlb3]⟩
  · intro hf
    rw [h8 hf, hlb3]
theorem update_running_forEach [FloorRing K] (M : MathLib K) (g g1 : Game K) (f : Frame K)
    (h : g.state = Phase.running) (hu : g.update M f.dt f.inputState f.today = some g1) :
    ∃ rs : List (Racer K),
      Game.update.forEach M f.dt g.track f.inputState (g.elapsed + f.dt) g.racers = some rs := by
  have hne : ¬ (Phase.running = Phase.countdown) := by decide
  unfold Game.update at hu
  simp only [h, hne, if_false, if_true] at hu
  by_cases hg : g.goTimer > 0
  · simp only [hg, if_true] at hu
    obtain ⟨rs, hrs, -⟩ := Option.bind_eq_some.mp hu
    exact ⟨rs, hrs⟩
  · simp only [hg, if_false] at hu
    obtain ⟨rs, hrs, -⟩ := Option.bind_eq_some.mp hu
    exact ⟨rs, hrs⟩

theorem constructor_raceReady (M : MathLib K) (w h : K) (stored : List (LeaderboardEntry K)) :
    (Game.constructor M w h stored).raceReady := by
  refine ⟨fun hs => ?_, fun hs => absurd rfl hs, fun r hr => ?_⟩
  · cases hs
  · cases hr

theorem startRace_raceReady [FloorRing K] (M : MathLib K) (g : Game K) :
    (g.startRace M).raceReady := by
  refine ⟨fun _ => Or.inr (Or.inr rfl), fun _ => ⟨rfl, rfl⟩, fun r hr hf => ?_⟩
  have hr1 : r ∈ List.map (Game.setupRace.reset M g.track)
      [Racer.constructor M "You" "#f72585" true 0,
        Racer.constructor M "Bink Nova" "#4cc9f0" false 0.17,
        Racer.constructor M "Solar Bink" "#fee440" false (-0.18),
        Racer.constructor M "Midnight Bink" "#48cae4" false 0.33] := hr
  obtain ⟨r0, -, e⟩ := List.mem_map.mp hr1
  rw [← e] at hf
  cases hf

theorem update_raceReady [FloorRing K] (M : MathLib K) (g g1 : Game K) (f : Frame K)
    (hr : g.raceReady) (hu : g.update M f.dt f.inputState f.today = some g1) :
    g1.raceReady := by
  cases hs : g.state with
  | idle =>
    rw [update_idle_finished M g f (Or.inl hs)] at hu
    cases hu
    exact hr
  | finished =>
    rw [update_idle_finished M g f (Or.inr hs)] at hu
    cases hu
    exact hr
  | countdown =>
    obtain ⟨g2, e2, -, hrac, hpl, -, hcd, -, -, hpos⟩ := update_countdown M g f hs
    rw [e2] at hu
    cases hu
    have hne : g.state ≠ Phase.idle := by rw [hs]; decide
    refine ⟨fun hs1 => ?_, fun _ => ?_, ?_⟩
    · rcases hcd with hc | hc
      · rw [hc]
        exact hr.1 hs
      · have h0 := hpos hc hs1
        rw [hc] at h0 ⊢
        rcases hr.1 hs with h1 | h1 | h1 <;> rw [h1] at h0 ⊢
        · norm_num at h0
        · left
          norm_num
        · right
          left
          norm_num
    · rw [hpl, hrac]
      exact hr.2.1 hne
    · rw [hrac]
      exact hr.2.2
  | running =>
    obtain ⟨rs, hrs⟩ := update_running_forEach M g g1 f hs hu
    obtain ⟨g2, p, e2, -, hrac, -, hpl, hcd, hst, -, -, -⟩ := update_running M g f hs hr rs hrs
    rw [e2] at hu
    cases hu
    have hne : g.state ≠ Phase.idle := by rw [hs]; decide
    refine ⟨fun hs1 => ?_, fun _ => ?_, ?_⟩
    · rcases hst with h1 | h1 <;> rw [h1] at hs1 <;> cases hs1
    · rw [hpl, hrac, forEach_length M _ _ _ _ _ _ hrs]
      exact hr.2.1 hne
    · rw [hrac]
      exact forEach_timed M _ _ _ _ _ _ hr.2.2 hrs

theorem handles_raceReady [FloorRing K] (M : MathLib K) (evs : List (GameEvent K)) :
    ∀ g g1 : Game K, g.raceReady → g.handles M evs = some g1 → g1.raceReady := by
  induction evs with
  | nil =>
    intro g g1 hr h
    simp only [Game.handles, Option.some.injEq] at h
    rw [← h]
    exact hr
  | cons e es ih =>
    intro g g1 hr h
    simp only [Game.handles] at h
    obtain ⟨g2, h2, h⟩ := Option.bind_eq_some.mp h
    refine ih g2 g1 ?_ h
    cases e with
    | click =>
      simp only [Game.handle, Option.some.injEq] at h2
      rw [← h2]
      exact startRace_raceReady M g
    | frame f => exact update_raceReady M g g2 f hr h2

/-- While fewer frames have passed than the counter shows, the game stays in the
phase countdown, whatever the `dt` of the frames. -/
theorem updates_countdown [FloorRing K] (M : MathLib K) (fs : List (Frame K)) :
    ∀ g : Game K, g.state = Phase.countdown → (fs.length : K) < g.countdown →
      ∃ g1 : Game K, g.updates M fs = some g1 ∧ g1.state = Phase.countdown := by
  induction fs with
  | nil =>
    intro g hs _
    exact ⟨g, rfl, hs⟩
  | cons f fs ih =>
    intro g hs hlen
    obtain ⟨g2, e2, -, -, -, -, hcd, hst, hrun, -⟩ := update_countdown M g f hs
    rw [List.length_cons] at hlen
    push_cast at hlen
    have hn : (0 : K) ≤ (fs.length : K) := Nat.cast_nonneg _
    have hst2 : g2.state = Phase.countdown := by
      rcases hst with h1 | h1
      · exact h1
      · have h3 := (hrun.mp h1)
        linarith [h3.1, h3.2]
    have hlen2 : (fs.length : K) < g2.countdown := by
      rcases hcd with h1 | h1 <;> rw [h1] <;> linarith
    obtain ⟨g1, e1, hs1⟩ := ih g2 hst2 hlen2
    refine ⟨g1, ?_, hs1⟩
    simp only [Game.updates, e2, Option.some_bind, e1]
theorem handles_goEvents [FloorRing K] (M : MathLib K) :
    (Game.constructor M 960 540 []).handles M goEvents = some (goGame M) := by
  have h1 : (0 : K) + 1 ≥ 1 := by norm_num
  have h2 : ¬ ((3 : K) - 1 ≤ 0) := by norm_num
  have h3 : ¬ ((3 : K) - 1 - 1 ≤ 0) := by norm_num
  have h4 : (3 : K) - 1 - 1 - 1 ≤ 0 := by norm_num
  have h5 : (3 : K) - 1 - 1 - 1 = 0 := by norm_num
  simp only [goEvents, Game.handles, Game.handle, Option.some_bind, Game.update,
    Game.startRace, secondFrame, if_true, if_false, h1, h2, h3, h4]
  simp only [goGame, Game.startRace, h5]

/-- A position that `placeOnTrack` computes from a point `(c, s)` of the unit
circle and a start offset between -1 and 1 is within the track bounds. -/
theorem placed_withinBounds (M : MathLib K) (w h c s off : K) (hcs : c * c + s * s = 1)
    (h0 : -1 ≤ off) (h1 : off ≤ 1) :
    (Track.constructor M w h).withinBounds
      { x := (Track.constructor M w h).center.x + c * ((Track.constructor M w h).lane.rx + off * 12),
        y := (Track.constructor M w h).center.y + s * ((Track.constructor M w h).lane.ry + off * 12) } := by
  simp only [Track.withinBounds, Track.ellipseValue, Track.offset, Track.constructor,
    add_sub_cancel_left]
  have hc : 0 ≤ c * c := mul_self_nonneg c
  have hs : 0 ≤ s * s := mul_self_nonneg s
  have a1 : (270 + off * 12) * (270 + off * 12) ≤ 360 * 360 := by nlinarith
  have a2 : (155 + off * 12) * (155 + off * 12) ≤ 210 * 210 := by nlinarith
  have a3 : (188 : K) * 188 ≤ (270 + off * 12) * (270 + off * 12) := by nlinarith
  have a4 : (116 : K) * 116 ≤ (155 + off * 12) * (155 + off * 12) := by nlinarith
  have e1 : c * (270 + off * 12) * (c * (270 + off * 12))
      = c * c * ((270 + off * 12) * (270 + off * 12)) := by ring
  have e2 : s * (155 + off * 12) * (s * (155 + off * 12))
      = s * s * ((155 + off * 12) * (155 + off * 12)) := by ring
  have t1 : c * (270 + off * 12) * (c * (270 + off * 12)) / (360 * 360) ≤ c * c := by
    rw [div_le_iff₀ (by norm_num), e1]
    exact mul_le_mul_of_nonneg_left a1 hc
  have t2 : s * (155 + off * 12) * (s * (155 + off * 12)) / (210 * 210) ≤ s * s := by
    rw [div_le_iff₀ (by norm_num), e2]
    exact mul_le_mul_of_nonneg_left a2 hs
  have t3 : c * c ≤ c * (270 + off * 12) * (c * (270 + off * 12)) / (188 * 188) := by
    rw [le_div_iff₀ (by norm_num), e1]
    exact mul_le_mul_of_nonneg_left a3 hc
  have t4 : s * s ≤ s * (155 + off * 12) * (s * (155 + off * 12)) / (116 * 116) := by
    rw [le_div_iff₀ (by norm_num), e2]
    exact mul_le_mul_of_nonneg_left a4 hs
  constructor <;> linarith
/-- With `dt = 0` the `forEach` of `Game.update` returns for racers that are
within the track bounds. -/
theorem forEach_dt_zero [FloorRing K] (M : MathLib K) (t : Track K) (i : InputState)
    (elapsed : K) :
    ∀ rs : List (Racer K), (∀ r ∈ rs, t.withinBounds r.position) →
      ∃ rs1 : List (Racer K), Game.update.forEach M 0 t i elapsed rs = some rs1 := by
  intro rs
  induction rs with
  | nil =>
    intro _
    exact ⟨[], rfl⟩
  | cons r rest ih =>
    intro hall
    obtain ⟨rest1, h1⟩ := ih fun x hx => hall x (List.mem_cons_of_mem r hx)
    have h0 : ∃ r1 : Racer K, r.update M 0 t i elapsed = some r1 := by
      by_cases hfin : r.finished = true
      · refine ⟨r, ?_⟩
        unfold Racer.update
        rw [if_pos hfin]
      · obtain ⟨r1, e1, -⟩ := update_dt_zero M t r i elapsed (Bool.eq_false_iff.mpr hfin)
          (hall r (List.mem_cons_self r rest))
        exact ⟨r1, e1⟩
    obtain ⟨r1, e1⟩ := h0
    exact ⟨r1 :: rest1, by simp only [Game.update.forEach, e1, Option.some_bind, h1,
      Option.map_some']⟩

/-- Over the real numbers the four racers are within the track bounds when the
countdown of a first race ends. -/
theorem real_goGame_withinBounds :
    ∀ r ∈ (goGame (MathLib.mk Real.sqrt (fun y x => Complex.arg ⟨x, y⟩) Real.sin Real.cos Real.pi Real.pi_pos)).racers, (goGame (MathLib.mk Real.sqrt (fun y x => Complex.arg ⟨x, y⟩) Real.sin Real.cos Real.pi Real.pi_pos)).track.withinBounds r.position := by
  intro r hr
  have hr1 : r ∈ List.map (Game.setupRace.reset (MathLib.mk Real.sqrt (fun y x => Complex.arg ⟨x, y⟩) Real.sin Real.cos Real.pi Real.pi_pos) (Track.constructor (MathLib.mk Real.sqrt (fun y x => Complex.arg ⟨x, y⟩) Real.sin Real.cos Real.pi Real.pi_pos) 960 540))
      [Racer.constructor (MathLib.mk Real.sqrt (fun y x => Complex.arg ⟨x, y⟩) Real.sin Real.cos Real.pi Real.pi_pos) "You" "#f72585" true 0,
        Racer.constructor (MathLib.mk Real.sqrt (fun y x => Complex.arg ⟨x, y⟩) Real.sin Real.cos Real.pi Real.pi_pos) "Bink Nova" "#4cc9f0" false 0.17,
        Racer.constructor (MathLib.mk Real.sqrt (fun y x => Complex.arg ⟨x, y⟩) Real.sin Real.cos Real.pi Real.pi_pos) "Solar Bink" "#fee440" false (-0.18),
        Racer.constructor (MathLib.mk Real.sqrt (fun y x => Complex.arg ⟨x, y⟩) Real.sin Real.cos Real.pi Real.pi_pos) "Midnight Bink" "#48cae4" false 0.33] := hr
  have hcs : ∀ a : ℝ, Real.cos a * Real.cos a + Real.sin a * Real.sin a = 1 := by
    intro a
    have := Real.cos_sq_add_sin_sq a
    nlinarith
  have hall : ∀ off : ℝ, -1 ≤ off → off ≤ 1 → ∀ (name color : String) (b : Bool),
      (Track.constructor (MathLib.mk Real.sqrt (fun y x => Complex.arg ⟨x, y⟩) Real.sin Real.cos Real.pi Real.pi_pos) 960 540).withinBounds
        (Game.setupRace.reset (MathLib.mk Real.sqrt (fun y x => Complex.arg ⟨x, y⟩) Real.sin Real.cos Real.pi Real.pi_pos) (Track.constructor (MathLib.mk Real.sqrt (fun y x => Complex.arg ⟨x, y⟩) Real.sin Real.cos Real.pi Real.pi_pos) 960 540)
          (Racer.constructor (MathLib.mk Real.sqrt (fun y x => Complex.arg ⟨x, y⟩) Real.sin Real.cos Real.pi Real.pi_pos) name color b off)).position := by
    intro off h0 h1 name color b
    exact placed_withinBounds (MathLib.mk Real.sqrt (fun y x => Complex.arg ⟨x, y⟩) Real.sin Real.cos Real.pi Real.pi_pos) 960 540 (Real.cos (Real.pi * 1.5 + off))
      (Real.sin (Real.pi * 1.5 + off)) off (hcs _) h0 h1
  obtain ⟨r0, hmem, e⟩ := List.mem_map.mp hr1
  rw [← e]
  simp only [List.mem_cons, List.mem_singleton, List.not_mem_nil, or_false] at hmem
  rcases hmem with h | h | h | h <;> rw [h] <;> apply hall <;> norm_num
/-- During the countdown of a race the phase running is entered exactly when the
counter reaches 0. -/
theorem update_countdown_zero [FloorRing K] (M : MathLib K) (g g1 : Game K) (f : Frame K)
    (h : g.state = Phase.countdown) (hr : g.raceReady)
    (hu : g.update M f.dt f.inputState f.today = some g1) :
    (g1.state = Phase.running ↔ g1.countdown = 0) := by
  obtain ⟨g2, e2, -, -, -, -, hcd, -, hrun, -⟩ := update_countdown M g f h
  rw [e2] at hu
  cases hu
  have hc := hr.1 h
  constructor
  · intro hs
    obtain ⟨h1, h2⟩ := hrun.mp hs
    rw [h1] at h2 ⊢
    rcases hc with h3 | h3 | h3 <;> rw [h3] at h2 ⊢ <;> norm_num at h2 ⊢
  · intro h0
    refine hrun.mpr ⟨?_, le_of_eq h0⟩
    rcases hcd with h1 | h1
    · rw [h1] at h0
      rcases hc with h3 | h3 | h3 <;> rw [h3] at h0 <;> norm_num at h0
    · exact h1

/-- The only changes of phase in `Game.update` are countdown to running and
running to finished. -/
theorem update_transitions [FloorRing K] (M : MathLib K) (g g1 : Game K) (f : Frame K)
    (hr : g.raceReady) (hu : g.update M f.dt f.inputState f.today = some g1) :
    g1.state = g.state ∨ (g.state = Phase.countdown ∧ g1.state = Phase.running) ∨
      (g.state = Phase.running ∧ g1.state = Phase.finished) := by
  cases hs : g.state with
  | idle =>
    rw [update_idle_finished M g f (Or.inl hs)] at hu
    cases hu
    exact Or.inl hs
  | finished =>
    rw [update_idle_finished M g f (Or.inr hs)] at hu
    cases hu
    exact Or.inl hs
  | countdown =>
    obtain ⟨g2, e2, -, -, -, -, -, hst, -, -⟩ := update_countdown M g f hs
    rw [e2] at hu
    cases hu
    rcases hst with h1 | h1
    · exact Or.inl h1
    · exact Or.inr (Or.inl ⟨rfl, h1⟩)
  | running =>
    obtain ⟨rs, hrs⟩ := update_running_forEach M g g1 f hs hu
    obtain ⟨g2, p, e2, -, -, -, -, -, hst, -, -, -⟩ := update_running M g f hs hr rs hrs
    rw [e2] at hu
    cases hu
    rcases hst with h1 | h1
    · exact Or.inl h1
    · exact Or.inr (Or.inr ⟨rfl, h1⟩)

theorem roundEven_bounds (m : ℚ) :
    Int.floor m ≤ roundEven m ∧ roundEven m ≤ Int.floor m + 1 := by
  unfold roundEven
  simp only
  split_ifs <;> constructor <;> omega

theorem roundEven_intCast (n : Int) : roundEven (n : ℚ) = n := by
  unfold roundEven
  simp only [Int.floor_intCast, sub_self]
  norm_num

theorem roundEven_mono (m1 m2 : ℚ) (h : m1 ≤ m2) : roundEven m1 ≤ roundEven m2 := by
  have hf : Int.floor m1 ≤ Int.floor m2 := Int.floor_mono h
  rcases lt_or_eq_of_le hf with hlt | heq
  · have h1 := (roundEven_bounds m1).2
    have h2 := (roundEven_bounds m2).1
    omega
  · unfold roundEven
    simp only [heq]
    have hd : m1 - (Int.floor m2 : ℚ) ≤ m2 - (Int.floor m2 : ℚ) := by linarith
    split_ifs <;> first | omega | (exfalso; linarith)

theorem roundEven_eq_of_close (m : ℚ) (n : Int) (h1 : (n : ℚ) - 1 / 2 < m)
    (h2 : m < (n : ℚ) + 1 / 2) : roundEven m = n := by
  unfold roundEven
  simp only
  by_cases hc : (n : ℚ) ≤ m
  · have hf : Int.floor m = n := by
      rw [Int.floor_eq_iff]
      exact ⟨hc, by linarith⟩
    rw [hf, if_pos (by linarith)]
  · have hf : Int.floor m = n - 1 := by
      rw [Int.floor_eq_iff]
      push_cast
      exact ⟨by linarith, by linarith [not_le.mp hc]⟩
    rw [hf]
    push_cast
    rw [if_neg (by linarith), if_pos (by linarith)]
    ring
theorem roundDouble_of_nonneg (q : ℚ) (h : 0 ≤ q) :
    roundDouble q
      = ((roundEven (q / 2 ^ (Int.log 2 q - 52)) : Int) : ℚ) * 2 ^ (Int.log 2 q - 52) := by
  unfold roundDouble
  simp only [abs_of_nonneg h, not_lt.mpr h, if_false]

theorem roundDouble_of_neg (q : ℚ) (h : q < 0) : roundDouble q = -roundDouble (-q) := by
  have h1 : ¬ (-q < 0) := by linarith
  unfold roundDouble
  simp only [abs_neg, h, h1, if_true, if_false]
  ring

/-- The binade of a positive number. -/
theorem binade_bounds (q : ℚ) (h : 0 < q) :
    (2 : ℚ) ^ (Int.log 2 q) ≤ q ∧ q < (2 : ℚ) ^ (Int.log 2 q + 1) := by
  have h1 := Int.zpow_log_le_self (by norm_num : 1 < 2) h
  have h2 := Int.lt_zpow_succ_log_self (by norm_num : 1 < 2) q
  simp only [Nat.cast_ofNat] at h1 h2
  exact ⟨h1, h2⟩

/-- The significand of a positive number, scaled to an integer of 53 bits. -/
theorem significand_bounds (q : ℚ) (h : 0 < q) :
    (2 : ℚ) ^ (52 : Nat) ≤ q / 2 ^ (Int.log 2 q - 52) ∧
      q / 2 ^ (Int.log 2 q - 52) ≤ (2 : ℚ) ^ (53 : Nat) := by
  obtain ⟨h1, h2⟩ := binade_bounds q h
  have hu : (0 : ℚ) < 2 ^ (Int.log 2 q - 52) := zpow_pos (by norm_num) _
  have e1 : (2 : ℚ) ^ (Int.log 2 q) = 2 ^ (52 : Nat) * 2 ^ (Int.log 2 q - 52) := by
    rw [← zpow_natCast, ← zpow_add₀ (by norm_num)]
    congr 1
    push_cast
    ring
  have e2 : (2 : ℚ) ^ (Int.log 2 q + 1) = 2 ^ (53 : Nat) * 2 ^ (Int.log 2 q - 52) := by
    rw [← zpow_natCast, ← zpow_add₀ (by norm_num)]
    congr 1
    push_cast
    ring
  rw [le_div_iff₀ hu, div_le_iff₀ hu, ← e1, ← e2]
  exact ⟨h1, h2.le⟩

theorem roundDouble_bounds (q : ℚ) (h : 0 < q) :
    (2 : ℚ) ^ (Int.log 2 q) ≤ roundDouble q ∧ roundDouble q ≤ (2 : ℚ) ^ (Int.log 2 q + 1) := by
  obtain ⟨h1, h2⟩ := significand_bounds q h
  have hu : (0 : ℚ) < 2 ^ (Int.log 2 q - 52) := zpow_pos (by norm_num) _
  have e1 : (2 : ℚ) ^ (Int.log 2 q) = 2 ^ (52 : Nat) * 2 ^ (Int.log 2 q - 52) := by
    rw [← zpow_natCast, ← zpow_add₀ (by norm_num)]
    congr 1
    push_cast
    ring
  have e2 : (2 : ℚ) ^ (Int.log 2 q + 1) = 2 ^ (53 : Nat) * 2 ^ (Int.log 2 q - 52) := by
    rw [← zpow_natCast, ← zpow_add₀ (by norm_num)]
    congr 1
    push_cast
    ring
  have c1 : ((2 : ℚ) ^ (52 : Nat)) = (((2 : Int) ^ (52 : Nat) : Int) : ℚ) := by push_cast; rfl
  have c2 : ((2 : ℚ) ^ (53 : Nat)) = (((2 : Int) ^ (53 : Nat) : Int) : ℚ) := by push_cast; rfl
  have r1 : (2 : Int) ^ (52 : Nat) ≤ roundEven (q / 2 ^ (Int.log 2 q - 52)) := by
    have := roundEven_mono _ _ (c1 ▸ h1)
    rwa [roundEven_intCast] at this
  have r2 : roundEven (q / 2 ^ (Int.log 2 q - 52)) ≤ (2 : Int) ^ (53 : Nat) := by
    have := roundEven_mono _ _ (c2 ▸ h2)
    rwa [roundEven_intCast] at this
  rw [roundDouble_of_nonneg q h.le, e1, e2, c1, c2]
  constructor
  · exact mul_le_mul_of_nonneg_right (by exact_mod_cast r1) hu.le
  · exact mul_le_mul_of_nonneg_right (by exact_mod_cast r2) hu.le

theorem roundDouble_zero : roundDouble 0 = 0 := by
  rw [roundDouble_of_nonneg 0 le_rfl, zero_div]
  have := roundEven_intCast 0
  simp only [Int.cast_zero] at this
  rw [this]
  simp

theorem roundDouble_nonneg (q : ℚ) (h : 0 ≤ q) : 0 ≤ roundDouble q := by
  rcases eq_or_lt_of_le h with h0 | hpos
  · rw [← h0, roundDouble_zero]
  · exact le_trans (zpow_pos (by norm_num) _).le (roundDouble_bounds q hpos).1

theorem roundDouble_mono_pos (x y : ℚ) (hx : 0 < x) (hxy : x ≤ y) :
    roundDouble x ≤ roundDouble y := by
  have hy : 0 < y := lt_of_lt_of_le hx hxy
  have he : Int.log 2 x ≤ Int.log 2 y := Int.log_mono_right hx hxy
  rcases lt_or_eq_of_le he with hlt | heq
  · have h1 := (roundDouble_bounds x hx).2
    have h2 := (roundDouble_bounds y hy).1
    have h3 : (2 : ℚ) ^ (Int.log 2 x + 1) ≤ 2 ^ (Int.log 2 y) :=
      zpow_le_zpow_right₀ (by norm_num) (by omega)
    linarith
  · rw [roundDouble_of_nonneg x hx.le, roundDouble_of_nonneg y hy.le, heq]
    have hu : (0 : ℚ) < 2 ^ (Int.log 2 y - 52) := zpow_pos (by norm_num) _
    have hm : x / 2 ^ (Int.log 2 y - 52) ≤ y / 2 ^ (Int.log 2 y - 52) :=
      div_le_div_of_nonneg_right hxy hu.le
    exact mul_le_mul_of_nonneg_right (by exact_mod_cast roundEven_mono _ _ hm) hu.le

theorem roundDouble_mono (x y : ℚ) (hxy : x ≤ y) : roundDouble x ≤ roundDouble y := by
  rcases lt_trichotomy x 0 with hx | hx | hx
  · rw [roundDouble_of_neg x hx]
    rcases lt_or_le y 0 with hy | hy
    · rw [roundDouble_of_neg y hy]
      have := roundDouble_mono_pos (-y) (-x) (by linarith) (by linarith)
      linarith
    · have h1 := roundDouble_nonneg (-x) (by linarith)
      have h2 := roundDouble_nonneg y hy
      linarith
  · rw [hx, roundDouble_zero]
    exact roundDouble_nonneg y (by linarith)
  · exact roundDouble_mono_pos x y hx hxy
/-- The value of `roundDouble` at a positive number whose binade is known and
whose scaled significand is nearer to the integer `n` than to any other. -/
theorem roundDouble_eq_of_close (q : ℚ) (e n : Int) (h1 : (2 : ℚ) ^ e ≤ q)
    (h2 : q < (2 : ℚ) ^ (e + 1)) (h3 : (n : ℚ) - 1 / 2 < q / 2 ^ (e - 52))
    (h4 : q / 2 ^ (e - 52) < (n : ℚ) + 1 / 2) : roundDouble q = (n : ℚ) * 2 ^ (e - 52) := by
  have hq : 0 < q := lt_of_lt_of_le (zpow_pos (by norm_num) e) h1
  have hl : Int.log 2 q = e := by
    have a1 : e ≤ Int.log 2 q := by
      rw [← Int.zpow_le_iff_le_log (by norm_num) hq]
      simpa using h1
    have a2 : Int.log 2 q < e + 1 := by
      rw [← Int.lt_zpow_iff_log_lt (by norm_num) hq]
      simpa using h2
    omega
  rw [roundDouble_of_nonneg q hq.le, hl, roundEven_eq_of_close _ n h3 h4]

theorem roundDouble_one : roundDouble 1 = 1 := by
  rw [roundDouble_eq_of_close 1 0 (2 ^ (52 : Nat)) (by norm_num) (by norm_num)
    (by norm_num) (by norm_num)]
  norm_num

theorem roundDouble_twoPi : roundDouble (doublePi * 2) = doublePi * 2 := by
  rw [roundDouble_eq_of_close (doublePi * 2) 2 7074237752028440 (by norm_num [doublePi])
    (by norm_num [doublePi]) (by norm_num [doublePi]) (by norm_num [doublePi])]
  norm_num [doublePi]

theorem roundLaws_roundDouble : RoundLaws roundDouble doublePi :=
  ⟨roundDouble_mono, roundDouble_zero, roundDouble_one, roundDouble_twoPi⟩

/-- The remainder of a negative number above `-m` is the number itself. -/
theorem jsMod_of_neg_mem [FloorRing K] (a m : K) (h0 : -m < a) (h1 : a < 0) :
    jsMod a m = a := by
  have hm : 0 < m := by linarith
  have hq0 : a / m < 0 := div_neg_of_neg_of_pos h1 hm
  have hq1 : -1 < a / m := by
    rw [lt_div_iff₀ hm]
    linarith
  have hc : Int.ceil (a / m) = 0 := by
    rw [Int.ceil_eq_iff]
    exact ⟨by simpa using hq1, by simpa using hq0.le⟩
  simp only [jsMod, truncInt, not_le.mpr hq0, if_false, hc, Int.cast_zero, mul_zero, sub_zero]

/-- On doubles `Track.normalizeAngle` returns `Math.PI * 2` for every negative
angle above `-2^-51`: the sum is nearer to `Math.PI * 2` than to the double
below it. -/
theorem normalizeAngle_rounded_tiny (a : ℚ) (h0 : -(1 / 2 ^ 51) < a) (h1 : a < 0) :
    Track.normalizeAngle.rounded roundDouble doublePi a = doublePi * 2 := by
  have hp : (6 : ℚ) < doublePi * 2 := by norm_num [doublePi]
  have hs : (1 : ℚ) / 2 ^ 51 < 1 := by norm_num
  have hj : jsMod a (doublePi * 2) = a := jsMod_of_neg_mem a _ (by linarith) h1
  unfold Track.normalizeAngle.rounded
  simp only [hj, h1, if_true]
  have e : (a + doublePi * 2) / 2 ^ ((2 : Int) - 52)
      = ((7074237752028440 : Int) : ℚ) + a * 2 ^ 50 := by
    norm_num [doublePi]
    ring
  have e2 : (1 : ℚ) / 2 ^ 51 * 2 ^ 50 = 1 / 2 := by norm_num
  rw [roundDouble_eq_of_close (a + doublePi * 2) 2 7074237752028440
    (by norm_num; linarith) (by norm_num [doublePi] at hp ⊢; linarith)
    (by rw [e]; nlinarith) (by rw [e]; nlinarith)]
  norm_num [doublePi]
theorem jsMod_self [FloorRing K] (m : K) (hm : 0 < m) : jsMod m m = 0 := by
  have h1 : m / m = 1 := div_self hm.ne'
  simp only [jsMod, truncInt, h1, zero_le_one, if_true, Int.floor_one, Int.cast_one, mul_one,
    sub_self]

/-- With rounding, the result of `Track.normalizeAngle` lies in the closed
interval from 0 to `Math.PI * 2`. -/
theorem normalizeAngle_rounded_range [FloorRing K] (fl : K → K) (pi : K) (hpi : 0 < pi)
    (hl : RoundLaws fl pi) (angle : K) :
    0 ≤ Track.normalizeAngle.rounded fl pi angle ∧
      Track.normalizeAngle.rounded fl pi angle ≤ pi * 2 := by
  have hm : 0 < pi * 2 := mul_pos hpi two_pos
  obtain ⟨h1, h2, -, -⟩ := jsMod_range angle (pi * 2) hm
  unfold Track.normalizeAngle.rounded
  simp only
  split_ifs with h
  · have a1 := hl.mono 0 (jsMod angle (pi * 2) + pi * 2) (by linarith)
    have a2 := hl.mono (jsMod angle (pi * 2) + pi * 2) (pi * 2) (by linarith)
    rw [hl.zero] at a1
    rw [hl.twoPi] at a2
    exact ⟨a1, a2⟩
  · exact ⟨not_lt.mp h, h2.le⟩

theorem normalizeAngle_rounded_of_mem [FloorRing K] (fl : K → K) (pi x : K) (h0 : 0 ≤ x)
    (h1 : x < pi * 2) : Track.normalizeAngle.rounded fl pi x = x := by
  simp only [Track.normalizeAngle.rounded, jsMod_of_mem x (pi * 2) h0 h1, not_lt.mpr h0,
    if_false]

theorem normalizeAngle_rounded_twoPi [FloorRing K] (fl : K → K) (pi : K) (hpi : 0 < pi) :
    Track.normalizeAngle.rounded fl pi (pi * 2) = 0 := by
  simp only [Track.normalizeAngle.rounded, jsMod_self (pi * 2) (mul_pos hpi two_pos),
    lt_irrefl, if_false]

/-- How the result of `Track.normalizeAngle` with rounding comes from the angle:
a whole number of turns is added, and one more turn with rounding when that sum
is negative. -/
theorem normalizeAngle_rounded_eq_add [FloorRing K] (fl : K → K) (pi angle : K) :
    ∃ k : Int,
      (0 ≤ angle + pi * 2 * (k : K) ∧
        Track.normalizeAngle.rounded fl pi angle = angle + pi * 2 * (k : K)) ∨
      (angle + pi * 2 * (k : K) < 0 ∧
        Track.normalizeAngle.rounded fl pi angle = fl (angle + pi * 2 * (k : K) + pi * 2)) := by
  obtain ⟨k, hk⟩ := jsMod_eq_add angle (pi * 2)
  refine ⟨k, ?_⟩
  unfold Track.normalizeAngle.rounded
  simp only [hk]
  split_ifs with h
  · exact Or.inr ⟨h, rfl⟩
  · exact Or.inl ⟨not_lt.mp h, rfl⟩

/-- Without rounding, the result of `Track.normalizeAngle` lies below
`Math.PI * 2` and differs from the angle by a whole number of turns. -/
theorem normalizeAngle_exact [FloorRing K] (pi : K) (hpi : 0 < pi) (angle : K) :
    Track.normalizeAngle.rounded id pi angle < pi * 2 ∧
      ∃ k : Int, Track.normalizeAngle.rounded id pi angle = angle + pi * 2 * (k : K) := by
  have hm : 0 < pi * 2 := mul_pos hpi two_pos
  obtain ⟨h1, h2, -, -⟩ := jsMod_range angle (pi * 2) hm
  obtain ⟨k, hk⟩ := jsMod_eq_add angle (pi * 2)
  unfold Track.normalizeAngle.rounded
  simp only [id]
  split_ifs with h
  · refine ⟨by linarith, k + 1, ?_⟩
    rw [hk]
    push_cast
    ring
  · exact ⟨h2, k, hk⟩

/-- With rounding, the lap progress lies in the closed interval from 0 to 1. -/
theorem currentLapProgress_rounded_range [FloorRing K] (fl : K → K) (pi : K) (hpi : 0 < pi)
    (hl : RoundLaws fl pi) (bearing : K) :
    0 ≤ Racer.currentLapProgress.rounded fl pi bearing ∧
      Racer.currentLapProgress.rounded fl pi bearing ≤ 1 := by
  have hm : 0 < pi * 2 := mul_pos hpi two_pos
  obtain ⟨h1, h2⟩ := normalizeAngle_rounded_range fl pi hpi hl bearing
  unfold Racer.currentLapProgress.rounded
  simp only
  have a1 := hl.mono 0 _ (div_nonneg h1 hm.le)
  have a2 := hl.mono _ 1 ((div_le_one hm).mpr h2)
  rw [hl.zero] at a1
  rw [hl.one] at a2
  exact ⟨a1, a2⟩

theorem currentLapProgress_exact [FloorRing K] (pi : K) (hpi : 0 < pi) (bearing : K) :
    Racer.currentLapProgress.rounded id pi bearing < 1 := by
  have hm : 0 < pi * 2 := mul_pos hpi two_pos
  unfold Racer.currentLapProgress.rounded
  simp only [id]
  exact (div_lt_one hm).mpr (normalizeAngle_exact pi hpi bearing).1

end Lemmas

section Claims

variable {K : Type} [LinearOrderedField K]

/-- C1. `Track.clampToBounds` is idempotent: for every racer (any position, any
velocity), clamping the result of a clamp again returns that result unchanged.
At the exact centre the first call already leaves the finite numbers (`none`),
and nothing is applied after it. -/
theorem clampToBounds_idempotent {M : MathLib K} (hM : SqrtLaws M) (w h : K) (r : Racer K) :
    ((Track.constructor M w h).clampToBounds M r).bind ((Track.constructor M w h).clampToBounds M)
      = (Track.constructor M w h).clampToBounds M r := by
  cases hr : (Track.constructor M w h).clampToBounds M r with
  | none => rfl
  | some r1 =>
    rw [Option.some_bind]
    exact clampToBounds_of_withinBounds M _ r1 (clampToBounds_withinBounds hM w h r r1 hr)

/-- C2. A racer outside the outer ellipse (outer-ellipse value above 1) is moved
by one `Track.clampToBounds` along its ray from the centre (offset scaled by a
positive factor) to outer-ellipse value `0.995 * 0.995`, which is at most 1; its
velocity is multiplied by 0.45 and nothing else (so the inner block did not
fire), hence its speed is 0.45 times the speed before; no other field changes. -/
theorem clampToBounds_outside {M : MathLib K} (hM : SqrtLaws M) (w h : K) (r : Racer K)
    (ho : 1 < Track.ellipseValue ((Track.constructor M w h).offset r.position)
      (Track.constructor M w h).outer) :
    ∃ (c : K) (r1 : Racer K), 0 < c ∧
      (Track.constructor M w h).clampToBounds M r = some r1 ∧
      ((Track.constructor M w h).offset r1.position).x
        = ((Track.constructor M w h).offset r.position).x * c ∧
      ((Track.constructor M w h).offset r1.position).y
        = ((Track.constructor M w h).offset r.position).y * c ∧
      Track.ellipseValue ((Track.constructor M w h).offset r1.position)
        (Track.constructor M w h).outer = 0.995 * 0.995 ∧
      Track.ellipseValue ((Track.constructor M w h).offset r1.position)
        (Track.constructor M w h).outer ≤ 1 ∧
      r1.velocity = { x := r.velocity.x * 0.45, y := r.velocity.y * 0.45 } ∧
      r1.speed M = 0.45 * r.speed M ∧
      r1 = { r with position := r1.position, velocity := r1.velocity } := by
  have hv0 := lt_trans one_pos ho
  have hs := hM.sqrt_pos hv0
  have hss := hM.mul_self _ hv0.le
  refine ⟨1 / M.sqrt (Track.ellipseValue ((Track.constructor M w h).offset r.position)
      (Track.constructor M w h).outer) * 0.995, _, ?_, clampToBounds_outer hM w h r ho,
    ?_, ?_, ?_, ?_, rfl, ?_, rfl⟩
  · positivity
  · simp [offset_projected]
  · simp [offset_projected]
  · rw [offset_projected, ellipseValue_scale]
    exact recip_scale_sq _ hs hss
  · rw [offset_projected, ellipseValue_scale, recip_scale_sq _ hs hss]
    norm_num
  · simp only [Racer.speed, Track.projected]
    exact hypot_scale hM _ _ _ (by norm_num)

/-- Witness of C1 over the real numbers: the racer as constructed (position
`(0, 0)`) on the track of a 960 by 540 canvas. -/
theorem clampToBounds_idempotent_witness :
    SqrtLaws (MathLib.mk Real.sqrt (fun y x => Complex.arg ⟨x, y⟩) Real.sin Real.cos Real.pi Real.pi_pos) ∧
    ((Track.constructor (MathLib.mk Real.sqrt (fun y x => Complex.arg ⟨x, y⟩) Real.sin Real.cos Real.pi Real.pi_pos) 960 540).clampToBounds (MathLib.mk Real.sqrt (fun y x => Complex.arg ⟨x, y⟩) Real.sin Real.cos Real.pi Real.pi_pos)
        (Racer.constructor (MathLib.mk Real.sqrt (fun y x => Complex.arg ⟨x, y⟩) Real.sin Real.cos Real.pi Real.pi_pos) "You" "#f72585" true 0)).bind
      ((Track.constructor (MathLib.mk Real.sqrt (fun y x => Complex.arg ⟨x, y⟩) Real.sin Real.cos Real.pi Real.pi_pos) 960 540).clampToBounds (MathLib.mk Real.sqrt (fun y x => Complex.arg ⟨x, y⟩) Real.sin Real.cos Real.pi Real.pi_pos))
      = (Track.constructor (MathLib.mk Real.sqrt (fun y x => Complex.arg ⟨x, y⟩) Real.sin Real.cos Real.pi Real.pi_pos) 960 540).clampToBounds (MathLib.mk Real.sqrt (fun y x => Complex.arg ⟨x, y⟩) Real.sin Real.cos Real.pi Real.pi_pos)
        (Racer.constructor (MathLib.mk Real.sqrt (fun y x => Complex.arg ⟨x, y⟩) Real.sin Real.cos Real.pi Real.pi_pos) "You" "#f72585" true 0) :=
  ⟨real_sqrtLaws, clampToBounds_idempotent real_sqrtLaws 960 540 _⟩

/-- Witness of C2 over the real numbers: the racer as constructed (position
`(0, 0)`) lies outside the outer ellipse of the track of a 960 by 540 canvas. -/
theorem clampToBounds_outside_witness :
    (SqrtLaws (MathLib.mk Real.sqrt (fun y x => Complex.arg ⟨x, y⟩) Real.sin Real.cos Real.pi Real.pi_pos) ∧
      1 < Track.ellipseValue ((Track.constructor (MathLib.mk Real.sqrt (fun y x => Complex.arg ⟨x, y⟩) Real.sin Real.cos Real.pi Real.pi_pos) 960 540).offset
          (Racer.constructor (MathLib.mk Real.sqrt (fun y x => Complex.arg ⟨x, y⟩) Real.sin Real.cos Real.pi Real.pi_pos) "You" "#f72585" true 0).position)
        (Track.constructor (MathLib.mk Real.sqrt (fun y x => Complex.arg ⟨x, y⟩) Real.sin Real.cos Real.pi Real.pi_pos) 960 540).outer) ∧
    ∃ r1 : Racer ℝ,
      (Track.constructor (MathLib.mk Real.sqrt (fun y x => Complex.arg ⟨x, y⟩) Real.sin Real.cos Real.pi Real.pi_pos) 960 540).clampToBounds (MathLib.mk Real.sqrt (fun y x => Complex.arg ⟨x, y⟩) Real.sin Real.cos Real.pi Real.pi_pos)
        (Racer.constructor (MathLib.mk Real.sqrt (fun y x => Complex.arg ⟨x, y⟩) Real.sin Real.cos Real.pi Real.pi_pos) "You" "#f72585" true 0) = some r1 ∧
      Track.ellipseValue ((Track.constructor (MathLib.mk Real.sqrt (fun y x => Complex.arg ⟨x, y⟩) Real.sin Real.cos Real.pi Real.pi_pos) 960 540).offset r1.position)
        (Track.constructor (MathLib.mk Real.sqrt (fun y x => Complex.arg ⟨x, y⟩) Real.sin Real.cos Real.pi Real.pi_pos) 960 540).outer ≤ 1 ∧
      r1.velocity = { x := 0 * 0.45, y := 0 * 0.45 } := by
  have ho : 1 < Track.ellipseValue ((Track.constructor (MathLib.mk Real.sqrt (fun y x => Complex.arg ⟨x, y⟩) Real.sin Real.cos Real.pi Real.pi_pos) 960 540).offset
      (Racer.constructor (MathLib.mk Real.sqrt (fun y x => Complex.arg ⟨x, y⟩) Real.sin Real.cos Real.pi Real.pi_pos) "You" "#f72585" true 0).position)
      (Track.constructor (MathLib.mk Real.sqrt (fun y x => Complex.arg ⟨x, y⟩) Real.sin Real.cos Real.pi Real.pi_pos) 960 540).outer := by
    simp only [Track.ellipseValue, Track.offset, Track.constructor, Racer.constructor]
    norm_num
  obtain ⟨c, r1, -, h1, -, -, -, h2, h3, -, -⟩ :=
    clampToBounds_outside real_sqrtLaws 960 540 (Racer.constructor (MathLib.mk Real.sqrt (fun y x => Complex.arg ⟨x, y⟩) Real.sin Real.cos Real.pi Real.pi_pos) "You" "#f72585" true 0) ho
  exact ⟨⟨real_sqrtLaws, ho⟩, r1, h1, h2, h3⟩

/-- C3, failing input.  A racer at the exact centre of the track of a 960 by
540 canvas has inner-ellipse value 0, below 1; `Track.clampToBounds` then divides
by `Math.sqrt(0)` and the position is no longer a finite number: the racer is
not moved to 100.5% of the inner boundary. -/
theorem clampToBounds_center_not_projected :
    Track.ellipseValue ((Track.constructor (MathLib.mk Real.sqrt (fun y x => Complex.arg ⟨x, y⟩) Real.sin Real.cos Real.pi Real.pi_pos) 960 540).offset { x := 480, y := 270 })
      (Track.constructor (MathLib.mk Real.sqrt (fun y x => Complex.arg ⟨x, y⟩) Real.sin Real.cos Real.pi Real.pi_pos) 960 540).inner < 1 ∧
    (Track.constructor (MathLib.mk Real.sqrt (fun y x => Complex.arg ⟨x, y⟩) Real.sin Real.cos Real.pi Real.pi_pos) 960 540).clampToBounds (MathLib.mk Real.sqrt (fun y x => Complex.arg ⟨x, y⟩) Real.sin Real.cos Real.pi Real.pi_pos)
      { Racer.constructor (MathLib.mk Real.sqrt (fun y x => Complex.arg ⟨x, y⟩) Real.sin Real.cos Real.pi Real.pi_pos) "You" "#f72585" true 0 with position := { x := 480, y := 270 } }
      = none := by
  constructor
  · simp only [Track.ellipseValue, Track.offset, Track.constructor]
    norm_num
  · apply clampToBounds_center real_sqrtLaws
    simp only [Track.constructor]
    norm_num

/-- C4. `Track.surfaceAt` classifies a position as on-track exactly when its
outer-ellipse value is at most 1.015 and its inner-ellipse value is at least 1;
beyond 1.015 it returns grip 0.25, maxSpeed 80, boost 0, offTrack; otherwise
inside the inner ellipse it returns grip 0.3, maxSpeed 65, boost 0, offTrack.
In particular a position strictly between the two ellipses is on-track. -/
theorem surfaceAt_offTrack [FloorRing K] (M : MathLib K) (t : Track K) (p : Vec K) :
    ((t.surfaceAt M p).offTrack = false ↔
      Track.ellipseValue (t.offset p) t.outer ≤ 1.015 ∧
        1 ≤ Track.ellipseValue (t.offset p) t.inner) ∧
    (1.015 < Track.ellipseValue (t.offset p) t.outer →
      t.surfaceAt M p = { grip := 0.25, maxSpeed := 80, boost := 0, offTrack := true }) ∧
    (Track.ellipseValue (t.offset p) t.outer ≤ 1.015 ∧
        Track.ellipseValue (t.offset p) t.inner < 1 →
      t.surfaceAt M p = { grip := 0.3, maxSpeed := 65, boost := 0, offTrack := true }) ∧
    (Track.ellipseValue (t.offset p) t.outer < 1 ∧
        1 < Track.ellipseValue (t.offset p) t.inner →
      (t.surfaceAt M p).offTrack = false) := by
  have key : (t.surfaceAt M p).offTrack = false ↔
      Track.ellipseValue (t.offset p) t.outer ≤ 1.015 ∧
        1 ≤ Track.ellipseValue (t.offset p) t.inner := by
    by_cases ho : 1.015 < Track.ellipseValue (t.offset p) t.outer
    · have ho2 := ho
      simp only [Track.offset] at ho2
      simp [Track.surfaceAt, ho2, ho]
    · by_cases hi : Track.ellipseValue (t.offset p) t.inner < 1
      · have ho2 := ho
        have hi2 := hi
        simp only [Track.offset] at ho2 hi2
        simp [Track.surfaceAt, ho2, hi2, hi]
      · have ho2 := ho
        have hi2 := hi
        simp only [Track.offset] at ho2 hi2
        simp only [Track.surfaceAt, gt_iff_lt, ho2, hi2, if_false, padLoop_offTrack]
        constructor
        · intro _
          exact ⟨not_lt.mp ho, not_lt.mp hi⟩
        · intro _
          split_ifs <;> rfl
  refine ⟨key, ?_, ?_, ?_⟩
  · intro ho
    simp only [Track.offset] at ho
    simp [Track.surfaceAt, ho]
  · rintro ⟨ho, hi⟩
    have ho2 := not_lt.mpr ho
    simp only [Track.offset] at ho2 hi
    simp [Track.surfaceAt, ho2, hi]
  · rintro ⟨ho, hi⟩
    refine key.mpr ⟨le_trans ho.le ?_, hi.le⟩
    norm_num

/-- Witness of C4 over the real numbers: the corner `(0, 0)` of a 960 by 540
canvas is beyond 1.015 times the outer ellipse. -/
theorem surfaceAt_offTrack_witness :
    1.015 < Track.ellipseValue ((Track.constructor (MathLib.mk Real.sqrt (fun y x => Complex.arg ⟨x, y⟩) Real.sin Real.cos Real.pi Real.pi_pos) 960 540).offset { x := 0, y := 0 })
      (Track.constructor (MathLib.mk Real.sqrt (fun y x => Complex.arg ⟨x, y⟩) Real.sin Real.cos Real.pi Real.pi_pos) 960 540).outer ∧
    (Track.constructor (MathLib.mk Real.sqrt (fun y x => Complex.arg ⟨x, y⟩) Real.sin Real.cos Real.pi Real.pi_pos) 960 540).surfaceAt (MathLib.mk Real.sqrt (fun y x => Complex.arg ⟨x, y⟩) Real.sin Real.cos Real.pi Real.pi_pos) { x := 0, y := 0 }
      = { grip := 0.25, maxSpeed := 80, boost := 0, offTrack := true } := by
  have ho : 1.015 < Track.ellipseValue
      ((Track.constructor (MathLib.mk Real.sqrt (fun y x => Complex.arg ⟨x, y⟩) Real.sin Real.cos Real.pi Real.pi_pos) 960 540).offset { x := 0, y := 0 })
      (Track.constructor (MathLib.mk Real.sqrt (fun y x => Complex.arg ⟨x, y⟩) Real.sin Real.cos Real.pi Real.pi_pos) 960 540).outer := by
    simp only [Track.ellipseValue, Track.offset, Track.constructor]
    norm_num
  exact ⟨ho, (surfaceAt_offTrack (MathLib.mk Real.sqrt (fun y x => Complex.arg ⟨x, y⟩) Real.sin Real.cos Real.pi Real.pi_pos) (Track.constructor (MathLib.mk Real.sqrt (fun y x => Complex.arg ⟨x, y⟩) Real.sin Real.cos Real.pi Real.pi_pos) 960 540) { x := 0, y := 0 }).2.1 ho⟩

/-- C5. `Racer.updateLapProgress` adds one to `completedLaps` and appends
`elapsed` to `lapHistory` if and only if speed > 60, `lastAngle > 1.5π` and the
current normalized bearing is below `0.5π`; otherwise `completedLaps`,
`lapHistory`, `finished` and `finishTime` are unchanged.  When it fires and the
new count is at least `TOTAL_LAPS = 3`, `finished` becomes true and `finishTime`
becomes `elapsed`.  In all cases `lastAngle` becomes the current bearing. -/
theorem updateLapProgress_spec [FloorRing K] (M : MathLib K) (r : Racer K) (t : Track K)
    (surface : Surface K) (elapsed : K) :
    (((r.updateLapProgress M t surface elapsed).completedLaps = r.completedLaps + 1 ∧
        (r.updateLapProgress M t surface elapsed).lapHistory = r.lapHistory ++ [elapsed])
      ↔ r.lapFires M t) ∧
    (¬ r.lapFires M t →
      (r.updateLapProgress M t surface elapsed).completedLaps = r.completedLaps ∧
      (r.updateLapProgress M t surface elapsed).lapHistory = r.lapHistory ∧
      (r.updateLapProgress M t surface elapsed).finished = r.finished ∧
      (r.updateLapProgress M t surface elapsed).finishTime = r.finishTime) ∧
    (r.lapFires M t ∧ TOTAL_LAPS ≤ r.completedLaps + 1 →
      (r.updateLapProgress M t surface elapsed).finished = true ∧
      (r.updateLapProgress M t surface elapsed).finishTime = some elapsed) ∧
    (r.updateLapProgress M t surface elapsed).lastAngle = t.bearing M r.position := by
  simp only [Racer.lapFires, Track.bearing, Racer.updateLapProgress, gt_iff_lt, ge_iff_le]
  by_cases h1 : 60 < r.speed M
  · by_cases h2 : M.pi * 1.5 < r.lastAngle ∧
        Track.normalizeAngle M (t.angleFor M r.position) < M.pi * 0.5
    · simp only [h1, h2, and_self, if_true, not_true_eq_false]
      refine ⟨?_, ?_, ?_, ?_⟩
      · split_ifs <;> simp
      · intro hf; exact hf.elim
      · rintro ⟨_, h3⟩
        simp only [h3, if_true]
        split_ifs <;> exact ⟨rfl, rfl⟩
      · split_ifs <;> rfl
    · have h3 : ¬ (60 < r.speed M ∧ M.pi * 1.5 < r.lastAngle ∧
          Track.normalizeAngle M (t.angleFor M r.position) < M.pi * 0.5) := fun h => h2 h.2
      simp only [h1, h2, h3, if_true, if_false, true_and]
      refine ⟨?_, ?_, ?_, ?_⟩
      · split_ifs <;> simp
      · intro _; split_ifs <;> exact ⟨rfl, rfl, rfl, rfl⟩
      · intro hf; exact hf.1.elim
      · split_ifs <;> rfl
  · simp only [h1, if_false, false_and]
    refine ⟨?_, ?_, ?_, ?_⟩
    · split_ifs <;> simp
    · intro _; split_ifs <;> exact ⟨rfl, rfl, rfl, rfl⟩
    · intro hf; exact hf.elim
    · split_ifs <;> rfl

/-- Witness of C5 over the real numbers: `crossingRacer` fulfils the condition,
and its third lap finishes the race at the elapsed time 42. -/
theorem updateLapProgress_spec_witness :
    ((crossingRacer (MathLib.mk Real.sqrt (fun y x => Complex.arg ⟨x, y⟩) Real.sin Real.cos Real.pi Real.pi_pos)).lapFires (MathLib.mk Real.sqrt (fun y x => Complex.arg ⟨x, y⟩) Real.sin Real.cos Real.pi Real.pi_pos) (Track.constructor (MathLib.mk Real.sqrt (fun y x => Complex.arg ⟨x, y⟩) Real.sin Real.cos Real.pi Real.pi_pos) 960 540) ∧
      TOTAL_LAPS ≤ (crossingRacer (MathLib.mk Real.sqrt (fun y x => Complex.arg ⟨x, y⟩) Real.sin Real.cos Real.pi Real.pi_pos)).completedLaps + 1) ∧
    ((crossingRacer (MathLib.mk Real.sqrt (fun y x => Complex.arg ⟨x, y⟩) Real.sin Real.cos Real.pi Real.pi_pos)).updateLapProgress (MathLib.mk Real.sqrt (fun y x => Complex.arg ⟨x, y⟩) Real.sin Real.cos Real.pi Real.pi_pos) (Track.constructor (MathLib.mk Real.sqrt (fun y x => Complex.arg ⟨x, y⟩) Real.sin Real.cos Real.pi Real.pi_pos) 960 540)
        baseSurface 42).finished = true ∧
    ((crossingRacer (MathLib.mk Real.sqrt (fun y x => Complex.arg ⟨x, y⟩) Real.sin Real.cos Real.pi Real.pi_pos)).updateLapProgress (MathLib.mk Real.sqrt (fun y x => Complex.arg ⟨x, y⟩) Real.sin Real.cos Real.pi Real.pi_pos) (Track.constructor (MathLib.mk Real.sqrt (fun y x => Complex.arg ⟨x, y⟩) Real.sin Real.cos Real.pi Real.pi_pos) 960 540)
        baseSurface 42).finishTime = some 42 := by
  have hf : (crossingRacer (MathLib.mk Real.sqrt (fun y x => Complex.arg ⟨x, y⟩) Real.sin Real.cos Real.pi Real.pi_pos)).lapFires (MathLib.mk Real.sqrt (fun y x => Complex.arg ⟨x, y⟩) Real.sin Real.cos Real.pi Real.pi_pos) (Track.constructor (MathLib.mk Real.sqrt (fun y x => Complex.arg ⟨x, y⟩) Real.sin Real.cos Real.pi Real.pi_pos) 960 540) ∧
      TOTAL_LAPS ≤ (crossingRacer (MathLib.mk Real.sqrt (fun y x => Complex.arg ⟨x, y⟩) Real.sin Real.cos Real.pi Real.pi_pos)).completedLaps + 1 := by
    refine ⟨⟨?_, ?_, ?_⟩, by decide⟩
    · show (60 : ℝ) < hypot (MathLib.mk Real.sqrt (fun y x => Complex.arg ⟨x, y⟩) Real.sin Real.cos Real.pi Real.pi_pos) 100 0
      rw [real_hypot_hundred]
      norm_num
    · show Real.pi * 1.5 < Real.pi * 1.75
      have := Real.pi_pos
      linarith
    · show (Track.constructor (MathLib.mk Real.sqrt (fun y x => Complex.arg ⟨x, y⟩) Real.sin Real.cos Real.pi Real.pi_pos) 960 540).bearing (MathLib.mk Real.sqrt (fun y x => Complex.arg ⟨x, y⟩) Real.sin Real.cos Real.pi Real.pi_pos) { x := 840, y := 270 } < Real.pi * 0.5
      rw [real_bearing_east]
      have := Real.pi_pos
      linarith
  exact ⟨hf, (updateLapProgress_spec (MathLib.mk Real.sqrt (fun y x => Complex.arg ⟨x, y⟩) Real.sin Real.cos Real.pi Real.pi_pos) (crossingRacer (MathLib.mk Real.sqrt (fun y x => Complex.arg ⟨x, y⟩) Real.sin Real.cos Real.pi Real.pi_pos)) (Track.constructor (MathLib.mk Real.sqrt (fun y x => Complex.arg ⟨x, y⟩) Real.sin Real.cos Real.pi Real.pi_pos) 960 540)
    baseSurface 42).2.2.1 hf⟩

/-- C6. (1) In a run of `Racer.updateLapProgress` calls in which every call has
speed above 60 and every bearing advances the one before it by a positive amount
below `π/2` modulo `2π`, a call adds one to `completedLaps` exactly when the
bearing wraps past 0 and adds nothing otherwise, so the count grows by the
number of wraps; and if the bearing has advanced by `n` full turns in total the
count has grown by exactly `n` (one increment per revolution).  (2) For
arbitrary racers and calls, two consecutive calls never both increase
`completedLaps`. -/
theorem lap_count_per_revolution [FloorRing K] (M : MathLib K) (t : Track K) :
    (∀ (r : Racer K) (cs : List (LapCall K)),
      0 ≤ r.lastAngle ∧ r.lastAngle < M.pi * 2 ∧ steadyRun M t r.lastAngle cs →
        (r.lapCalls M t cs).completedLaps = r.completedLaps + wrapCount M t r.lastAngle cs ∧
        ∀ n : Nat, turned M t r.lastAngle cs = M.pi * 2 * (n : K) →
          (r.lapCalls M t cs).completedLaps = r.completedLaps + n) ∧
    (∀ (r : Racer K) (c : LapCall K),
      r.lastAngle < M.pi * 2 ∧ steadyRun M t r.lastAngle [c] →
        (r.lapCall M t c).completedLaps =
          r.completedLaps + (if t.bearing M c.position < r.lastAngle then 1 else 0)) ∧
    (∀ (r : Racer K) (c1 c2 : LapCall K),
      ¬ (r.completedLaps < (r.lapCall M t c1).completedLaps ∧
        (r.lapCall M t c1).completedLaps
          < ((r.lapCall M t c1).lapCall M t c2).completedLaps)) := by
  refine ⟨?_, ?_, ?_⟩
  · rintro r cs ⟨h0, h1, hrun⟩
    have hcount := steady_count M t cs r h1 hrun
    refine ⟨hcount, ?_⟩
    intro n hn
    rw [hcount]
    congr 1
    rw [turned_eq] at hn
    obtain ⟨hl0, hl1⟩ := lastBearing_range M t cs r.lastAngle h0 h1
    have hp := M.pi_pos
    by_contra hne
    rcases Nat.lt_or_gt_of_ne hne with hlt | hgt
    · have hc : ((wrapCount M t r.lastAngle cs : Nat) : K) + 1 ≤ (n : K) := by
        exact_mod_cast hlt
      nlinarith
    · have hc : (n : K) + 1 ≤ ((wrapCount M t r.lastAngle cs : Nat) : K) := by
        exact_mod_cast hgt
      nlinarith
  · rintro r c ⟨h1, hrun⟩
    have hcount := steady_count M t [c] r h1 hrun
    simpa [Racer.lapCalls, wrapCount] using hcount
  · rintro r c1 c2 ⟨ha, hb⟩
    obtain ⟨hla1, hlaps1⟩ := lapCall_effect M t r c1
    obtain ⟨-, hlaps2⟩ := lapCall_effect M t (r.lapCall M t c1) c2
    have hp := M.pi_pos
    rw [hlaps1] at ha
    rw [hlaps2, hla1] at hb
    split_ifs at ha hb with h1 h2
    · linarith [h1.2.2, h2.2.1]
    · omega
    · omega
    · omega

/-- Witness of C6 over the real numbers: a racer whose last bearing is `1.75π`
and whose next call is made due east of the centre (bearing 0) at speed 100; the
bearing wraps once and one lap is counted. -/
theorem lap_count_per_revolution_witness :
    ((crossingRacer (MathLib.mk Real.sqrt (fun y x => Complex.arg ⟨x, y⟩) Real.sin Real.cos Real.pi Real.pi_pos)).lastAngle < Real.pi * 2 ∧
      steadyRun (MathLib.mk Real.sqrt (fun y x => Complex.arg ⟨x, y⟩) Real.sin Real.cos Real.pi Real.pi_pos) (Track.constructor (MathLib.mk Real.sqrt (fun y x => Complex.arg ⟨x, y⟩) Real.sin Real.cos Real.pi Real.pi_pos) 960 540) (crossingRacer (MathLib.mk Real.sqrt (fun y x => Complex.arg ⟨x, y⟩) Real.sin Real.cos Real.pi Real.pi_pos)).lastAngle [crossingCall]) ∧
    ((crossingRacer (MathLib.mk Real.sqrt (fun y x => Complex.arg ⟨x, y⟩) Real.sin Real.cos Real.pi Real.pi_pos)).lapCall (MathLib.mk Real.sqrt (fun y x => Complex.arg ⟨x, y⟩) Real.sin Real.cos Real.pi Real.pi_pos) (Track.constructor (MathLib.mk Real.sqrt (fun y x => Complex.arg ⟨x, y⟩) Real.sin Real.cos Real.pi Real.pi_pos) 960 540) crossingCall).completedLaps
      = 2 + 1 := by
  have hp := Real.pi_pos
  have hb : (Track.constructor (MathLib.mk Real.sqrt (fun y x => Complex.arg ⟨x, y⟩) Real.sin Real.cos Real.pi Real.pi_pos) 960 540).bearing (MathLib.mk Real.sqrt (fun y x => Complex.arg ⟨x, y⟩) Real.sin Real.cos Real.pi Real.pi_pos) (crossingCall (K := ℝ)).position = 0 :=
    real_bearing_east
  have hl : (crossingRacer (MathLib.mk Real.sqrt (fun y x => Complex.arg ⟨x, y⟩) Real.sin Real.cos Real.pi Real.pi_pos)).lastAngle = Real.pi * 1.75 := rfl
  have hrun : (crossingRacer (MathLib.mk Real.sqrt (fun y x => Complex.arg ⟨x, y⟩) Real.sin Real.cos Real.pi Real.pi_pos)).lastAngle < Real.pi * 2 ∧
      steadyRun (MathLib.mk Real.sqrt (fun y x => Complex.arg ⟨x, y⟩) Real.sin Real.cos Real.pi Real.pi_pos) (Track.constructor (MathLib.mk Real.sqrt (fun y x => Complex.arg ⟨x, y⟩) Real.sin Real.cos Real.pi Real.pi_pos) 960 540) (crossingRacer (MathLib.mk Real.sqrt (fun y x => Complex.arg ⟨x, y⟩) Real.sin Real.cos Real.pi Real.pi_pos)).lastAngle
        [crossingCall] := by
    rw [hl]
    refine ⟨by linarith, ?_, ?_, trivial⟩
    · show (60 : ℝ) < hypot (MathLib.mk Real.sqrt (fun y x => Complex.arg ⟨x, y⟩) Real.sin Real.cos Real.pi Real.pi_pos) 100 0
      rw [real_hypot_hundred]
      norm_num
    · rw [hb]
      right
      constructor <;> linarith
  have h := (lap_count_per_revolution (MathLib.mk Real.sqrt (fun y x => Complex.arg ⟨x, y⟩) Real.sin Real.cos Real.pi Real.pi_pos) (Track.constructor (MathLib.mk Real.sqrt (fun y x => Complex.arg ⟨x, y⟩) Real.sin Real.cos Real.pi Real.pi_pos) 960 540)).2.1
    (crossingRacer (MathLib.mk Real.sqrt (fun y x => Complex.arg ⟨x, y⟩) Real.sin Real.cos Real.pi Real.pi_pos)) crossingCall hrun
  rw [hb, hl, if_pos (by linarith)] at h
  exact ⟨hrun, h⟩

/-- C7. Start from a racer with `completedLaps = 0` and `finished = false` (as
`Game.setupRace` resets it), run any sequence of `Racer.update` calls reaching
`r1`, then any further sequence reaching `r2`.  Then `completedLaps` has not
decreased from `r1` to `r2`, it is at most `TOTAL_LAPS = 3`, `finished` is true
exactly when it equals 3, and if `r1` is finished then `r2` is the very same
racer state, every further run of updates returning it unchanged.  (A run
reaches no state only when a call has produced a non-finite number, see
`update_isSome`.) -/
theorem race_progress_invariant [FloorRing K] (M : MathLib K) (t : Track K) (r0 : Racer K)
    (h0 : r0.completedLaps = 0 ∧ r0.finished = false) (ks1 ks2 : List (Tick K))
    (r1 r2 : Racer K) (h1 : r0.updates M t ks1 = some r1) (h2 : r1.updates M t ks2 = some r2) :
    r1.completedLaps ≤ r2.completedLaps ∧
    r2.completedLaps ≤ TOTAL_LAPS ∧
    (r2.finished = true ↔ r2.completedLaps = TOTAL_LAPS) ∧
    (r1.finished = true → r2 = r1) ∧
    (r1.finished = true → ∀ ks : List (Tick K), r1.updates M t ks = some r1) := by
  have hinv0 : r0.completedLaps ≤ TOTAL_LAPS ∧
      (r0.finished = true ↔ r0.completedLaps = TOTAL_LAPS) := by
    rw [h0.1, h0.2]
    exact ⟨by decide, by decide⟩
  obtain ⟨hinv1, -, -⟩ := updates_invariant M t ks1 r0 r1 hinv0 h1
  obtain ⟨hinv2, hle, hfix⟩ := updates_invariant M t ks2 r1 r2 hinv1 h2
  exact ⟨hle, hinv2.1, hinv2.2, hfix, fun hf ks => updates_of_finished M t r1 hf ks⟩

/-- Witness of C7 over the real numbers: the player as reset by `Game.setupRace`
on the track of a 960 by 540 canvas, and the first tick of the loop (`dt = 0`);
the update returns a racer, and that racer satisfies the invariant. -/
theorem race_progress_invariant_witness :
    ((startRacer (MathLib.mk Real.sqrt (fun y x => Complex.arg ⟨x, y⟩) Real.sin Real.cos Real.pi Real.pi_pos)).completedLaps = 0 ∧ (startRacer (MathLib.mk Real.sqrt (fun y x => Complex.arg ⟨x, y⟩) Real.sin Real.cos Real.pi Real.pi_pos)).finished = false) ∧
    ∃ r2 : Racer ℝ,
      (startRacer (MathLib.mk Real.sqrt (fun y x => Complex.arg ⟨x, y⟩) Real.sin Real.cos Real.pi Real.pi_pos)).updates (MathLib.mk Real.sqrt (fun y x => Complex.arg ⟨x, y⟩) Real.sin Real.cos Real.pi Real.pi_pos) (Track.constructor (MathLib.mk Real.sqrt (fun y x => Complex.arg ⟨x, y⟩) Real.sin Real.cos Real.pi Real.pi_pos) 960 540) [idleTick] = some r2 ∧
      (startRacer (MathLib.mk Real.sqrt (fun y x => Complex.arg ⟨x, y⟩) Real.sin Real.cos Real.pi Real.pi_pos)).completedLaps ≤ r2.completedLaps ∧
      r2.completedLaps ≤ TOTAL_LAPS ∧
      (r2.finished = true ↔ r2.completedLaps = TOTAL_LAPS) := by
  have h0 : (startRacer (MathLib.mk Real.sqrt (fun y x => Complex.arg ⟨x, y⟩) Real.sin Real.cos Real.pi Real.pi_pos)).completedLaps = 0 ∧ (startRacer (MathLib.mk Real.sqrt (fun y x => Complex.arg ⟨x, y⟩) Real.sin Real.cos Real.pi Real.pi_pos)).finished = false :=
    ⟨rfl, rfl⟩
  obtain ⟨r2, hr2⟩ := update_isSome real_sqrtLaws 960 540 (startRacer (MathLib.mk Real.sqrt (fun y x => Complex.arg ⟨x, y⟩) Real.sin Real.cos Real.pi Real.pi_pos)) 0
    (idleTick (K := ℝ)).inputState 0 (by
      intro r3 h3
      rw [integrated_dt_zero _ _ r3 _ _ _ h3, real_start_position]
      simp only [Track.constructor, ne_eq, Vec.mk.injEq, not_and]
      intro _
      norm_num)
  have hrun : (startRacer (MathLib.mk Real.sqrt (fun y x => Complex.arg ⟨x, y⟩) Real.sin Real.cos Real.pi Real.pi_pos)).updates (MathLib.mk Real.sqrt (fun y x => Complex.arg ⟨x, y⟩) Real.sin Real.cos Real.pi Real.pi_pos) (Track.constructor (MathLib.mk Real.sqrt (fun y x => Complex.arg ⟨x, y⟩) Real.sin Real.cos Real.pi Real.pi_pos) 960 540) [idleTick] = some r2 := by
    show (Racer.update _ _ _ _ _ _).bind _ = some r2
    rw [show (idleTick (K := ℝ)).dt = 0 from rfl, show (idleTick (K := ℝ)).elapsed = 0 from rfl,
      hr2]
    rfl
  obtain ⟨a, b, c, -, -⟩ := race_progress_invariant (MathLib.mk Real.sqrt (fun y x => Complex.arg ⟨x, y⟩) Real.sin Real.cos Real.pi Real.pi_pos) (Track.constructor (MathLib.mk Real.sqrt (fun y x => Complex.arg ⟨x, y⟩) Real.sin Real.cos Real.pi Real.pi_pos) 960 540)
    (startRacer (MathLib.mk Real.sqrt (fun y x => Complex.arg ⟨x, y⟩) Real.sin Real.cos Real.pi Real.pi_pos)) h0 [] [idleTick] (startRacer (MathLib.mk Real.sqrt (fun y x => Complex.arg ⟨x, y⟩) Real.sin Real.cos Real.pi Real.pi_pos)) r2 rfl hrun
  exact ⟨h0, r2, hrun, a, b, c⟩

/-- C8. For every velocity, every `dt` and every surface with `maxSpeed ≥ 0`,
`Racer.applyPhysics` returns a racer whose speed is at most `maxSpeed + 50`.  If
the damped speed exceeds that cap, the new speed equals the cap and the new
velocity is a positive multiple of the damped velocity; otherwise the new
velocity is the damped velocity.  No other field changes. -/
theorem applyPhysics_speed_cap {M : MathLib K} (hM : SqrtLaws M) (r : Racer K) (dt : K)
    (surface : Surface K) (hmax : 0 ≤ surface.maxSpeed) :
    ∃ r1 : Racer K, r.applyPhysics M dt surface = some r1 ∧
      r1.speed M ≤ surface.maxSpeed + 50 ∧
      (surface.maxSpeed + 50 <
          hypot M (r.dampedVelocity dt surface).x (r.dampedVelocity dt surface).y →
        r1.speed M = surface.maxSpeed + 50 ∧
        ∃ k : K, 0 < k ∧ r1.velocity =
          { x := (r.dampedVelocity dt surface).x * k, y := (r.dampedVelocity dt surface).y * k }) ∧
      (hypot M (r.dampedVelocity dt surface).x (r.dampedVelocity dt surface).y
          ≤ surface.maxSpeed + 50 →
        r1.velocity = r.dampedVelocity dt surface) ∧
      r1 = { r with velocity := r1.velocity } := by
  have hcap : 0 < surface.maxSpeed + 50 := by linarith
  by_cases hgt : surface.maxSpeed + 50 <
      hypot M (r.dampedVelocity dt surface).x (r.dampedVelocity dt surface).y
  · have hmag : 0 < hypot M (r.dampedVelocity dt surface).x (r.dampedVelocity dt surface).y :=
      lt_trans hcap hgt
    have hk : 0 < (surface.maxSpeed + 50) /
        hypot M (r.dampedVelocity dt surface).x (r.dampedVelocity dt surface).y :=
      div_pos hcap hmag
    have hspeed : hypot M
        ((r.dampedVelocity dt surface).x * ((surface.maxSpeed + 50) /
          hypot M (r.dampedVelocity dt surface).x (r.dampedVelocity dt surface).y))
        ((r.dampedVelocity dt surface).y * ((surface.maxSpeed + 50) /
          hypot M (r.dampedVelocity dt surface).x (r.dampedVelocity dt surface).y))
        = surface.maxSpeed + 50 := by
      rw [hypot_scale hM _ _ _ hk.le]
      field_simp
    refine ⟨{ r with velocity :=
        { x := (r.dampedVelocity dt surface).x * ((surface.maxSpeed + 50) /
            hypot M (r.dampedVelocity dt surface).x (r.dampedVelocity dt surface).y),
          y := (r.dampedVelocity dt surface).y * ((surface.maxSpeed + 50) /
            hypot M (r.dampedVelocity dt surface).x (r.dampedVelocity dt surface).y) } },
      ?_, ?_, ?_, ?_, rfl⟩
    · simp only [Racer.dampedVelocity] at hgt hmag
      simp only [Racer.applyPhysics, Racer.speed, gt_iff_lt, hgt, if_true, jsDiv, hmag.ne',
        if_false, Option.map_some', Racer.dampedVelocity]
    · simp only [Racer.speed]
      exact hspeed.le
    · intro _
      exact ⟨hspeed, _, hk, rfl⟩
    · intro hle
      exact absurd hgt (not_lt.mpr hle)
  · refine ⟨{ r with velocity := r.dampedVelocity dt surface }, ?_, ?_, ?_, ?_, rfl⟩
    · simp only [Racer.dampedVelocity] at hgt
      simp only [Racer.applyPhysics, Racer.speed, gt_iff_lt, hgt, if_false,
        Racer.dampedVelocity]
    · simp only [Racer.speed]
      exact not_lt.mp hgt
    · intro h
      exact absurd h hgt
    · intro _
      rfl

/-- Witness of C8 over the real numbers: `crossingRacer` (velocity `(100, 0)`)
with `dt = 0` on a surface with `maxSpeed = 0` is slowed down to the cap 50. -/
theorem applyPhysics_speed_cap_witness :
    (SqrtLaws (MathLib.mk Real.sqrt (fun y x => Complex.arg ⟨x, y⟩) Real.sin Real.cos Real.pi Real.pi_pos) ∧ (0 : ℝ) ≤ (slowSurface (K := ℝ)).maxSpeed) ∧
    ∃ r1 : Racer ℝ, (crossingRacer (MathLib.mk Real.sqrt (fun y x => Complex.arg ⟨x, y⟩) Real.sin Real.cos Real.pi Real.pi_pos)).applyPhysics (MathLib.mk Real.sqrt (fun y x => Complex.arg ⟨x, y⟩) Real.sin Real.cos Real.pi Real.pi_pos) 0 slowSurface = some r1 ∧
      r1.speed (MathLib.mk Real.sqrt (fun y x => Complex.arg ⟨x, y⟩) Real.sin Real.cos Real.pi Real.pi_pos) ≤ 0 + 50 := by
  have hmax : (0 : ℝ) ≤ (slowSurface (K := ℝ)).maxSpeed := le_refl _
  obtain ⟨r1, h1, h2, -⟩ :=
    applyPhysics_speed_cap real_sqrtLaws (crossingRacer (MathLib.mk Real.sqrt (fun y x => Complex.arg ⟨x, y⟩) Real.sin Real.cos Real.pi Real.pi_pos)) 0 slowSurface hmax
  exact ⟨⟨real_sqrtLaws, hmax⟩, r1, h1, h2⟩

/-- C9. For a leaderboard with limit `N ≥ 0` and any existing entries (sorted or
not), after `Leaderboard.push(entry)` the entries are sorted ascending by time,
there are at most `N` of them, and they are the first `N` elements of the stable
ascending sort of the old entries followed by the new one (a list sorted by
time, a permutation of the input, in which entries of equal time keep their
order).  Hence after pushing one or more entries in sequence the list is sorted
with length at most `N`. -/
theorem push_sorted_bounded (lb : Leaderboard K) (entry : LeaderboardEntry K)
    (hN : 0 ≤ lb.limit) :
    (lb.push entry).entries.Pairwise (fun a b => a.time ≤ b.time) ∧
    ((lb.push entry).entries.length : Int) ≤ lb.limit ∧
    (∃ s : List (LeaderboardEntry K),
      s.Pairwise (fun a b => a.time ≤ b.time) ∧
      s.Perm (lb.entries ++ [entry]) ∧
      (∀ t : K, s.filter (fun a => decide (a.time = t))
        = (lb.entries ++ [entry]).filter (fun a => decide (a.time = t))) ∧
      (lb.push entry).entries = s.take lb.limit.toNat) ∧
    ∀ more : List (LeaderboardEntry K),
      ((entry :: more).foldl Leaderboard.push lb).entries.Pairwise
          (fun a b => a.time ≤ b.time) ∧
        (((entry :: more).foldl Leaderboard.push lb).entries.length : Int) ≤ lb.limit := by
  obtain ⟨h1, h2, h3⟩ := push_sorted lb entry hN
  obtain ⟨s1, s2, s3⟩ := jsSort_time_spec (lb.entries ++ [entry])
  refine ⟨h1, h2, ⟨_, s1, s2, s3, ?_⟩, ?_⟩
  · simp only [Leaderboard.push, sliceTo_of_nonneg _ _ hN]
  · intro more
    have := pushes_sorted more (lb.push entry) (h3 ▸ hN) ⟨h1, h3 ▸ h2⟩
    rw [h3] at this
    exact this

/-- Witness of C9 over the rationals: pushing the time 94 onto the unsorted
board `[95, 93]` of limit 2 leaves a sorted list of at most two entries. -/
theorem push_sorted_bounded_witness :
    (0 : Int) ≤ sampleBoard.limit ∧
    (sampleBoard.push sampleEntry).entries.Pairwise (fun a b => a.time ≤ b.time) ∧
    ((sampleBoard.push sampleEntry).entries.length : Int) ≤ 2 ∧
    (sampleBoard.push sampleEntry).entries
      = [{ name := "P2", time := 93 }, { name := "P3", time := 94 }] := by
  refine ⟨by decide, (push_sorted_bounded sampleBoard sampleEntry (by decide)).1,
    (push_sorted_bounded sampleBoard sampleEntry (by decide)).2.1, ?_⟩
  have h1 : ¬ ((95 : ℚ) ≤ 93) := by norm_num
  have h2 : (93 : ℚ) ≤ 94 := by norm_num
  have h3 : ¬ ((95 : ℚ) ≤ 94) := by norm_num
  simp [Leaderboard.push, sampleBoard, sampleEntry, jsSort, sliceTo, List.mergeSort, List.merge,
    List.splitInTwo, h1, h2, h3]

/-- C10. After `Game.resolvePosition`, when the player is racer number `i` of the
list, `positionIndex` is 1 plus the number of racers with progress strictly
greater than the player's plus the number of racers listed before the player
with progress equal to the player's, where progress is
`completedLaps + normalizedBearing / (2π)`; it lies between 1 and the number of
racers.  (The sorted standings are in the strict order "more progress, or equal
progress and earlier in the list", lemma `jsSort_ahead`.) -/
theorem resolvePosition_rank [FloorRing K] (M : MathLib K) (g : Game K) (i : Nat)
    (hi : i < g.racers.length) (hp : g.player = some i) :
    (g.resolvePosition M).positionIndex =
      1 + ((g.racers.filter (fun r =>
            decide ((g.racers.get ⟨i, hi⟩).progress M g.track < r.progress M g.track))).length : Int)
        + (((g.racers.take i).filter (fun r =>
            decide (r.progress M g.track = (g.racers.get ⟨i, hi⟩).progress M g.track))).length : Int) ∧
    1 ≤ (g.resolvePosition M).positionIndex ∧
    (g.resolvePosition M).positionIndex ≤ (g.racers.length : Int) := by
  have hst : g.standings M = (g.racers.enumFrom 0).map
      (fun e => ({ racer := e.1, progress := Racer.progress M g.track e.2 } : Standing K)) := rfl
  -- the player's entry
  have hmem := standings_mem (Racer.progress M g.track) g.racers 0 i hi
  rw [← hst, Nat.zero_add] at hmem
  have hpw := standings_pairwise (Racer.progress M g.track) g.racers 0
  rw [← hst] at hpw
  have hperm : (jsSort (fun a b : Standing K => b.progress - a.progress) (g.standings M)).Perm
      (g.standings M) := List.mergeSort_perm _ _
  have hmem2 := hperm.mem_iff.mpr hmem
  have hne : (g.standings M).Pairwise (fun a b => a.racer ≠ b.racer) :=
    hpw.imp fun h => Nat.ne_of_lt h
  have hinj : ∀ x ∈ jsSort (fun a b : Standing K => b.progress - a.progress) (g.standings M),
      x.racer = i → x = { racer := i, progress := (g.racers.get ⟨i, hi⟩).progress M g.track } := by
    intro x hx hxi
    by_contra hxe
    exact List.Pairwise.forall (fun _ _ h => Ne.symm h) hne (hperm.mem_iff.mp hx) hmem hxe hxi
  have hidx := findIdx_eq_count_ahead _ _ (jsSort_ahead _ hpw) hmem2 hinj
  have hfind : findIndex (fun entry => decide (some entry.racer = g.player))
      (jsSort (fun a b : Standing K => b.progress - a.progress) (g.standings M))
      = ((jsSort (fun a b : Standing K => b.progress - a.progress) (g.standings M)).findIdx
          (fun x => decide (x.racer = i)) : Int) := by
    have hfun : (fun entry : Standing K => decide (some entry.racer = g.player))
        = (fun x => decide (x.racer = i)) := by
      funext x
      simp [hp]
    rw [hfun]
    unfold findIndex
    rw [List.findIdx?_eq_some_of_exists ⟨_, hmem2, by simp⟩]
  have hlt : (jsSort (fun a b : Standing K => b.progress - a.progress) (g.standings M)).findIdx
      (fun x => decide (x.racer = i)) < g.racers.length := by
    have h : (jsSort (fun a b : Standing K => b.progress - a.progress)
          (g.standings M)).findIdx (fun x => decide (x.racer = i))
        < (jsSort (fun a b : Standing K => b.progress - a.progress) (g.standings M)).length :=
      List.findIdx_lt_length_of_exists ⟨_, hmem2, by simp⟩
    rw [hperm.length_eq, hst] at h
    simpa using h
  -- count the entries ahead of the player in the unsorted standings
  have hcount : ((jsSort (fun a b : Standing K => b.progress - a.progress)
        (g.standings M)).filter (fun x => decide (x.ahead
          { racer := i, progress := (g.racers.get ⟨i, hi⟩).progress M g.track }))).length
      = (g.racers.filter (fun r =>
            decide ((g.racers.get ⟨i, hi⟩).progress M g.track < r.progress M g.track))).length
        + ((g.racers.take i).filter (fun r =>
            decide (r.progress M g.track = (g.racers.get ⟨i, hi⟩).progress M g.track))).length := by
    rw [(hperm.filter _).length_eq]
    have hsplit : (fun x : Standing K => decide (x.ahead
          { racer := i, progress := (g.racers.get ⟨i, hi⟩).progress M g.track }))
        = (fun x => (fun y : Standing K =>
              decide ((g.racers.get ⟨i, hi⟩).progress M g.track < y.progress)) x ||
            (fun y : Standing K =>
              decide (y.progress = (g.racers.get ⟨i, hi⟩).progress M g.track) &&
                decide (y.racer < 0 + i)) x) := by
      funext x
      simp [Standing.ahead]
    rw [hsplit, length_filter_or]
    · rw [hst]
      rw [standings_count (Racer.progress M g.track)
        (fun p => decide ((g.racers.get ⟨i, hi⟩).progress M g.track < p)) g.racers 0]
      rw [standings_count_before (Racer.progress M g.track)
        (fun p => decide (p = (g.racers.get ⟨i, hi⟩).progress M g.track)) g.racers 0 i]
    · intro x hx
      simp only [decide_eq_true_eq, Bool.and_eq_true] at hx
      exact absurd hx.2.1 (ne_of_gt hx.1)
  have hpos : (g.resolvePosition M).positionIndex
      = (((g.racers.filter (fun r =>
            decide ((g.racers.get ⟨i, hi⟩).progress M g.track < r.progress M g.track))).length
        + ((g.racers.take i).filter (fun r =>
            decide (r.progress M g.track = (g.racers.get ⟨i, hi⟩).progress M g.track))).length
          : Nat) : Int) + 1 := by
    simp only [Game.resolvePosition, hfind, hidx, hcount]
  rw [hidx, hcount] at hlt
  rw [hpos]
  refine ⟨by push_cast; ring, by omega, by omega⟩

/-- Witness of C10 over the real numbers: the race as set up by `Game.setupRace`
on a 960 by 540 canvas, where the player is racer number 0 of four. -/
theorem resolvePosition_rank_witness :
    ((0 : Nat) < (Game.setupRace (MathLib.mk Real.sqrt (fun y x => Complex.arg ⟨x, y⟩) Real.sin Real.cos Real.pi Real.pi_pos) (Game.constructor (MathLib.mk Real.sqrt (fun y x => Complex.arg ⟨x, y⟩) Real.sin Real.cos Real.pi Real.pi_pos) 960 540 [])).racers.length ∧
      (Game.setupRace (MathLib.mk Real.sqrt (fun y x => Complex.arg ⟨x, y⟩) Real.sin Real.cos Real.pi Real.pi_pos) (Game.constructor (MathLib.mk Real.sqrt (fun y x => Complex.arg ⟨x, y⟩) Real.sin Real.cos Real.pi Real.pi_pos) 960 540 [])).player = some 0) ∧
    1 ≤ ((Game.setupRace (MathLib.mk Real.sqrt (fun y x => Complex.arg ⟨x, y⟩) Real.sin Real.cos Real.pi Real.pi_pos) (Game.constructor (MathLib.mk Real.sqrt (fun y x => Complex.arg ⟨x, y⟩) Real.sin Real.cos Real.pi Real.pi_pos) 960 540 [])).resolvePosition (MathLib.mk Real.sqrt (fun y x => Complex.arg ⟨x, y⟩) Real.sin Real.cos Real.pi Real.pi_pos)).positionIndex ∧
    ((Game.setupRace (MathLib.mk Real.sqrt (fun y x => Complex.arg ⟨x, y⟩) Real.sin Real.cos Real.pi Real.pi_pos) (Game.constructor (MathLib.mk Real.sqrt (fun y x => Complex.arg ⟨x, y⟩) Real.sin Real.cos Real.pi Real.pi_pos) 960 540 [])).resolvePosition (MathLib.mk Real.sqrt (fun y x => Complex.arg ⟨x, y⟩) Real.sin Real.cos Real.pi Real.pi_pos)).positionIndex
      ≤ 4 := by
  have hi : (0 : Nat) < (Game.setupRace (MathLib.mk Real.sqrt (fun y x => Complex.arg ⟨x, y⟩) Real.sin Real.cos Real.pi Real.pi_pos) (Game.constructor (MathLib.mk Real.sqrt (fun y x => Complex.arg ⟨x, y⟩) Real.sin Real.cos Real.pi Real.pi_pos) 960 540 [])).racers.length := by
    simp [Game.setupRace]
  have h := resolvePosition_rank (MathLib.mk Real.sqrt (fun y x => Complex.arg ⟨x, y⟩) Real.sin Real.cos Real.pi Real.pi_pos) (Game.setupRace (MathLib.mk Real.sqrt (fun y x => Complex.arg ⟨x, y⟩) Real.sin Real.cos Real.pi Real.pi_pos) (Game.constructor (MathLib.mk Real.sqrt (fun y x => Complex.arg ⟨x, y⟩) Real.sin Real.cos Real.pi Real.pi_pos) 960 540 [])) 0
    hi rfl
  exact ⟨⟨hi, rfl⟩, h.2.1, h.2.2⟩

/-- C11. `Track.surfaceAt` returns boost 230 together with grip 1.05 and maxSpeed
290 if and only if the position is on-track (outer value at most 1.015, inner
value at least 1), its lane distance `d` satisfies `|d - 1| < 0.09`, and for at
least one boost pad `|shortestAngle(bearing, pad.angle)| < pad.span / 2`; in
every other case boost is 0.  Whenever boost is positive the position lies inside
the lane band `0.88 < d < 1.12`. -/
theorem surfaceAt_boost [FloorRing K] (M : MathLib K) (t : Track K) (p : Vec K) :
    (((t.surfaceAt M p).boost = 230 ∧ (t.surfaceAt M p).grip = 1.05 ∧
        (t.surfaceAt M p).maxSpeed = 290) ↔ (t.onTrack p ∧ t.padMatch M p)) ∧
    (¬ (t.onTrack p ∧ t.padMatch M p) → (t.surfaceAt M p).boost = 0) ∧
    (0 < (t.surfaceAt M p).boost → t.inLaneBand M p) := by
  by_cases hon : t.onTrack p
  · rw [surfaceAt_of_onTrack M t p hon]
    by_cases hpad : t.padMatch M p
    · rw [if_pos hpad]
      exact ⟨⟨fun _ => ⟨hon, hpad⟩, fun _ => ⟨rfl, rfl, rfl⟩⟩,
        fun h => absurd ⟨hon, hpad⟩ h, fun _ => padMatch_inLaneBand M t p hpad⟩
    · rw [if_neg hpad]
      refine ⟨?_, ?_, ?_⟩
      · constructor
        · intro h
          have h1 := h.1
          split_ifs at h1 <;> norm_num at h1
        · intro h; exact absurd h.2 hpad
      · intro _
        split_ifs <;> rfl
      · intro h
        split_ifs at h <;> simp at h
  · obtain ⟨hb, -, -, -⟩ := surfaceAt_of_not_onTrack M t p hon
    refine ⟨?_, fun _ => hb, ?_⟩
    · constructor
      · intro h
        rw [hb] at h
        norm_num at h
      · intro h; exact absurd h.1 hon
    · intro h
      rw [hb] at h
      exact absurd h (lt_irrefl _)

/-- C12. For an on-track position that matches no boost pad: inside the lane band
(`0.88 < d < 1.12`) `Track.surfaceAt` returns grip 0.98, maxSpeed 255, boost 0,
whether or not the position is outside the detail band; outside the lane band it
returns grip 0.68, maxSpeed 190 when the position is outside the detail band
(detail distance above 1.06 or below 0.78) and the baseline grip 0.78, maxSpeed
220 otherwise (outside the lane band no pad can match). -/
theorem surfaceAt_bands [FloorRing K] (M : MathLib K) (t : Track K) (p : Vec K)
    (hon : t.onTrack p) :
    (t.inLaneBand M p ∧ ¬ t.padMatch M p →
      t.surfaceAt M p = { grip := 0.98, maxSpeed := 255, boost := 0, offTrack := false }) ∧
    (¬ t.inLaneBand M p ∧ t.outsideDetailBand M p →
      t.surfaceAt M p = { grip := 0.68, maxSpeed := 190, boost := 0, offTrack := false }) ∧
    (¬ t.inLaneBand M p ∧ ¬ t.outsideDetailBand M p →
      t.surfaceAt M p = { grip := 0.78, maxSpeed := 220, boost := 0, offTrack := false }) := by
  rw [surfaceAt_of_onTrack M t p hon]
  refine ⟨?_, ?_, ?_⟩
  · rintro ⟨h1, h2⟩
    rw [if_neg h2, if_pos h1]
  · rintro ⟨h1, h2⟩
    rw [if_neg (fun h => h1 (padMatch_inLaneBand M t p h)), if_neg h1, if_pos h2]
  · rintro ⟨h1, h2⟩
    rw [if_neg (fun h => h1 (padMatch_inLaneBand M t p h)), if_neg h1, if_neg h2]
/-- Witness of C11 over the real numbers: `padPoint` is on the track and matches
the first boost pad, and the surface there has boost 230, grip 1.05 and maxSpeed
290. -/
theorem surfaceAt_boost_witness :
    ((Track.constructor (MathLib.mk Real.sqrt (fun y x => Complex.arg ⟨x, y⟩) Real.sin Real.cos Real.pi Real.pi_pos) 960 540).onTrack (padPoint (MathLib.mk Real.sqrt (fun y x => Complex.arg ⟨x, y⟩) Real.sin Real.cos Real.pi Real.pi_pos)) ∧
      (Track.constructor (MathLib.mk Real.sqrt (fun y x => Complex.arg ⟨x, y⟩) Real.sin Real.cos Real.pi Real.pi_pos) 960 540).padMatch (MathLib.mk Real.sqrt (fun y x => Complex.arg ⟨x, y⟩) Real.sin Real.cos Real.pi Real.pi_pos) (padPoint (MathLib.mk Real.sqrt (fun y x => Complex.arg ⟨x, y⟩) Real.sin Real.cos Real.pi Real.pi_pos))) ∧
    ((Track.constructor (MathLib.mk Real.sqrt (fun y x => Complex.arg ⟨x, y⟩) Real.sin Real.cos Real.pi Real.pi_pos) 960 540).surfaceAt (MathLib.mk Real.sqrt (fun y x => Complex.arg ⟨x, y⟩) Real.sin Real.cos Real.pi Real.pi_pos) (padPoint (MathLib.mk Real.sqrt (fun y x => Complex.arg ⟨x, y⟩) Real.sin Real.cos Real.pi Real.pi_pos))).boost = 230 ∧
    ((Track.constructor (MathLib.mk Real.sqrt (fun y x => Complex.arg ⟨x, y⟩) Real.sin Real.cos Real.pi Real.pi_pos) 960 540).surfaceAt (MathLib.mk Real.sqrt (fun y x => Complex.arg ⟨x, y⟩) Real.sin Real.cos Real.pi Real.pi_pos) (padPoint (MathLib.mk Real.sqrt (fun y x => Complex.arg ⟨x, y⟩) Real.sin Real.cos Real.pi Real.pi_pos))).grip = 1.05 ∧
    ((Track.constructor (MathLib.mk Real.sqrt (fun y x => Complex.arg ⟨x, y⟩) Real.sin Real.cos Real.pi Real.pi_pos) 960 540).surfaceAt (MathLib.mk Real.sqrt (fun y x => Complex.arg ⟨x, y⟩) Real.sin Real.cos Real.pi Real.pi_pos) (padPoint (MathLib.mk Real.sqrt (fun y x => Complex.arg ⟨x, y⟩) Real.sin Real.cos Real.pi Real.pi_pos))).maxSpeed = 290 :=
  ⟨real_padPoint_match,
    (surfaceAt_boost (MathLib.mk Real.sqrt (fun y x => Complex.arg ⟨x, y⟩) Real.sin Real.cos Real.pi Real.pi_pos) (Track.constructor (MathLib.mk Real.sqrt (fun y x => Complex.arg ⟨x, y⟩) Real.sin Real.cos Real.pi Real.pi_pos) 960 540) (padPoint (MathLib.mk Real.sqrt (fun y x => Complex.arg ⟨x, y⟩) Real.sin Real.cos Real.pi Real.pi_pos))).1.mpr real_padPoint_match⟩

/-- Witness of C12 over the real numbers: the point due east of the centre on the
outer ellipse of the track of a 960 by 540 canvas is on-track, outside the lane
band and outside the detail band. -/
theorem surfaceAt_bands_witness :
    (Track.constructor (MathLib.mk Real.sqrt (fun y x => Complex.arg ⟨x, y⟩) Real.sin Real.cos Real.pi Real.pi_pos) 960 540).onTrack { x := 840, y := 270 } ∧
    (Track.constructor (MathLib.mk Real.sqrt (fun y x => Complex.arg ⟨x, y⟩) Real.sin Real.cos Real.pi Real.pi_pos) 960 540).surfaceAt (MathLib.mk Real.sqrt (fun y x => Complex.arg ⟨x, y⟩) Real.sin Real.cos Real.pi Real.pi_pos) { x := 840, y := 270 }
      = { grip := 0.68, maxSpeed := 190, boost := 0, offTrack := false } := by
  have hon : (Track.constructor (MathLib.mk Real.sqrt (fun y x => Complex.arg ⟨x, y⟩) Real.sin Real.cos Real.pi Real.pi_pos) 960 540).onTrack { x := 840, y := 270 } := by
    simp only [Track.onTrack, Track.ellipseValue, Track.offset, Track.constructor]
    norm_num
  have hlane : (Track.constructor (MathLib.mk Real.sqrt (fun y x => Complex.arg ⟨x, y⟩) Real.sin Real.cos Real.pi Real.pi_pos) 960 540).laneDistance (MathLib.mk Real.sqrt (fun y x => Complex.arg ⟨x, y⟩) Real.sin Real.cos Real.pi Real.pi_pos) { x := 840, y := 270 }
      (Track.constructor (MathLib.mk Real.sqrt (fun y x => Complex.arg ⟨x, y⟩) Real.sin Real.cos Real.pi Real.pi_pos) 960 540).lane = 4 / 3 := by
    simp only [Track.laneDistance, Track.constructor]
    rw [show ((840 : ℝ) - 960 / 2) / 270 * ((840 - 960 / 2) / 270)
        + (270 - 540 / 2) / 155 * ((270 - 540 / 2) / 155) = 4 / 3 * (4 / 3) by norm_num]
    exact Real.sqrt_mul_self (by norm_num)
  have hdetail : (Track.constructor (MathLib.mk Real.sqrt (fun y x => Complex.arg ⟨x, y⟩) Real.sin Real.cos Real.pi Real.pi_pos) 960 540).laneDistance (MathLib.mk Real.sqrt (fun y x => Complex.arg ⟨x, y⟩) Real.sin Real.cos Real.pi Real.pi_pos) { x := 840, y := 270 }
      (Track.constructor (MathLib.mk Real.sqrt (fun y x => Complex.arg ⟨x, y⟩) Real.sin Real.cos Real.pi Real.pi_pos) 960 540).detail = 36 / 31 := by
    simp only [Track.laneDistance, Track.constructor]
    rw [show ((840 : ℝ) - 960 / 2) / 310 * ((840 - 960 / 2) / 310)
        + (270 - 540 / 2) / 185 * ((270 - 540 / 2) / 185) = 36 / 31 * (36 / 31) by norm_num]
    exact Real.sqrt_mul_self (by norm_num)
  refine ⟨hon, (surfaceAt_bands (MathLib.mk Real.sqrt (fun y x => Complex.arg ⟨x, y⟩) Real.sin Real.cos Real.pi Real.pi_pos) (Track.constructor (MathLib.mk Real.sqrt (fun y x => Complex.arg ⟨x, y⟩) Real.sin Real.cos Real.pi Real.pi_pos) 960 540) { x := 840, y := 270 }
    hon).2.1 ⟨?_, ?_⟩⟩
  · simp only [Track.inLaneBand, hlane]
    norm_num
  · simp only [Track.outsideDetailBand, hdetail]
    norm_num

/-- C15 as amended. For all angles `a` and `b`, `shortestAngle(a, b)` returns (both
loops terminate), differs from `a - b` by an integer multiple of `2π`, and lies
in the closed interval `[-π, π]`; it is above `-π` whenever `a - b` is above `π`
or is not of the form `-π - 2πk`, and it is `a - b` itself when `a - b` is
already in `[-π, π]`, in particular `-π` when `a - b = -π`. -/
theorem shortestAngle_range [FloorRing K] (M : MathLib K) (a b : K) :
    (∃ k : Int, shortestAngle M a b = a - b + M.pi * 2 * (k : K)) ∧
    -M.pi ≤ shortestAngle M a b ∧ shortestAngle M a b ≤ M.pi ∧
    ((∀ k : Int, a - b ≠ -M.pi + M.pi * 2 * (k : K)) → -M.pi < shortestAngle M a b) ∧
    (-M.pi ≤ a - b ∧ a - b ≤ M.pi → shortestAngle M a b = a - b) := by
  have hp := M.pi_pos
  obtain ⟨⟨k1, hk1⟩, r1, r2, r3⟩ := raise_spec M (a - b)
  obtain ⟨⟨k2, hk2⟩, l1, l2, l3⟩ := lower_spec M (shortestAngle.raise M (a - b))
  have hk : shortestAngle M a b = a - b + M.pi * 2 * ((k1 + k2 : Int) : K) := by
    unfold shortestAngle
    rw [hk2, hk1]
    push_cast
    ring
  have hge : -M.pi ≤ shortestAngle M a b := by
    unfold shortestAngle
    by_cases h : M.pi < shortestAngle.raise M (a - b)
    · exact (l2 h).le
    · rw [l3 (not_lt.mp h)]
      exact r1
  refine ⟨⟨_, hk⟩, hge, l1, ?_, fun h => shortestAngle_of_mem M a b h.1 h.2⟩
  intro hne
  rcases hge.lt_or_eq with h | h
  · exact h
  · exfalso
    apply hne (-(k1 + k2))
    rw [hk] at h
    push_cast at h ⊢
    linarith

/-- Counterexample to C15 as stated, over the real numbers: for the bearing
`0.05π` and the second boost pad (angle `1.05π`) the difference is `-π`, neither
loop runs, and `shortestAngle` returns `-π`, which is not in `(-π, π]`. -/
theorem shortestAngle_returns_minus_pi :
    shortestAngle (MathLib.mk Real.sqrt (fun y x => Complex.arg ⟨x, y⟩) Real.sin Real.cos Real.pi Real.pi_pos) (Real.pi * 0.05) (Real.pi * 1.05) = -Real.pi ∧
    ¬ (-Real.pi < shortestAngle (MathLib.mk Real.sqrt (fun y x => Complex.arg ⟨x, y⟩) Real.sin Real.cos Real.pi Real.pi_pos) (Real.pi * 0.05) (Real.pi * 1.05)) := by
  have hp := Real.pi_pos
  have h : shortestAngle (MathLib.mk Real.sqrt (fun y x => Complex.arg ⟨x, y⟩) Real.sin Real.cos Real.pi Real.pi_pos) (Real.pi * 0.05) (Real.pi * 1.05) = -Real.pi := by
    rw [shortestAngle_of_mem]
    · ring
    · show -Real.pi ≤ Real.pi * 0.05 - Real.pi * 1.05
      linarith
    · show Real.pi * 0.05 - Real.pi * 1.05 ≤ Real.pi
      linarith
  exact ⟨h, by rw [h]; exact lt_irrefl _⟩

/-- Witness of C15 as amended over the real numbers: the difference `1 - 0` is
already in `[-π, π]` and is returned as it is. -/
theorem shortestAngle_range_witness :
    (-Real.pi ≤ (1 : ℝ) - 0 ∧ (1 : ℝ) - 0 ≤ Real.pi) ∧ shortestAngle (MathLib.mk Real.sqrt (fun y x => Complex.arg ⟨x, y⟩) Real.sin Real.cos Real.pi Real.pi_pos) 1 0 = 1 - 0 := by
  have hp := Real.pi_gt_three
  have h : -Real.pi ≤ (1 : ℝ) - 0 ∧ (1 : ℝ) - 0 ≤ Real.pi := by
    constructor <;> linarith
  exact ⟨h, (shortestAngle_range (MathLib.mk Real.sqrt (fun y x => Complex.arg ⟨x, y⟩) Real.sin Real.cos Real.pi Real.pi_pos) 1 0).2.2.2.2 h⟩
/-- C16 as amended. With the rounding `fl` of doubles (order kept; 0, 1 and
`Math.PI * 2` exact), `Track.normalizeAngle(angle)` lies in the closed interval
`[0, 2π]` for every angle: it is the angle plus a whole number of turns when that
is not negative, and the rounded sum of that and one more turn otherwise;
`normalizeAngle` leaves a result below `2π` unchanged and maps the result `2π` to
0; hence the bearing used for lap detection lies in `[0, 2π]` and
`Racer.currentLapProgress` lies in `[0, 1]` for every bearing `angleFor` returns.
In exact arithmetic (`fl = id`), which is `Track.normalizeAngle` and
`Racer.currentLapProgress` as the other statements use them, the result is below
`2π`, differs from the angle by a whole number of turns, and the lap progress is
below 1. -/
theorem normalizeAngle_closed_range [FloorRing K] (fl : K → K) (pi : K) (hpi : 0 < pi)
    (hl : RoundLaws fl pi) (angle : K) :
    (0 ≤ Track.normalizeAngle.rounded fl pi angle ∧
      Track.normalizeAngle.rounded fl pi angle ≤ pi * 2) ∧
    (∃ k : Int,
      (0 ≤ angle + pi * 2 * (k : K) ∧
        Track.normalizeAngle.rounded fl pi angle = angle + pi * 2 * (k : K)) ∨
      (angle + pi * 2 * (k : K) < 0 ∧
        Track.normalizeAngle.rounded fl pi angle = fl (angle + pi * 2 * (k : K) + pi * 2))) ∧
    (Track.normalizeAngle.rounded fl pi angle < pi * 2 →
      Track.normalizeAngle.rounded fl pi (Track.normalizeAngle.rounded fl pi angle)
        = Track.normalizeAngle.rounded fl pi angle) ∧
    (Track.normalizeAngle.rounded fl pi angle = pi * 2 →
      Track.normalizeAngle.rounded fl pi (Track.normalizeAngle.rounded fl pi angle) = 0) ∧
    (0 ≤ Racer.currentLapProgress.rounded fl pi angle ∧
      Racer.currentLapProgress.rounded fl pi angle ≤ 1) ∧
    (Track.normalizeAngle.rounded id pi angle < pi * 2 ∧
      (∃ k : Int, Track.normalizeAngle.rounded id pi angle = angle + pi * 2 * (k : K)) ∧
      Racer.currentLapProgress.rounded id pi angle < 1) ∧
    (∀ M : MathLib K, M.pi = pi →
      Track.normalizeAngle M angle = Track.normalizeAngle.rounded id pi angle ∧
      ∀ (t : Track K) (r : Racer K),
        r.currentLapProgress M t
          = Racer.currentLapProgress.rounded id pi (t.angleFor M r.position)) := by
  have hr := normalizeAngle_rounded_range fl pi hpi hl angle
  refine ⟨hr, normalizeAngle_rounded_eq_add fl pi angle,
    fun h => normalizeAngle_rounded_of_mem fl pi _ hr.1 h, fun h => ?_,
    currentLapProgress_rounded_range fl pi hpi hl angle,
    ⟨(normalizeAngle_exact pi hpi angle).1, (normalizeAngle_exact pi hpi angle).2,
      currentLapProgress_exact pi hpi angle⟩, fun M hM => ?_⟩
  · rw [h]
    exact normalizeAngle_rounded_twoPi fl pi hpi
  · subst hM
    exact ⟨rfl, fun t r => rfl⟩

/-- Witness of C16 as amended on doubles: `Math.PI` is the double nearest to `π`,
the rounding is `roundDouble`, and the angle is `-2^-70`. -/
theorem normalizeAngle_closed_range_witness :
    (0 < doublePi ∧ RoundLaws roundDouble doublePi) ∧
    (0 ≤ Track.normalizeAngle.rounded roundDouble doublePi tinyAngle ∧
      Track.normalizeAngle.rounded roundDouble doublePi tinyAngle ≤ doublePi * 2) ∧
    (0 ≤ Racer.currentLapProgress.rounded roundDouble doublePi tinyAngle ∧
      Racer.currentLapProgress.rounded roundDouble doublePi tinyAngle ≤ 1) :=
  ⟨⟨by norm_num [doublePi], roundLaws_roundDouble⟩,
    (normalizeAngle_closed_range roundDouble doublePi (by norm_num [doublePi])
      roundLaws_roundDouble tinyAngle).1,
    (normalizeAngle_closed_range roundDouble doublePi (by norm_num [doublePi])
      roundLaws_roundDouble tinyAngle).2.2.2.2.1⟩

/-- Counterexample to C16 as stated, on doubles: `normalizeAngle(-2^-70)` is
exactly `Math.PI * 2`, which is not below `2π`, and a second call returns 0, so
the function is not idempotent; the bearing of the position
`(840, 269.99999999999994)`, about `-2.7e-16`, is normalised to `Math.PI * 2` as
well, and the lap progress there is 1, not below 1. -/
theorem normalizeAngle_returns_two_pi :
    Track.normalizeAngle.rounded roundDouble doublePi tinyAngle = doublePi * 2 ∧
    ¬ (Track.normalizeAngle.rounded roundDouble doublePi tinyAngle < doublePi * 2) ∧
    Track.normalizeAngle.rounded roundDouble doublePi
      (Track.normalizeAngle.rounded roundDouble doublePi tinyAngle) = 0 ∧
    Track.normalizeAngle.rounded roundDouble doublePi
      (Track.normalizeAngle.rounded roundDouble doublePi tinyAngle)
        ≠ Track.normalizeAngle.rounded roundDouble doublePi tinyAngle ∧
    Track.normalizeAngle.rounded roundDouble doublePi edgeBearing = doublePi * 2 ∧
    Racer.currentLapProgress.rounded roundDouble doublePi edgeBearing = 1 ∧
    ¬ (Racer.currentLapProgress.rounded roundDouble doublePi edgeBearing < 1) := by
  have hp : (0 : ℚ) < doublePi := by norm_num [doublePi]
  have h1 : Track.normalizeAngle.rounded roundDouble doublePi tinyAngle = doublePi * 2 :=
    normalizeAngle_rounded_tiny tinyAngle (by norm_num [tinyAngle]) (by norm_num [tinyAngle])
  have h2 : Track.normalizeAngle.rounded roundDouble doublePi edgeBearing = doublePi * 2 :=
    normalizeAngle_rounded_tiny edgeBearing (by norm_num [edgeBearing])
      (by norm_num [edgeBearing])
  have h3 : Racer.currentLapProgress.rounded roundDouble doublePi edgeBearing = 1 := by
    unfold Racer.currentLapProgress.rounded
    simp only [h2]
    rw [div_self (mul_pos hp two_pos).ne', roundDouble_one]
  refine ⟨h1, ?_, ?_, ?_, h2, h3, ?_⟩
  · rw [h1]
    exact lt_irrefl _
  · rw [h1]
    exact normalizeAngle_rounded_twoPi roundDouble doublePi hp
  · rw [h1, normalizeAngle_rounded_twoPi roundDouble doublePi hp]
    exact (mul_pos hp two_pos).ne
  · rw [h3]
    exact lt_irrefl _

/-- C17 as amended. `Racer.controlPlayer` changes the heading by exactly
`steer * (1.8 + min(speed, 260) / 160) * dt`, where `steer = right - left` is
-1, 0 or 1 (0 when left and right are both pressed or both released) and `speed`
is the racer's speed after the thrust of this call has been added to the
velocity; that is the speed of the state on which the policy is invoked when
neither forward nor backward is pressed.  The drift input does not change the
heading. -/
theorem controlPlayer_heading (M : MathLib K) (r : Racer K) (dt : K) (surface : Surface K)
    (i : InputState) :
    (r.controlPlayer M dt surface i).heading =
      r.heading + playerSteer i * (1.8 + min (r.thrustedSpeed M dt i) 260 / 160) * dt ∧
    ((playerSteer i : K) = -1 ∨ (playerSteer i : K) = 0 ∨ (playerSteer i : K) = 1) ∧
    (i.left = i.right → (playerSteer i : K) = 0) ∧
    (i.forward = false ∧ i.backward = false → r.thrustedSpeed M dt i = r.speed M) ∧
    (r.controlPlayer M dt surface { i with drift := true }).heading =
      (r.controlPlayer M dt surface { i with drift := false }).heading := by
  refine ⟨?_, ?_, ?_, ?_, ?_⟩
  · simp only [Racer.controlPlayer, Racer.thrustedSpeed, playerSteer, playerThrust, Racer.speed]
    split_ifs <;> rfl
  · simp only [playerSteer, boolToNumber]
    cases i.right <;> cases i.left <;> norm_num
  · intro h
    simp only [playerSteer, h, sub_self]
  · rintro ⟨h1, h2⟩
    simp [Racer.thrustedSpeed, playerThrust, h1, h2, Racer.speed]
  · simp only [Racer.controlPlayer, Racer.speed]
    split_ifs <;> rfl
/-- Witness of C17 as amended over the real numbers: with no key pressed the
speed read by the steering line is the speed of the racer as it is. -/
theorem controlPlayer_heading_witness :
    ((idleTick (K := ℝ)).inputState.forward = false ∧
      (idleTick (K := ℝ)).inputState.backward = false) ∧
    (crossingRacer (MathLib.mk Real.sqrt (fun y x => Complex.arg ⟨x, y⟩) Real.sin Real.cos Real.pi Real.pi_pos)).thrustedSpeed (MathLib.mk Real.sqrt (fun y x => Complex.arg ⟨x, y⟩) Real.sin Real.cos Real.pi Real.pi_pos) 1 (idleTick (K := ℝ)).inputState
      = (crossingRacer (MathLib.mk Real.sqrt (fun y x => Complex.arg ⟨x, y⟩) Real.sin Real.cos Real.pi Real.pi_pos)).speed (MathLib.mk Real.sqrt (fun y x => Complex.arg ⟨x, y⟩) Real.sin Real.cos Real.pi Real.pi_pos) :=
  ⟨⟨rfl, rfl⟩, (controlPlayer_heading (MathLib.mk Real.sqrt (fun y x => Complex.arg ⟨x, y⟩) Real.sin Real.cos Real.pi Real.pi_pos) (crossingRacer (MathLib.mk Real.sqrt (fun y x => Complex.arg ⟨x, y⟩) Real.sin Real.cos Real.pi Real.pi_pos)) 1 baseSurface
    (idleTick (K := ℝ)).inputState).2.2.2.1 ⟨rfl, rfl⟩⟩

/-- Counterexample to C17 as stated, over the real numbers: for the player at
rest with heading 0, forward and right pressed and `dt = 1`, the heading changes
by `1.8 + 230 / 160` (the speed 230 reached by the thrust of this call), not by
`1.8 + 0 / 160` (the speed 0 of the state on which the policy is invoked). -/
theorem controlPlayer_heading_uses_thrusted_speed :
    ((restRacer (MathLib.mk Real.sqrt (fun y x => Complex.arg ⟨x, y⟩) Real.sin Real.cos Real.pi Real.pi_pos)).controlPlayer (MathLib.mk Real.sqrt (fun y x => Complex.arg ⟨x, y⟩) Real.sin Real.cos Real.pi Real.pi_pos) 1 baseSurface steerInput).heading
      = (restRacer (MathLib.mk Real.sqrt (fun y x => Complex.arg ⟨x, y⟩) Real.sin Real.cos Real.pi Real.pi_pos)).heading + 1 * (1.8 + 230 / 160) * 1 ∧
    ((restRacer (MathLib.mk Real.sqrt (fun y x => Complex.arg ⟨x, y⟩) Real.sin Real.cos Real.pi Real.pi_pos)).controlPlayer (MathLib.mk Real.sqrt (fun y x => Complex.arg ⟨x, y⟩) Real.sin Real.cos Real.pi Real.pi_pos) 1 baseSurface steerInput).heading
      ≠ (restRacer (MathLib.mk Real.sqrt (fun y x => Complex.arg ⟨x, y⟩) Real.sin Real.cos Real.pi Real.pi_pos)).heading
        + playerSteer steerInput * (1.8 + min ((restRacer (MathLib.mk Real.sqrt (fun y x => Complex.arg ⟨x, y⟩) Real.sin Real.cos Real.pi Real.pi_pos)).speed (MathLib.mk Real.sqrt (fun y x => Complex.arg ⟨x, y⟩) Real.sin Real.cos Real.pi Real.pi_pos)) 260 / 160) * 1 := by
  have h230 : Real.sqrt 52900 = 230 := by
    rw [show (52900 : ℝ) = 230 * 230 by norm_num]
    exact Real.sqrt_mul_self (by norm_num)
  have h1 : ((restRacer (MathLib.mk Real.sqrt (fun y x => Complex.arg ⟨x, y⟩) Real.sin Real.cos Real.pi Real.pi_pos)).controlPlayer (MathLib.mk Real.sqrt (fun y x => Complex.arg ⟨x, y⟩) Real.sin Real.cos Real.pi Real.pi_pos) 1 baseSurface steerInput).heading
      = (restRacer (MathLib.mk Real.sqrt (fun y x => Complex.arg ⟨x, y⟩) Real.sin Real.cos Real.pi Real.pi_pos)).heading + 1 * (1.8 + 230 / 160) * 1 := by
    simp only [Racer.controlPlayer, restRacer, Racer.constructor, steerInput, baseSurface,
      directionFromAngle, boolToNumber, Racer.speed, hypot]
    norm_num [h230]
  refine ⟨h1, ?_⟩
  rw [h1]
  simp only [restRacer, Racer.constructor, steerInput, playerSteer, boolToNumber, Racer.speed,
    hypot]
  norm_num

/-- C18. When the damped speed does not exceed `surface.maxSpeed + 50`,
`Racer.applyPhysics` returns the racer with velocity
`v * (1 - 0.68 dt) * (1 - (1 - g) * 1.4 * dt)` componentwise, where
`g = clamp(surface.grip, 0.2, 1.25)`, and nothing else changed; and for every
surface returned by `Track.surfaceAt` the clamp leaves the grip unchanged. -/
theorem applyPhysics_damping [FloorRing K] (M : MathLib K) (r : Racer K) (dt : K)
    (surface : Surface K) :
    (hypot M
        (r.velocity.x * (1 - 0.68 * dt) * (1 - (1 - clamp surface.grip 0.2 1.25) * 1.4 * dt))
        (r.velocity.y * (1 - 0.68 * dt) * (1 - (1 - clamp surface.grip 0.2 1.25) * 1.4 * dt))
        ≤ surface.maxSpeed + 50 →
      r.applyPhysics M dt surface = some { r with velocity :=
        { x := r.velocity.x * (1 - 0.68 * dt) *
            (1 - (1 - clamp surface.grip 0.2 1.25) * 1.4 * dt),
          y := r.velocity.y * (1 - 0.68 * dt) *
            (1 - (1 - clamp surface.grip 0.2 1.25) * 1.4 * dt) } }) ∧
    ∀ (t : Track K) (p : Vec K),
      clamp (t.surfaceAt M p).grip 0.2 1.25 = (t.surfaceAt M p).grip := by
  constructor
  · intro h
    simp only [Racer.applyPhysics, Racer.speed, gt_iff_lt, not_lt.mpr h, if_false]
  · intro t p
    unfold clamp
    rcases surfaceAt_grip M t p with h | h | h | h | h | h <;> rw [h] <;>
      rw [min_eq_right (by norm_num), max_eq_right (by norm_num)]

/-- Witness of C18 over the real numbers: `crossingRacer` (speed 100) on the
baseline surface with `dt = 0` stays below the cap 270 and keeps its velocity
times the two factors. -/
theorem applyPhysics_damping_witness :
    hypot (MathLib.mk Real.sqrt (fun y x => Complex.arg ⟨x, y⟩) Real.sin Real.cos Real.pi Real.pi_pos)
        ((crossingRacer (MathLib.mk Real.sqrt (fun y x => Complex.arg ⟨x, y⟩) Real.sin Real.cos Real.pi Real.pi_pos)).velocity.x * (1 - 0.68 * 0) *
          (1 - (1 - clamp (baseSurface (K := ℝ)).grip 0.2 1.25) * 1.4 * 0))
        ((crossingRacer (MathLib.mk Real.sqrt (fun y x => Complex.arg ⟨x, y⟩) Real.sin Real.cos Real.pi Real.pi_pos)).velocity.y * (1 - 0.68 * 0) *
          (1 - (1 - clamp (baseSurface (K := ℝ)).grip 0.2 1.25) * 1.4 * 0))
        ≤ (baseSurface (K := ℝ)).maxSpeed + 50 ∧
    (crossingRacer (MathLib.mk Real.sqrt (fun y x => Complex.arg ⟨x, y⟩) Real.sin Real.cos Real.pi Real.pi_pos)).applyPhysics (MathLib.mk Real.sqrt (fun y x => Complex.arg ⟨x, y⟩) Real.sin Real.cos Real.pi Real.pi_pos) 0 baseSurface = some { crossingRacer (MathLib.mk Real.sqrt (fun y x => Complex.arg ⟨x, y⟩) Real.sin Real.cos Real.pi Real.pi_pos) with velocity :=
        { x := (crossingRacer (MathLib.mk Real.sqrt (fun y x => Complex.arg ⟨x, y⟩) Real.sin Real.cos Real.pi Real.pi_pos)).velocity.x * (1 - 0.68 * 0) *
            (1 - (1 - clamp (baseSurface (K := ℝ)).grip 0.2 1.25) * 1.4 * 0),
          y := (crossingRacer (MathLib.mk Real.sqrt (fun y x => Complex.arg ⟨x, y⟩) Real.sin Real.cos Real.pi Real.pi_pos)).velocity.y * (1 - 0.68 * 0) *
            (1 - (1 - clamp (baseSurface (K := ℝ)).grip 0.2 1.25) * 1.4 * 0) } } := by
  have h : hypot (MathLib.mk Real.sqrt (fun y x => Complex.arg ⟨x, y⟩) Real.sin Real.cos Real.pi Real.pi_pos)
      ((crossingRacer (MathLib.mk Real.sqrt (fun y x => Complex.arg ⟨x, y⟩) Real.sin Real.cos Real.pi Real.pi_pos)).velocity.x * (1 - 0.68 * 0) *
        (1 - (1 - clamp (baseSurface (K := ℝ)).grip 0.2 1.25) * 1.4 * 0))
      ((crossingRacer (MathLib.mk Real.sqrt (fun y x => Complex.arg ⟨x, y⟩) Real.sin Real.cos Real.pi Real.pi_pos)).velocity.y * (1 - 0.68 * 0) *
        (1 - (1 - clamp (baseSurface (K := ℝ)).grip 0.2 1.25) * 1.4 * 0))
      ≤ (baseSurface (K := ℝ)).maxSpeed + 50 := by
    have e : (crossingRacer (MathLib.mk Real.sqrt (fun y x => Complex.arg ⟨x, y⟩) Real.sin Real.cos Real.pi Real.pi_pos)).velocity = { x := 100, y := 0 } := rfl
    rw [e]
    simp only [mul_zero, sub_zero, mul_one, zero_mul]
    rw [real_hypot_hundred]
    simp only [baseSurface]
    norm_num
  exact ⟨h, (applyPhysics_damping (MathLib.mk Real.sqrt (fun y x => Complex.arg ⟨x, y⟩) Real.sin Real.cos Real.pi Real.pi_pos) (crossingRacer (MathLib.mk Real.sqrt (fun y x => Complex.arg ⟨x, y⟩) Real.sin Real.cos Real.pi Real.pi_pos)) 0 baseSurface).1 h⟩

/-- C19. Damping never speeds a racer up: for every velocity, every surface (any
grip, `maxSpeed ≥ 0`) and every `dt` with `0 ≤ dt ≤ 1`, `Racer.applyPhysics`
returns a racer whose speed is at most the speed before, also on boost pads
where the grip is 1.05. -/
theorem applyPhysics_never_speeds_up {M : MathLib K} (hM : SqrtLaws M) (r : Racer K) (dt : K)
    (surface : Surface K) (hmax : 0 ≤ surface.maxSpeed) (hdt : 0 ≤ dt ∧ dt ≤ 1) :
    ∃ r1 : Racer K, r.applyPhysics M dt surface = some r1 ∧ r1.speed M ≤ r.speed M := by
  obtain ⟨r1, k, h1, -, -, -, h2, -⟩ := applyPhysics_result hM r dt surface hmax
  refine ⟨r1, h1, le_trans h2 ?_⟩
  have e : hypot M (r.dampedVelocity dt surface).x (r.dampedVelocity dt surface).y
      = |(1 - 0.68 * dt) * (1 - (1 - clamp surface.grip 0.2 1.25) * 1.4 * dt)|
        * hypot M r.velocity.x r.velocity.y := by
    rw [← hypot_scale_abs hM]
    simp only [Racer.dampedVelocity, mul_assoc]
  rw [e]
  calc |(1 - 0.68 * dt) * (1 - (1 - clamp surface.grip 0.2 1.25) * 1.4 * dt)|
        * hypot M r.velocity.x r.velocity.y
      ≤ 1 * hypot M r.velocity.x r.velocity.y :=
        mul_le_mul_of_nonneg_right (damping_factor_le_one _ _ hdt.1 hdt.2) (hypot_nonneg hM _ _)
    _ = r.speed M := by rw [one_mul]; rfl

/-- Witness of C19 over the real numbers: `crossingRacer` (speed 100) on a boost
pad (grip 1.05) with `dt = 1/60`. -/
theorem applyPhysics_never_speeds_up_witness :
    (SqrtLaws (MathLib.mk Real.sqrt (fun y x => Complex.arg ⟨x, y⟩) Real.sin Real.cos Real.pi Real.pi_pos) ∧ (0 : ℝ) ≤ (boostSurface (K := ℝ)).maxSpeed ∧
      (0 : ℝ) ≤ 1 / 60 ∧ (1 / 60 : ℝ) ≤ 1) ∧
    ∃ r1 : Racer ℝ, (crossingRacer (MathLib.mk Real.sqrt (fun y x => Complex.arg ⟨x, y⟩) Real.sin Real.cos Real.pi Real.pi_pos)).applyPhysics (MathLib.mk Real.sqrt (fun y x => Complex.arg ⟨x, y⟩) Real.sin Real.cos Real.pi Real.pi_pos) (1 / 60) boostSurface = some r1 ∧
      r1.speed (MathLib.mk Real.sqrt (fun y x => Complex.arg ⟨x, y⟩) Real.sin Real.cos Real.pi Real.pi_pos) ≤ (crossingRacer (MathLib.mk Real.sqrt (fun y x => Complex.arg ⟨x, y⟩) Real.sin Real.cos Real.pi Real.pi_pos)).speed (MathLib.mk Real.sqrt (fun y x => Complex.arg ⟨x, y⟩) Real.sin Real.cos Real.pi Real.pi_pos) := by
  have hmax : (0 : ℝ) ≤ (boostSurface (K := ℝ)).maxSpeed := by
    simp only [boostSurface]
    norm_num
  have hdt : (0 : ℝ) ≤ 1 / 60 ∧ (1 / 60 : ℝ) ≤ 1 := by constructor <;> norm_num
  exact ⟨⟨real_sqrtLaws, hmax, hdt⟩,
    applyPhysics_never_speeds_up real_sqrtLaws (crossingRacer (MathLib.mk Real.sqrt (fun y x => Complex.arg ⟨x, y⟩) Real.sin Real.cos Real.pi Real.pi_pos)) (1 / 60) boostSurface hmax hdt⟩

/-- C14 as amended. A tick with `dt = 0` moves nothing: for every racer that has
not finished and whose position is within the track bounds, and for every input,
`Racer.update` with `dt = 0` returns a racer with the same position and the same
heading, and with the same velocity provided the speed does not exceed
`surface.maxSpeed + 50` for the surface at its position; when the speed exceeds
that cap, the velocity is rescaled by `(maxSpeed + 50) / speed`. -/
theorem update_zero_dt [FloorRing K] (M : MathLib K) (t : Track K) (r : Racer K)
    (i : InputState) (elapsed : K) (hfin : r.finished = false)
    (hb : t.withinBounds r.position) :
    ∃ r1 : Racer K, r.update M 0 t i elapsed = some r1 ∧
      r1.position = r.position ∧ r1.heading = r.heading ∧
      (r.speed M ≤ (t.surfaceAt M r.position).maxSpeed + 50 → r1.velocity = r.velocity) ∧
      ((t.surfaceAt M r.position).maxSpeed + 50 < r.speed M →
        r1.velocity =
          { x := r.velocity.x * (((t.surfaceAt M r.position).maxSpeed + 50) / r.speed M),
            y := r.velocity.y * (((t.surfaceAt M r.position).maxSpeed + 50) / r.speed M) }) :=
  update_dt_zero M t r i elapsed hfin hb

/-- Witness of C14 as amended over the real numbers: the player as reset by
`Game.setupRace` on the track of a 960 by 540 canvas, with no key pressed. -/
theorem update_zero_dt_witness :
    ((startRacer (MathLib.mk Real.sqrt (fun y x => Complex.arg ⟨x, y⟩) Real.sin Real.cos Real.pi Real.pi_pos)).finished = false ∧
      (Track.constructor (MathLib.mk Real.sqrt (fun y x => Complex.arg ⟨x, y⟩) Real.sin Real.cos Real.pi Real.pi_pos) 960 540).withinBounds (startRacer (MathLib.mk Real.sqrt (fun y x => Complex.arg ⟨x, y⟩) Real.sin Real.cos Real.pi Real.pi_pos)).position) ∧
    ∃ r1 : Racer ℝ,
      (startRacer (MathLib.mk Real.sqrt (fun y x => Complex.arg ⟨x, y⟩) Real.sin Real.cos Real.pi Real.pi_pos)).update (MathLib.mk Real.sqrt (fun y x => Complex.arg ⟨x, y⟩) Real.sin Real.cos Real.pi Real.pi_pos) 0 (Track.constructor (MathLib.mk Real.sqrt (fun y x => Complex.arg ⟨x, y⟩) Real.sin Real.cos Real.pi Real.pi_pos) 960 540)
        (idleTick (K := ℝ)).inputState 0 = some r1 ∧
      r1.position = (startRacer (MathLib.mk Real.sqrt (fun y x => Complex.arg ⟨x, y⟩) Real.sin Real.cos Real.pi Real.pi_pos)).position ∧ r1.heading = (startRacer (MathLib.mk Real.sqrt (fun y x => Complex.arg ⟨x, y⟩) Real.sin Real.cos Real.pi Real.pi_pos)).heading := by
  obtain ⟨r1, h1, h2, h3, -⟩ := update_zero_dt (MathLib.mk Real.sqrt (fun y x => Complex.arg ⟨x, y⟩) Real.sin Real.cos Real.pi Real.pi_pos) (Track.constructor (MathLib.mk Real.sqrt (fun y x => Complex.arg ⟨x, y⟩) Real.sin Real.cos Real.pi Real.pi_pos) 960 540)
    (startRacer (MathLib.mk Real.sqrt (fun y x => Complex.arg ⟨x, y⟩) Real.sin Real.cos Real.pi Real.pi_pos)) (idleTick (K := ℝ)).inputState 0 rfl real_start_withinBounds
  exact ⟨⟨rfl, real_start_withinBounds⟩, r1, h1, h2, h3⟩

/-- Counterexample to C14 as stated, over the real numbers: `fastRacer` has not
finished and is within the bounds, its speed 1000 exceeds every cap, and
`Racer.update` with `dt = 0` returns a racer with another velocity. -/
theorem update_zero_dt_changes_velocity :
    (fastRacer (MathLib.mk Real.sqrt (fun y x => Complex.arg ⟨x, y⟩) Real.sin Real.cos Real.pi Real.pi_pos)).finished = false ∧
    (Track.constructor (MathLib.mk Real.sqrt (fun y x => Complex.arg ⟨x, y⟩) Real.sin Real.cos Real.pi Real.pi_pos) 960 540).withinBounds (fastRacer (MathLib.mk Real.sqrt (fun y x => Complex.arg ⟨x, y⟩) Real.sin Real.cos Real.pi Real.pi_pos)).position ∧
    ∃ r1 : Racer ℝ,
      (fastRacer (MathLib.mk Real.sqrt (fun y x => Complex.arg ⟨x, y⟩) Real.sin Real.cos Real.pi Real.pi_pos)).update (MathLib.mk Real.sqrt (fun y x => Complex.arg ⟨x, y⟩) Real.sin Real.cos Real.pi Real.pi_pos) 0 (Track.constructor (MathLib.mk Real.sqrt (fun y x => Complex.arg ⟨x, y⟩) Real.sin Real.cos Real.pi Real.pi_pos) 960 540)
        (idleTick (K := ℝ)).inputState 0 = some r1 ∧
      r1.velocity ≠ (fastRacer (MathLib.mk Real.sqrt (fun y x => Complex.arg ⟨x, y⟩) Real.sin Real.cos Real.pi Real.pi_pos)).velocity := by
  have hb : (Track.constructor (MathLib.mk Real.sqrt (fun y x => Complex.arg ⟨x, y⟩) Real.sin Real.cos Real.pi Real.pi_pos) 960 540).withinBounds (fastRacer (MathLib.mk Real.sqrt (fun y x => Complex.arg ⟨x, y⟩) Real.sin Real.cos Real.pi Real.pi_pos)).position := by
    simp only [Track.withinBounds, Track.ellipseValue, Track.offset, Track.constructor,
      fastRacer]
    norm_num
  have hspeed : (fastRacer (MathLib.mk Real.sqrt (fun y x => Complex.arg ⟨x, y⟩) Real.sin Real.cos Real.pi Real.pi_pos)).speed (MathLib.mk Real.sqrt (fun y x => Complex.arg ⟨x, y⟩) Real.sin Real.cos Real.pi Real.pi_pos) = 1000 := real_hypot_thousand
  have hmax := surfaceAt_maxSpeed_le (MathLib.mk Real.sqrt (fun y x => Complex.arg ⟨x, y⟩) Real.sin Real.cos Real.pi Real.pi_pos) (Track.constructor (MathLib.mk Real.sqrt (fun y x => Complex.arg ⟨x, y⟩) Real.sin Real.cos Real.pi Real.pi_pos) 960 540) (fastRacer (MathLib.mk Real.sqrt (fun y x => Complex.arg ⟨x, y⟩) Real.sin Real.cos Real.pi Real.pi_pos)).position
  obtain ⟨r1, h1, -, -, -, h2⟩ := update_dt_zero (MathLib.mk Real.sqrt (fun y x => Complex.arg ⟨x, y⟩) Real.sin Real.cos Real.pi Real.pi_pos) (Track.constructor (MathLib.mk Real.sqrt (fun y x => Complex.arg ⟨x, y⟩) Real.sin Real.cos Real.pi Real.pi_pos) 960 540)
    (fastRacer (MathLib.mk Real.sqrt (fun y x => Complex.arg ⟨x, y⟩) Real.sin Real.cos Real.pi Real.pi_pos)) (idleTick (K := ℝ)).inputState 0 rfl hb
  refine ⟨rfl, hb, r1, h1, ?_⟩
  rw [h2 (by rw [hspeed]; linarith), hspeed]
  intro hv
  have hx := congrArg Vec.x hv
  simp only [fastRacer] at hx
  have e : (1000 : ℝ) *
      ((((Track.constructor (MathLib.mk Real.sqrt (fun y x => Complex.arg ⟨x, y⟩) Real.sin Real.cos Real.pi Real.pi_pos) 960 540).surfaceAt (MathLib.mk Real.sqrt (fun y x => Complex.arg ⟨x, y⟩) Real.sin Real.cos Real.pi Real.pi_pos) (fastRacer (MathLib.mk Real.sqrt (fun y x => Complex.arg ⟨x, y⟩) Real.sin Real.cos Real.pi Real.pi_pos)).position).maxSpeed + 50)
        / 1000)
      = ((Track.constructor (MathLib.mk Real.sqrt (fun y x => Complex.arg ⟨x, y⟩) Real.sin Real.cos Real.pi Real.pi_pos) 960 540).surfaceAt (MathLib.mk Real.sqrt (fun y x => Complex.arg ⟨x, y⟩) Real.sin Real.cos Real.pi Real.pi_pos) (fastRacer (MathLib.mk Real.sqrt (fun y x => Complex.arg ⟨x, y⟩) Real.sin Real.cos Real.pi Real.pi_pos)).position).maxSpeed
        + 50 := by
    field_simp
  simp only [fastRacer] at e hmax
  rw [e] at hx
  linarith

/-- C20. Racers never end a tick off the track.  (1) For every racer that has not
finished, every `dt`, input and elapsed time, if the position reached after
integration is not the exact centre of the track, `Racer.update` returns a racer
whose position is within the bounds (outer value at most 1, inner value at least
1), so `Track.surfaceAt` there returns `offTrack = false`.  (2) For a racer that
starts on the track, the racer is on the track at the start of every tick of
every run of updates: the off-track descriptors are never read. -/
theorem update_ends_on_track [FloorRing K] {M : MathLib K} (hM : SqrtLaws M) (w h : K) :
    (∀ (r : Racer K) (dt : K) (i : InputState) (elapsed : K), r.finished = false →
      (∀ r3, r.integrated M dt (Track.constructor M w h) i elapsed = some r3 →
        r3.position ≠ (Track.constructor M w h).center) →
      ∃ r1 : Racer K, r.update M dt (Track.constructor M w h) i elapsed = some r1 ∧
        (Track.constructor M w h).withinBounds r1.position ∧
        ((Track.constructor M w h).surfaceAt M r1.position).offTrack = false) ∧
    (∀ (r0 r : Racer K) (ks1 ks2 : List (Tick K)),
      ((Track.constructor M w h).surfaceAt M r0.position).offTrack = false →
      r0.updates M (Track.constructor M w h) (ks1 ++ ks2) = some r →
      ∃ r1 : Racer K, r0.updates M (Track.constructor M w h) ks1 = some r1 ∧
        ((Track.constructor M w h).surfaceAt M r1.position).offTrack = false ∧
        ((Track.constructor M w h).surfaceAt M r.position).offTrack = false) := by
  constructor
  · intro r dt i elapsed hfin hc
    obtain ⟨r1, h1⟩ := update_isSome hM w h r dt i elapsed hc
    have hb := update_withinBounds hM w h r r1 dt i elapsed hfin h1
    exact ⟨r1, h1, hb, surfaceAt_offTrack_of_onTrack M _ _ (withinBounds_onTrack _ _ hb)⟩
  · intro r0 r ks1 ks2 h0 hr
    rw [updates_append] at hr
    cases h1 : r0.updates M (Track.constructor M w h) ks1 with
    | none =>
      rw [h1] at hr
      cases hr
    | some r1 =>
      rw [h1, Option.some_bind] at hr
      have hon1 := updates_onTrack hM w h ks1 r0 r1 h0 h1
      exact ⟨r1, rfl, hon1, updates_onTrack hM w h ks2 r1 r hon1 hr⟩

/-- Witness of C20 over the real numbers: the player as reset by `Game.setupRace`
on the track of a 960 by 540 canvas and the first tick of the loop; the
integration leaves it at `(480, 115)`, not at the centre. -/
theorem update_ends_on_track_witness :
    (SqrtLaws (MathLib.mk Real.sqrt (fun y x => Complex.arg ⟨x, y⟩) Real.sin Real.cos Real.pi Real.pi_pos) ∧ (startRacer (MathLib.mk Real.sqrt (fun y x => Complex.arg ⟨x, y⟩) Real.sin Real.cos Real.pi Real.pi_pos)).finished = false) ∧
    ∃ r1 : Racer ℝ,
      (startRacer (MathLib.mk Real.sqrt (fun y x => Complex.arg ⟨x, y⟩) Real.sin Real.cos Real.pi Real.pi_pos)).update (MathLib.mk Real.sqrt (fun y x => Complex.arg ⟨x, y⟩) Real.sin Real.cos Real.pi Real.pi_pos) 0 (Track.constructor (MathLib.mk Real.sqrt (fun y x => Complex.arg ⟨x, y⟩) Real.sin Real.cos Real.pi Real.pi_pos) 960 540)
        (idleTick (K := ℝ)).inputState 0 = some r1 ∧
      (Track.constructor (MathLib.mk Real.sqrt (fun y x => Complex.arg ⟨x, y⟩) Real.sin Real.cos Real.pi Real.pi_pos) 960 540).withinBounds r1.position ∧
      ((Track.constructor (MathLib.mk Real.sqrt (fun y x => Complex.arg ⟨x, y⟩) Real.sin Real.cos Real.pi Real.pi_pos) 960 540).surfaceAt (MathLib.mk Real.sqrt (fun y x => Complex.arg ⟨x, y⟩) Real.sin Real.cos Real.pi Real.pi_pos) r1.position).offTrack = false :=
  ⟨⟨real_sqrtLaws, rfl⟩, (update_ends_on_track real_sqrtLaws 960 540).1 (startRacer (MathLib.mk Real.sqrt (fun y x => Complex.arg ⟨x, y⟩) Real.sin Real.cos Real.pi Real.pi_pos)) 0
    (idleTick (K := ℝ)).inputState 0 rfl (by
      intro r3 h3
      rw [integrated_dt_zero _ _ r3 _ _ _ h3, real_start_position]
      simp only [Track.constructor, ne_eq, Vec.mk.injEq, not_and]
      intro _
      norm_num)⟩

/-- C13 as amended. Take the player at rest as `Game.setupRace` places it
(`placeOnTrack` with `startOffset = 0`, heading `-π/2`) and apply `Racer.update`
any number of times (300 in particular) with `dt = 1/60` and only forward
pressed.  Every update returns a racer, and the speed after every tick is at most
225, so it never exceeds and never reaches the cap 305: the heading points from
the start position straight at the outer boundary, and `clampToBounds` scales the
velocity by 0.45 whenever a tick ends beyond it. -/
theorem forward_run_below_cap [FloorRing K] {M : MathLib K} (hM : SqrtLaws M)
    (hT : StartTrigLaws M) (n : Nat) :
    ∃ r : Racer K, (startRacer M).updates M (Track.constructor M 960 540) (scenarioTicks n)
        = some r ∧ r.speed M ≤ 225 ∧ r.speed M < 305 := by
  obtain ⟨r, h1, h2⟩ := scenario_speed hM hT n
  exact ⟨r, h1, h2, lt_of_le_of_lt h2 (by norm_num)⟩

/-- Witness of C13 as amended over the real numbers: the 300 ticks of the
scenario. -/
theorem forward_run_below_cap_witness :
    (SqrtLaws (MathLib.mk Real.sqrt (fun y x => Complex.arg ⟨x, y⟩) Real.sin Real.cos Real.pi Real.pi_pos) ∧ StartTrigLaws (MathLib.mk Real.sqrt (fun y x => Complex.arg ⟨x, y⟩) Real.sin Real.cos Real.pi Real.pi_pos)) ∧
    ∃ r : Racer ℝ, (startRacer (MathLib.mk Real.sqrt (fun y x => Complex.arg ⟨x, y⟩) Real.sin Real.cos Real.pi Real.pi_pos)).updates (MathLib.mk Real.sqrt (fun y x => Complex.arg ⟨x, y⟩) Real.sin Real.cos Real.pi Real.pi_pos) (Track.constructor (MathLib.mk Real.sqrt (fun y x => Complex.arg ⟨x, y⟩) Real.sin Real.cos Real.pi Real.pi_pos) 960 540)
        (scenarioTicks 300) = some r ∧ r.speed (MathLib.mk Real.sqrt (fun y x => Complex.arg ⟨x, y⟩) Real.sin Real.cos Real.pi Real.pi_pos) ≤ 225 ∧ r.speed (MathLib.mk Real.sqrt (fun y x => Complex.arg ⟨x, y⟩) Real.sin Real.cos Real.pi Real.pi_pos) < 305 :=
  ⟨⟨real_sqrtLaws, real_startTrigLaws⟩,
    forward_run_below_cap real_sqrtLaws real_startTrigLaws 300⟩

/-- Counterexample to C13 as stated, over the real numbers: in the scenario the
speed reaches 305 after none of the 300 ticks. -/
theorem forward_run_never_reaches_cap :
    ¬ ∃ n : Nat, n ≤ 300 ∧ ∃ r : Racer ℝ,
      (startRacer (MathLib.mk Real.sqrt (fun y x => Complex.arg ⟨x, y⟩) Real.sin Real.cos Real.pi Real.pi_pos)).updates (MathLib.mk Real.sqrt (fun y x => Complex.arg ⟨x, y⟩) Real.sin Real.cos Real.pi Real.pi_pos) (Track.constructor (MathLib.mk Real.sqrt (fun y x => Complex.arg ⟨x, y⟩) Real.sin Real.cos Real.pi Real.pi_pos) 960 540) (scenarioTicks n) = some r ∧
      305 ≤ r.speed (MathLib.mk Real.sqrt (fun y x => Complex.arg ⟨x, y⟩) Real.sin Real.cos Real.pi Real.pi_pos) := by
  rintro ⟨n, -, r, hr, hs⟩
  obtain ⟨r1, h1, h2⟩ := scenario_speed real_sqrtLaws real_startTrigLaws n
  rw [hr] at h1
  cases h1
  linarith

/-- C21. In `Racer.controlAI` the steering error before the wobble term is the
constant 0.24: `shortestAngle(normalizeAngle(a + 0.24), normalizeAngle(a)) = 0.24`
for every number `a`, hence for every bearing returned by `angleFor` (`Math.PI` is
above 0.24).  So on a surface that is not off the track the heading after
`controlAI` is the heading before plus
`(0.24 + 0.02 * sin(0.8 * elapsed + 5 * startOffset)) * 1.9 * dt`, whatever the
heading and the position are, and this is the heading after the whole
`Racer.update` of an unfinished rival on the track. -/
theorem controlAI_heading [FloorRing K] (M : MathLib K) (hpi : 0.24 < M.pi) :
    (∀ a : K,
      shortestAngle M (Track.normalizeAngle M (a + 0.24)) (Track.normalizeAngle M a) = 0.24) ∧
    (∀ (r : Racer K) (dt : K) (surface : Surface K) (track : Track K) (elapsed : K),
      surface.offTrack = false →
      (r.controlAI M dt surface track elapsed).heading =
        r.heading + (0.24 + 0.02 * M.sin (0.8 * elapsed + 5 * r.startOffset)) * 1.9 * dt) ∧
    (∀ (r r1 : Racer K) (dt : K) (track : Track K) (i : InputState) (elapsed : K),
      r.finished = false → r.isPlayer = false →
      (track.surfaceAt M r.position).offTrack = false →
      r.update M dt track i elapsed = some r1 →
      r1.heading =
        r.heading + (0.24 + 0.02 * M.sin (0.8 * elapsed + 5 * r.startOffset)) * 1.9 * dt) :=
  ⟨controlAI_error M hpi,
    fun r dt surface track elapsed hs => controlAI_heading_onTrack M hpi r dt surface track elapsed hs,
    fun r r1 dt track i elapsed hfin hpl hs hr =>
      update_heading_rival M hpi r r1 dt track i elapsed hfin hpl hs hr⟩

/-- Witness of C21 over the real numbers: the bearing `-0.1`, where only the
current angle is wrapped, and the rival "Bink Nova" at the start of a race on the
baseline surface, at `dt = 1/60` and elapsed time 2. -/
theorem controlAI_heading_witness :
    (0.24 : ℝ) < Real.pi ∧
    shortestAngle (MathLib.mk Real.sqrt (fun y x => Complex.arg ⟨x, y⟩) Real.sin Real.cos Real.pi Real.pi_pos) (Track.normalizeAngle (MathLib.mk Real.sqrt (fun y x => Complex.arg ⟨x, y⟩) Real.sin Real.cos Real.pi Real.pi_pos) (-0.1 + 0.24))
      (Track.normalizeAngle (MathLib.mk Real.sqrt (fun y x => Complex.arg ⟨x, y⟩) Real.sin Real.cos Real.pi Real.pi_pos) (-0.1)) = 0.24 ∧
    ((rivalRacer (MathLib.mk Real.sqrt (fun y x => Complex.arg ⟨x, y⟩) Real.sin Real.cos Real.pi Real.pi_pos)).controlAI (MathLib.mk Real.sqrt (fun y x => Complex.arg ⟨x, y⟩) Real.sin Real.cos Real.pi Real.pi_pos) (1 / 60) baseSurface (Track.constructor (MathLib.mk Real.sqrt (fun y x => Complex.arg ⟨x, y⟩) Real.sin Real.cos Real.pi Real.pi_pos) 960 540) 2).heading
      = (rivalRacer (MathLib.mk Real.sqrt (fun y x => Complex.arg ⟨x, y⟩) Real.sin Real.cos Real.pi Real.pi_pos)).heading
        + (0.24 + 0.02 * Real.sin (0.8 * 2 + 5 * (rivalRacer (MathLib.mk Real.sqrt (fun y x => Complex.arg ⟨x, y⟩) Real.sin Real.cos Real.pi Real.pi_pos)).startOffset)) * 1.9 * (1 / 60) :=
  ⟨real_pi_gt, (controlAI_heading (MathLib.mk Real.sqrt (fun y x => Complex.arg ⟨x, y⟩) Real.sin Real.cos Real.pi Real.pi_pos) real_pi_gt).1 (-0.1),
    (controlAI_heading (MathLib.mk Real.sqrt (fun y x => Complex.arg ⟨x, y⟩) Real.sin Real.cos Real.pi Real.pi_pos) real_pi_gt).2.1 (rivalRacer (MathLib.mk Real.sqrt (fun y x => Complex.arg ⟨x, y⟩) Real.sin Real.cos Real.pi Real.pi_pos)) (1 / 60) baseSurface
      (Track.constructor (MathLib.mk Real.sqrt (fun y x => Complex.arg ⟨x, y⟩) Real.sin Real.cos Real.pi Real.pi_pos) 960 540) 2 rfl⟩

/-- C22. `Game.update` is a phase state machine.  For every game `g` reached from
the constructor by clicks on the start button and frames, and every frame `f`:
the only changes of phase are countdown to running and running to finished; in
the phases idle and finished the call changes nothing; in the phase countdown it
returns a game with the same elapsed time, racers and leaderboard, whose counter
is the old one or the old one minus one, and which is in the phase running
exactly when its counter is 0; after `startRace` the game is still in the phase
countdown after any fewer than three frames, whatever their `dt`; in the phase
running, when the racers' updates produce finite numbers, it returns a game with
`dt` added to the elapsed time and with the updated racers, which is in the
phase finished exactly when the updated player has finished, and then its
leaderboard is the old one after one `push` of an entry whose time is the
player's finish time, and otherwise the old one; and a game in the phase
finished is left unchanged, leaderboard included, by any number of frames. -/
theorem update_phases [FloorRing K] (M : MathLib K) (w h : K)
    (stored : List (LeaderboardEntry K)) (evs : List (GameEvent K)) (g : Game K)
    (hg : (Game.constructor M w h stored).handles M evs = some g) (f : Frame K) :
    (∀ g1 : Game K, g.update M f.dt f.inputState f.today = some g1 →
      g1.state = g.state ∨ (g.state = Phase.countdown ∧ g1.state = Phase.running) ∨
        (g.state = Phase.running ∧ g1.state = Phase.finished)) ∧
    (g.state = Phase.idle ∨ g.state = Phase.finished →
      g.update M f.dt f.inputState f.today = some g) ∧
    (g.state = Phase.countdown →
      ∃ g1 : Game K, g.update M f.dt f.inputState f.today = some g1 ∧
        g1.elapsed = g.elapsed ∧ g1.racers = g.racers ∧ g1.leaderboard = g.leaderboard ∧
        (g1.countdown = g.countdown ∨ g1.countdown = g.countdown - 1) ∧
        (g1.state = Phase.countdown ∨ g1.state = Phase.running) ∧
        (g1.state = Phase.running ↔ g1.countdown = 0)) ∧
    (∀ fs : List (Frame K), fs.length < 3 →
      ∃ g1 : Game K, (g.startRace M).updates M fs = some g1 ∧ g1.state = Phase.countdown) ∧
    (g.state = Phase.running → ∀ rs : List (Racer K),
      Game.update.forEach M f.dt g.track f.inputState (g.elapsed + f.dt) g.racers = some rs →
      ∃ (g1 : Game K) (p : Racer K), g.update M f.dt f.inputState f.today = some g1 ∧
        g1.playerRacer = some p ∧ g1.racers = rs ∧ g1.elapsed = g.elapsed + f.dt ∧
        (g1.state = Phase.running ∨ g1.state = Phase.finished) ∧
        (g1.state = Phase.finished ↔ p.finished = true) ∧
        (p.finished = true → ∃ (name : String) (time : K), p.finishTime = some time ∧
          g1.leaderboard = g.leaderboard.push { name := name, time := time }) ∧
        (p.finished = false → g1.leaderboard = g.leaderboard)) ∧
    (g.state = Phase.finished → ∀ fs : List (Frame K), g.updates M fs = some g) := by
  have hr : g.raceReady :=
    handles_raceReady M evs _ g (constructor_raceReady M w h stored) hg
  refine ⟨fun g1 hu => update_transitions M g g1 f hr hu,
    fun hs => update_idle_finished M g f hs, fun hs => ?_, fun fs hlen => ?_,
    fun hs rs hrs => ?_, fun hs fs => updates_finished M g hs fs⟩
  · obtain ⟨g1, e1, h1, h2, -, h3, h4, h5, -, -⟩ := update_countdown M g f hs
    exact ⟨g1, e1, h1, h2, h3, h4, h5, update_countdown_zero M g g1 f hs hr e1⟩
  · refine updates_countdown M fs (g.startRace M) rfl ?_
    have e : (g.startRace M).countdown = 3 := rfl
    rw [e]
    exact_mod_cast hlen
  · obtain ⟨g1, p, e1, h1, h2, h3, -, -, h4, h5, h6, h7⟩ := update_running M g f hs hr rs hrs
    exact ⟨g1, p, e1, h1, h2, h3, h4, h5, h6, h7⟩

/-- Witness of C22 over the real numbers, on a 960 by 540 canvas with nothing
stored: a click and three frames with `dt = 1` lead to the game in the phase
running with elapsed time 0, and a frame with `dt = 0` from there returns a game
with the same elapsed time that is in the phase finished exactly when its player
has finished. -/
theorem update_phases_witness :
    (Game.constructor (MathLib.mk Real.sqrt (fun y x => Complex.arg ⟨x, y⟩) Real.sin Real.cos Real.pi Real.pi_pos) 960 540 []).handles (MathLib.mk Real.sqrt (fun y x => Complex.arg ⟨x, y⟩) Real.sin Real.cos Real.pi Real.pi_pos) goEvents = some (goGame (MathLib.mk Real.sqrt (fun y x => Complex.arg ⟨x, y⟩) Real.sin Real.cos Real.pi Real.pi_pos)) ∧
    ∃ (g1 : Game ℝ) (p : Racer ℝ),
      (goGame (MathLib.mk Real.sqrt (fun y x => Complex.arg ⟨x, y⟩) Real.sin Real.cos Real.pi Real.pi_pos)).update (MathLib.mk Real.sqrt (fun y x => Complex.arg ⟨x, y⟩) Real.sin Real.cos Real.pi Real.pi_pos) (zeroFrame : Frame ℝ).dt (zeroFrame : Frame ℝ).inputState (zeroFrame : Frame ℝ).today = some g1 ∧
      g1.playerRacer = some p ∧ g1.elapsed = (goGame (MathLib.mk Real.sqrt (fun y x => Complex.arg ⟨x, y⟩) Real.sin Real.cos Real.pi Real.pi_pos)).elapsed + (zeroFrame : Frame ℝ).dt ∧
      (g1.state = Phase.finished ↔ p.finished = true) := by
  obtain ⟨rs, hrs⟩ := forEach_dt_zero (MathLib.mk Real.sqrt (fun y x => Complex.arg ⟨x, y⟩) Real.sin Real.cos Real.pi Real.pi_pos) (goGame (MathLib.mk Real.sqrt (fun y x => Complex.arg ⟨x, y⟩) Real.sin Real.cos Real.pi Real.pi_pos)).track (zeroFrame : Frame ℝ).inputState
    ((goGame (MathLib.mk Real.sqrt (fun y x => Complex.arg ⟨x, y⟩) Real.sin Real.cos Real.pi Real.pi_pos)).elapsed + (zeroFrame : Frame ℝ).dt) (goGame (MathLib.mk Real.sqrt (fun y x => Complex.arg ⟨x, y⟩) Real.sin Real.cos Real.pi Real.pi_pos)).racers real_goGame_withinBounds
  obtain ⟨g1, p, e1, h1, -, h3, -, h5, -, -⟩ :=
    (update_phases (MathLib.mk Real.sqrt (fun y x => Complex.arg ⟨x, y⟩) Real.sin Real.cos Real.pi Real.pi_pos) 960 540 [] goEvents (goGame (MathLib.mk Real.sqrt (fun y x => Complex.arg ⟨x, y⟩) Real.sin Real.cos Real.pi Real.pi_pos)) (handles_goEvents (MathLib.mk Real.sqrt (fun y x => Complex.arg ⟨x, y⟩) Real.sin Real.cos Real.pi Real.pi_pos))
      zeroFrame).2.2.2.2.1 rfl rs hrs
  exact ⟨handles_goEvents (MathLib.mk Real.sqrt (fun y x => Complex.arg ⟨x, y⟩) Real.sin Real.cos Real.pi Real.pi_pos), g1, p, e1, h1, h3, h5⟩

end Claims

end BinkRace
